import Mathlib

/-!
# MTPSC: HTTP proxy request codec, worker and response cache
(`proxy_parse.c`, `proxy_server_with_cache.c`)

A shallow embedding of the request parser / serializer of the proxy, of the
choices of the worker thread, and of the response cache.

Conventions of the embedding:

* a byte is a `Nat`; a C string is the `List Nat` of its bytes up to (not
  including) the terminating NUL, so the end of the list plays the role of
  the terminator;
* a `char*` into the working copy is an offset (`Nat`), and the in-place
  NUL writes of the parser (`*p = 0`) become `List.take` at that offset;
* `malloc` / `calloc` / `realloc` succeed;
* a nullable `char*` field is an `Option (List Nat)`;
* the `while (header_line)` loop of the parser runs under an explicit
  iteration bound (the length of the header block); `parse_total` shows that
  the bound is never reached, so the parser returns on every buffer;
* `atoi` is read as glibc's `(int) strtol(s, NULL, 10)`;
* a function that stores into a fixed allocation returns `none` when a store
  would fall outside of it.
-/

namespace MTPSC

/-! ## Bytes and libc string primitives -/

/-- Bytes of an ASCII string literal. -/
def ascii (s : String) : List Nat := s.toList.map Char.toNat

def MAX_METHOD_LEN : Nat := 16
def MAX_HEADER_NAME_LEN : Nat := 64
def MAX_HEADER_VALUE_LEN : Nat := 1024

/-- Width of `size_t` arithmetic (LP64). -/
def SIZE_MOD : Nat := 2 ^ 64

def SP : List Nat := ascii " "
def CRLF : List Nat := ascii "\r\n"
def CRLFCRLF : List Nat := ascii "\r\n\r\n"
def SP_CR_LF : List Nat := ascii " \r\n"
def HTTP_PREFIX : List Nat := ascii "http://"
def SLASH : Nat := 47
def COLON : Nat := 58

/-- C-locale `isspace`: space, and `\t \n \v \f \r`. -/
def isspace (c : Nat) : Bool := c == 32 || (9 ≤ c && c ≤ 13)

/-- C-locale `isdigit`. -/
def isdigit (c : Nat) : Bool := 48 ≤ c && c ≤ 57

/-- C-locale `tolower`. -/
def tolower (c : Nat) : Nat := if 65 ≤ c ∧ c ≤ 90 then c + 32 else c

/-- The C string held by a buffer: the bytes before the first NUL. -/
def cstr (buf : List Nat) : List Nat := buf.takeWhile (fun c => c != 0)

/-- `strstr(haystack, needle)`: offset of the first occurrence, `none` for NULL. -/
def strstr : List Nat → List Nat → Option Nat
  | [], needle => if needle.isEmpty then some 0 else none
  | c :: s, needle =>
    if needle.isPrefixOf (c :: s) then some 0 else (strstr s needle).map (· + 1)

/-- `strchr(s, c)`: offset of the first `c`, `none` for NULL. -/
def strchr : List Nat → Nat → Option Nat
  | [], _ => none
  | x :: s, c => if x = c then some 0 else (strchr s c).map (· + 1)

/-- `strcmp`: the difference of the first pair of differing bytes, the end of
a list read as the terminator. -/
def strcmp : List Nat → List Nat → Int
  | [], s2 => 0 - (s2.headD 0 : Int)
  | c1 :: r1, s2 =>
    if c1 = 0 ∨ c1 ≠ s2.headD 0 then (c1 : Int) - (s2.headD 0 : Int)
    else strcmp r1 s2.tail

/-- `strncmp(a, b, n)`. -/
def strncmp (a b : List Nat) (n : Nat) : Int := strcmp (a.take n) (b.take n)

/-- `strcasecmp`: as `strcmp` on the lower-cased bytes. -/
def strcasecmp : List Nat → List Nat → Int
  | [], s2 => 0 - (tolower (s2.headD 0) : Int)
  | c1 :: r1, s2 =>
    if c1 = 0 ∨ tolower c1 ≠ tolower (s2.headD 0) then
      (tolower c1 : Int) - (tolower (s2.headD 0) : Int)
    else strcasecmp r1 s2.tail

/-- `strncpy(dst, src, n); dst[n] = 0`: at most `n` bytes of `src`. -/
def strncpy (src : List Nat) (n : Nat) : List Nat := src.take n

/-- One call of `strtok` on the string `s` (the argument, or the saved
position) with delimiter set `delim`: the token, or `none` for NULL, and the
new saved position. Leading delimiters are skipped; the token runs to the next
delimiter, which is overwritten and stepped over; at the end of the string the
saved position stays on the terminator. -/
def strtok (s delim : List Nat) : Option (List Nat) × List Nat :=
  match s.dropWhile (fun c => delim.contains c) with
  | [] => (none, [])
  | c :: t =>
    (some ((c :: t).takeWhile (fun x => !delim.contains x)),
      ((c :: t).dropWhile (fun x => !delim.contains x)).tail)

/-- `long` saturation of `strtol`. -/
def clamp_long (n : Int) : Int :=
  if n > 2 ^ 63 - 1 then 2 ^ 63 - 1 else if n < -(2 ^ 63) then -(2 ^ 63) else n

/-- Conversion of a `long` to `int` (two's complement wrap). -/
def long_to_int (n : Int) : Int := (n + 2 ^ 31) % 2 ^ 32 - 2 ^ 31

/-- Value of a run of decimal digits. -/
def digits_value (ds : List Nat) : Nat := ds.foldl (fun acc d => acc * 10 + (d - 48)) 0

/-- `atoi(s)` as `(int) strtol(s, NULL, 10)`: leading white space, an optional
sign, then the longest run of digits. -/
def atoi (s : List Nat) : Int :=
  match s.dropWhile isspace with
  | 45 :: t => long_to_int (clamp_long (-(digits_value (t.takeWhile isdigit) : Int)))
  | 43 :: t => long_to_int (clamp_long (digits_value (t.takeWhile isdigit) : Int))
  | t => long_to_int (clamp_long (digits_value (t.takeWhile isdigit) : Int))

/-- Body of the trailing loop of `trim_whitespace`: drop white space from the
end of the bytes that follow the first one. -/
def trim_trailing : List Nat → List Nat
  | [] => []
  | c :: s =>
    match trim_trailing s with
    | [] => if isspace c then [] else [c]
    | t => c :: t

/-- `trim_whitespace(str)` (proxy_parse.c:17-33): skip leading white space,
then move `end` back from the last byte while `end > start` and `*end` is
white space. -/
def trim_whitespace (str : List Nat) : List Nat :=
  match str.dropWhile isspace with
  | [] => []
  | c :: s => c :: trim_trailing s

/-! ## Data model (`proxy_parse.h`) -/

structure ParsedHeader where
  name : List Nat
  value : List Nat
  deriving DecidableEq, Repr

structure ParsedRequest where
  method : List Nat
  host : Option (List Nat)
  path : Option (List Nat)
  version : Option (List Nat)
  port : Option (List Nat)
  headers : List ParsedHeader
  body : Option (List Nat)
  content_length : Int
  body_length : Nat
  deriving DecidableEq, Repr

/-- `is_valid_method` table (proxy_parse.c:39-42). -/
def valid_methods : List (List Nat) :=
  [ascii "GET", ascii "POST", ascii "PUT", ascii "DELETE", ascii "PATCH",
   ascii "HEAD", ascii "OPTIONS", ascii "TRACE", ascii "CONNECT"]

/-- `is_valid_method` (proxy_parse.c:36-50). -/
def is_valid_method (method : List Nat) : Bool :=
  valid_methods.any (fun m => strcmp method m == 0)

/-- `is_valid_version` (proxy_parse.c:53-56). -/
def is_valid_version (version : List Nat) : Bool :=
  strcmp version (ascii "HTTP/1.0") == 0 || strcmp version (ascii "HTTP/1.1") == 0

/-- `ParsedRequest_create` (proxy_parse.c:59-73). -/
def ParsedRequest_create : ParsedRequest :=
  { method := [], host := none, path := none, version := none, port := none,
    headers := [], body := none, content_length := 0, body_length := 0 }

/-! ## Header list operations -/

/-- The search loop of `ParsedHeader_set` (proxy_parse.c:266-275): overwrite the
value of the first header whose name matches; `none` when no header matches. -/
def update_existing : List ParsedHeader → List Nat → List Nat → Option (List ParsedHeader)
  | [], _, _ => none
  | h :: t, name, value =>
    if strcasecmp h.name name = 0 then
      some ({ h with value := strncpy value (MAX_HEADER_VALUE_LEN - 1) } :: t)
    else (update_existing t name value).map (fun t' => h :: t')

/-- `ParsedHeader_set` (proxy_parse.c:262-291), for non-NULL arguments. -/
def ParsedHeader_set (pr : ParsedRequest) (name value : List Nat) : Int × ParsedRequest :=
  match update_existing pr.headers name value with
  | some hs => (0, { pr with headers := hs })
  | none =>
    (0, { pr with headers :=
            { name := strncpy name (MAX_HEADER_NAME_LEN - 1),
              value := strncpy value (MAX_HEADER_VALUE_LEN - 1) } :: pr.headers })

/-- The loop of `ParsedHeader_get` over the list. -/
def find_header : List ParsedHeader → List Nat → Option (List Nat)
  | [], _ => none
  | h :: t, name => if strcasecmp h.name name = 0 then some h.value else find_header t name

/-- `ParsedHeader_get` (proxy_parse.c:294-306); `none` is NULL. -/
def ParsedHeader_get (pr : ParsedRequest) (name : List Nat) : Option (List Nat) :=
  find_header pr.headers name

/-! ## Parsing (`ParsedRequest_parse`, proxy_parse.c:110-259) -/

/-- URL handling (proxy_parse.c:174-220). -/
def parse_url (pr : ParsedRequest) (url_copy : List Nat) : ParsedRequest :=
  if strncmp url_copy HTTP_PREFIX 7 = 0 then
    let host_start := url_copy.drop 7
    let step1 : ParsedRequest × List Nat :=
      match strchr host_start SLASH with
      | some path_start =>
        ({ pr with path := some (host_start.drop path_start) }, host_start.take path_start)
      | none => ({ pr with path := some (ascii "/") }, host_start)
    let step2 : ParsedRequest × List Nat :=
      match strchr step1.2 COLON with
      | some port_start =>
        ({ step1.1 with port := some (step1.2.drop (port_start + 1)) }, step1.2.take port_start)
      | none => ({ step1.1 with port := some (ascii "80") }, step1.2)
    { step2.1 with host := some step2.2 }
  else
    { pr with path := some url_copy, port := some (ascii "80") }

/-- One iteration of the header loop (proxy_parse.c:227-253) on the token
`header_line`. -/
def parse_header_line (pr : ParsedRequest) (header_line : List Nat) : ParsedRequest :=
  match strchr header_line COLON with
  | none => pr
  | some colon =>
    let name := trim_whitespace (header_line.take colon)
    let value := trim_whitespace (header_line.drop (colon + 1))
    if strcasecmp name (ascii "Host") = 0 ∧ pr.host = none then
      match strchr value COLON with
      | some port_colon =>
        (ParsedHeader_set
          { pr with port := some (value.drop (port_colon + 1)),
                    host := some (value.take port_colon) }
          name (value.take port_colon)).2
      | none => (ParsedHeader_set { pr with host := some value } name value).2
    else if strcasecmp name (ascii "Content-Length") = 0 then
      (ParsedHeader_set { pr with content_length := atoi value } name value).2
    else (ParsedHeader_set pr name value).2

/-- The `while (header_line)` loop (proxy_parse.c:226-255). `header_line` is the
current token (`none` for NULL) and `save` the saved `strtok` position. The
first argument bounds the number of iterations; `none` means the bound was
reached with a token still pending. -/
def parse_header_loop : Nat → ParsedRequest → Option (List Nat) → List Nat → Option ParsedRequest
  | _, pr, none, _ => some pr
  | 0, _, some _, _ => none
  | n + 1, pr, some header_line, save =>
    parse_header_loop n (parse_header_line pr header_line)
      (strtok save CRLF).1 (strtok save CRLF).2

/-- `ParsedRequest_parse(pr, buffer, buflen)` with `buflen = buffer.length`.
The result is the return code and the request as the call leaves it; `none`
only if the iteration bound of the header loop were too small. -/
def ParsedRequest_parse (pr : ParsedRequest) (buffer : List Nat) : Option (Int × ParsedRequest) :=
  if buffer.length ≤ 0 then some (-1, pr) else
  let buf_copy := cstr buffer
  match strstr buf_copy CRLFCRLF with
  | none => some (-1, pr)
  | some headers_end =>
    let body_start := buf_copy.drop (headers_end + 4)
    let pr1 : ParsedRequest :=
      if body_start.length > 0 then
        { pr with body := some body_start, body_length := body_start.length }
      else pr
    let head := buf_copy.take headers_end
    match strstr head CRLF with
    | none => some (-1, pr1)
    | some line_end =>
      let line := head.take line_end
      let t1 := strtok line SP
      let t2 := strtok t1.2 SP
      let t3 := strtok t2.2 SP_CR_LF
      match t1.1, t2.1, t3.1 with
      | some method, some url, some version =>
        if !is_valid_method method || !is_valid_version version then some (-1, pr1) else
        let pr2 : ParsedRequest :=
          { pr1 with method := strncpy method (MAX_METHOD_LEN - 1), version := some version }
        let pr3 := parse_url pr2 url
        let headers_start := head.drop (line_end + 2)
        let t := strtok headers_start CRLF
        match parse_header_loop headers_start.length pr3 t.1 t.2 with
        | none => none
        | some pr4 => some (0, pr4)
      | _, _, _ => some (-1, pr1)

/-! ## Views of a request buffer used to state the properties

Each is the value the corresponding local variable of `ParsedRequest_parse`
has on the buffer. -/

/-- The header section: the working copy cut at `headers_end`
(proxy_parse.c:120, 139). -/
def header_section (buffer : List Nat) : Option (List Nat) :=
  (strstr (cstr buffer) CRLFCRLF).map (fun headers_end => (cstr buffer).take headers_end)

/-- The bytes copied into `body` (proxy_parse.c:127-128): what follows
`headers_end + 4` in the working copy. -/
def body_start (buffer : List Nat) : Option (List Nat) :=
  (strstr (cstr buffer) CRLFCRLF).map (fun headers_end => (cstr buffer).drop (headers_end + 4))

/-- The request line: the header section cut at `line_end`
(proxy_parse.c:142, 147). -/
def request_line (buffer : List Nat) : Option (List Nat) :=
  (header_section buffer).bind (fun head => (strstr head CRLF).map (fun line_end => head.take line_end))

/-- The header block `headers_start` (proxy_parse.c:223). -/
def header_block (buffer : List Nat) : Option (List Nat) :=
  (header_section buffer).bind
    (fun head => (strstr head CRLF).map (fun line_end => head.drop (line_end + 2)))

/-- The three `strtok` results on the request line (proxy_parse.c:150-152). -/
def request_fields (line : List Nat) :
    Option (List Nat) × Option (List Nat) × Option (List Nat) :=
  ((strtok line SP).1,
   (strtok (strtok line SP).2 SP).1,
   (strtok (strtok (strtok line SP).2 SP).2 SP_CR_LF).1)

/-- The request-target `url` (proxy_parse.c:151). -/
def request_target (buffer : List Nat) : Option (List Nat) :=
  (request_line buffer).bind (fun line => (request_fields line).2.1)

/-- The tokens the successive `strtok(…, "\r\n")` calls of the header loop
return, from the current token `t` and saved position `save`. -/
def strtok_all : Nat → Option (List Nat) → List Nat → List (List Nat)
  | _, none, _ => []
  | 0, some _, _ => []
  | n + 1, some t, save => t :: strtok_all n (strtok save CRLF).1 (strtok save CRLF).2

/-- The header lines the loop of `ParsedRequest_parse` visits, in order. -/
def header_lines (buffer : List Nat) : List (List Nat) :=
  match header_block buffer with
  | none => []
  | some hs => strtok_all hs.length (strtok hs CRLF).1 (strtok hs CRLF).2

/-- The request as `ParsedRequest_parse` has it on entry to the header loop
(after proxy_parse.c:126-220), for the tokens `method`, `url`, `version`. -/
def before_headers (pr : ParsedRequest) (body : List Nat) (method url version : List Nat) :
    ParsedRequest :=
  parse_url
    { (if body.length > 0 then { pr with body := some body, body_length := body.length } else pr)
      with method := strncpy method (MAX_METHOD_LEN - 1), version := some version }
    url

/-- Spec: the authority of an absolute-form target, the text between the
`http://` prefix and the first following `/`. -/
def authority (url : List Nat) : List Nat := (url.drop 7).takeWhile (fun c => c != SLASH)

/-! ## Serialization -/

/-- `snprintf(buf, size, ...)` producing `text`: the return value and the
bytes stored before the terminator. -/
def snprintf (size : Nat) (text : List Nat) : Nat × List Nat :=
  (text.length, text.take (size - 1))

/-- Text of one header line, `"%s: %s\r\n"`. -/
def header_text (h : ParsedHeader) : List Nat :=
  h.name ++ ascii ": " ++ h.value ++ CRLF

/-- The loop of `ParsedRequest_unparse_headers` (proxy_parse.c:339-347) from
the header `current` on, at `offset`, with `out` the bytes stored so far. The
guard `offset < buflen - 4` is evaluated in `size_t`. -/
def unparse_headers_loop (buflen : Nat) : List ParsedHeader → Nat → List Nat → Int × List Nat
  | [], _, out => (0, out)
  | h :: t, offset, out =>
    if offset < (buflen + SIZE_MOD - 4) % SIZE_MOD then
      let w := snprintf (buflen - offset) (header_text h)
      if w.1 ≥ buflen - offset then (-1, out ++ w.2)
      else unparse_headers_loop buflen t (offset + w.1) (out ++ w.2)
    else (0, out)

/-- `ParsedRequest_unparse_headers` (proxy_parse.c:333-350): the return code
and the bytes the call stored at `buffer`. -/
def ParsedRequest_unparse_headers (pr : ParsedRequest) (buflen : Nat) : Int × List Nat :=
  if buflen = 0 then (-1, []) else unparse_headers_loop buflen pr.headers 0 []

/-- Text of the request line, `"%s %s %s\r\n"` with the NULL defaults. -/
def request_line_text (pr : ParsedRequest) : List Nat :=
  pr.method ++ SP ++ pr.path.getD (ascii "/") ++ SP ++ pr.version.getD (ascii "HTTP/1.1") ++ CRLF

/-- `ParsedRequest_unparse` (proxy_parse.c:353-381): the return code and the
C string left in `buffer`. -/
def ParsedRequest_unparse (pr : ParsedRequest) (buflen : Nat) : Int × List Nat :=
  if buflen = 0 then (-1, []) else
  let w := snprintf buflen (request_line_text pr)
  if w.1 ≥ buflen then (-1, w.2) else
  let hs := ParsedRequest_unparse_headers pr (buflen - w.1)
  if hs.1 < 0 then (-1, w.2 ++ hs.2) else
  let buffer := w.2 ++ hs.2
  if buffer.length + 2 ≥ buflen then (-1, buffer) else
  let buffer2 := buffer ++ CRLF
  match pr.body with
  | some body =>
    if pr.body_length > 0 then
      if buffer2.length + pr.body_length ≥ buflen then (-1, buffer2)
      else (0, buffer2 ++ body.take pr.body_length)
    else (0, buffer2)
  | none => (0, buffer2)

/-! ## Scenarios -/

def scenarioA : List Nat :=
  ascii "GET http://example.com/foo HTTP/1.1\r\nHost: ignored\r\n\r\n"

def scenarioB : List Nat :=
  ascii "POST /submit HTTP/1.1\r\nHost: api.local:8443\r\nContent-Length: 5\r\n\r\nhello"

def resultA : ParsedRequest :=
  { method := ascii "GET", host := some (ascii "example.com"), path := some (ascii "/foo"),
    version := some (ascii "HTTP/1.1"), port := some (ascii "80"),
    headers := [{ name := ascii "Host", value := ascii "ignored" }],
    body := none, content_length := 0, body_length := 0 }

/-- A header line the loop treats as a Host header: it has a `:` and the
trimmed text before the first `:` is "Host" ignoring case
(proxy_parse.c:227-237). -/
def is_host_line (l : List Nat) : Bool :=
  match strchr l COLON with
  | none => false
  | some colon => strcasecmp (trim_whitespace (l.take colon)) (ascii "Host") == 0

/-- The trimmed value of a header line: the text after its first `:`
(proxy_parse.c:231, 234). -/
def header_value (l : List Nat) : List Nat :=
  match strchr l COLON with
  | none => []
  | some colon => trim_whitespace (l.drop (colon + 1))

/-- The trimmed value of the first Host header line of the request. -/
def first_host_value (buffer : List Nat) : Option (List Nat) :=
  ((header_lines buffer).find? is_host_line).map header_value

def resultB : ParsedRequest :=
  { method := ascii "POST", host := some (ascii "api.local"), path := some (ascii "/submit"),
    version := some (ascii "HTTP/1.1"), port := some (ascii "8443"),
    headers := [{ name := ascii "Content-Length", value := ascii "5" },
                { name := ascii "Host", value := ascii "api.local" }],
    body := some (ascii "hello"), content_length := 5, body_length := 5 }

/-- Spec: the fields of a request line "tokenized on ASCII space": the
non-empty pieces between spaces. -/
def space_fields (line : List Nat) : List (List Nat) :=
  (line.splitOnP (fun c => c == 32)).filter (fun f => !f.isEmpty)

def four_fields : List Nat := ascii "GET http://a/ HTTP/1.1 extra\r\nA: b\r\n\r\n"

def two_fields : List Nat := ascii "GET /\r\nHost: a\r\n\r\n"

def no_host_request : List Nat := ascii "GET / HTTP/1.1\r\nA: b\r\n\r\n"

def relative_target_request : List Nat := ascii "GET foo HTTP/1.1\r\nHost: a\r\n\r\n"

def empty_authority_request : List Nat := ascii "GET http:///x HTTP/1.1\r\nA: b\r\n\r\n"

/-- A header line the loop treats as a Content-Length header: it has a `:` and
the trimmed text before the first `:` is "Content-Length" ignoring case
(proxy_parse.c:247). -/
def is_content_length_line (l : List Nat) : Bool :=
  match strchr l COLON with
  | none => false
  | some colon => strcasecmp (trim_whitespace (l.take colon)) (ascii "Content-Length") == 0

/-- The trimmed value of the last Content-Length header line of the request. -/
def last_content_length_value (buffer : List Nat) : Option (List Nat) :=
  (((header_lines buffer).filter is_content_length_line).getLast?).map header_value

def negative_length_request : List Nat :=
  ascii "POST / HTTP/1.1\r\nHost: a\r\nContent-Length: -5\r\n\r\n"

def nul_in_body_request : List Nat :=
  ascii "POST http://a/ HTTP/1.1\r\nA: b\r\n\r\nhe" ++ [0] ++ ascii "lo"

/-- Spec: the complete rendering of a request, `method SP path SP version
CRLF`, one `name: value CRLF` line per header, a terminating CRLF, then the
body. -/
def complete_rendering (pr : ParsedRequest) : List Nat :=
  request_line_text pr ++ (pr.headers.map header_text).flatten ++ CRLF ++
    (pr.body.getD []).take pr.body_length

def two_header_buffer : List Nat := ascii "GET / HTTP/1.1\r\nC: d\r\nA: b\r\n\r\n"

def two_header_request : ParsedRequest :=
  { method := ascii "GET", host := none, path := some (ascii "/"),
    version := some (ascii "HTTP/1.1"), port := some (ascii "80"),
    headers := [{ name := ascii "A", value := ascii "b" }, { name := ascii "C", value := ascii "d" }],
    body := none, content_length := 0, body_length := 0 }

/-- The header list `ParsedHeader_set` leaves (proxy_parse.c:266-288). -/
def header_list_set (hs : List ParsedHeader) (name value : List Nat) : List ParsedHeader :=
  match update_existing hs name value with
  | some hs' => hs'
  | none =>
    { name := strncpy name (MAX_HEADER_NAME_LEN - 1),
      value := strncpy value (MAX_HEADER_VALUE_LEN - 1) } :: hs

/-- The trimmed name of a header line: the text before its first `:`
(proxy_parse.c:227-233); `none` for a line without `:`, which the loop skips. -/
def header_name (l : List Nat) : Option (List Nat) :=
  (strchr l COLON).map (fun colon => trim_whitespace (l.take colon))

def long_value : List Nat := List.replicate 1024 97

def long_name : List Nat := List.replicate 64 97

/-- The requests made by `ParsedHeader_set` calls for the pairs of `hs`, in
order. -/
def set_all (pr : ParsedRequest) (hs : List (List Nat × List Nat)) : ParsedRequest :=
  hs.foldl (fun p h => (ParsedHeader_set p h.1 h.2).2) pr

def ordered_buffer : List Nat := ascii "GET http://h/ HTTP/1.1\r\nA: 1\r\nB: 2\r\n\r\n"

/-- `checkHTTPversion` (proxy_server_with_cache.c:277-282). -/
def checkHTTPversion (msg : List Nat) : Int :=
  if strncmp msg (ascii "HTTP/1.1") 8 = 0 ∨ strncmp msg (ascii "HTTP/1.0") 8 = 0 then 1 else -1

/-- `is_supported_method` (proxy_server_with_cache.c:284-290). -/
def is_supported_method (method : List Nat) : Bool :=
  strcmp method (ascii "GET") == 0 || strcmp method (ascii "POST") == 0 ||
  strcmp method (ascii "PUT") == 0 || strcmp method (ascii "PATCH") == 0 ||
  strcmp method (ascii "DELETE") == 0

/-- The methods `is_supported_method` names. -/
def supported_methods : List (List Nat) :=
  [ascii "GET", ascii "POST", ascii "PUT", ascii "PATCH", ascii "DELETE"]

/-- What `thread_fn` does with a received request (proxy_server_with_cache.c:347-383):
it sends an error page with the given status, or goes on to the cache lookup
and the upstream exchange with the parsed request. -/
inductive WorkerAction where
  | send_error (status_code : Int)
  | proceed (request : ParsedRequest)
  deriving DecidableEq, Repr

/-- The branch `thread_fn` takes on the received bytes `buffer`
(proxy_server_with_cache.c:347-362). The parser is called with `strlen(buffer)`.
A NULL `version` does not occur after a successful parse; it is read as an
invalid version. -/
def thread_fn_action (buffer : List Nat) : Option WorkerAction :=
  match ParsedRequest_parse ParsedRequest_create (cstr buffer) with
  | none => none
  | some (rc, request) =>
    if rc < 0 then some (WorkerAction.send_error 400)
    else if !is_supported_method request.method then some (WorkerAction.send_error 501)
    else if request.host = none ∨ request.path = none ∨
        request.version.map checkHTTPversion ≠ some 1 then
      some (WorkerAction.send_error 400)
    else some (WorkerAction.proceed request)

def foo_request : List Nat := ascii "FOO / HTTP/1.1\r\nHost: a\r\n\r\n"

def head_request : List Nat := ascii "HEAD / HTTP/1.1\r\nA: b\r\n\r\n"

def get_no_host_request : List Nat := ascii "GET / HTTP/1.1\r\nA: b\r\n\r\n"

/-- Text of the 400 page (proxy_server_with_cache.c:90-98), `currentTime` for `%s`. -/
def error_400_text (currentTime : List Nat) : List Nat :=
  ascii "HTTP/1.1 400 Bad Request\r\nContent-Length: 95\r\nConnection: close\r\nContent-Type: text/html\r\nDate: "
    ++ currentTime ++
  ascii "\r\nServer: ProxyServer/1.0\r\n\r\n<HTML><HEAD><TITLE>400 Bad Request</TITLE></HEAD>\n<BODY><H1>400 Bad Request</H1>\n</BODY></HTML>"

/-- Text of the 404 page (proxy_server_with_cache.c:102-110). -/
def error_404_text (currentTime : List Nat) : List Nat :=
  ascii "HTTP/1.1 404 Not Found\r\nContent-Length: 91\r\nContent-Type: text/html\r\nConnection: close\r\nDate: "
    ++ currentTime ++
  ascii "\r\nServer: ProxyServer/1.0\r\n\r\n<HTML><HEAD><TITLE>404 Not Found</TITLE></HEAD>\n<BODY><H1>404 Not Found</H1>\n</BODY></HTML>"

/-- Text of the 500 page (proxy_server_with_cache.c:114-122). -/
def error_500_text (currentTime : List Nat) : List Nat :=
  ascii "HTTP/1.1 500 Internal Server Error\r\nContent-Length: 115\r\nConnection: close\r\nContent-Type: text/html\r\nDate: "
    ++ currentTime ++
  ascii "\r\nServer: ProxyServer/1.0\r\n\r\n<HTML><HEAD><TITLE>500 Internal Server Error</TITLE></HEAD>\n<BODY><H1>500 Internal Server Error</H1>\n</BODY></HTML>"

/-- Text of the 501 page (proxy_server_with_cache.c:126-134). -/
def error_501_text (currentTime : List Nat) : List Nat :=
  ascii "HTTP/1.1 501 Not Implemented\r\nContent-Length: 103\r\nConnection: close\r\nContent-Type: text/html\r\nDate: "
    ++ currentTime ++
  ascii "\r\nServer: ProxyServer/1.0\r\n\r\n<HTML><HEAD><TITLE>501 Not Implemented</TITLE></HEAD>\n<BODY><H1>501 Not Implemented</H1>\n</BODY></HTML>"

/-- `sendErrorMessage(socket, status_code)` (proxy_server_with_cache.c:79-144)
with `currentTime` the string `strftime` left in its 50-byte buffer: the
return value and the bytes handed to `send` (`none` when nothing is sent). The
message is built by `snprintf` into `char str[1024]`. -/
def sendErrorMessage (status_code : Int) (currentTime : List Nat) : Int × Option (List Nat) :=
  if status_code = 400 then (1, some (snprintf 1024 (error_400_text currentTime)).2)
  else if status_code = 404 then (1, some (snprintf 1024 (error_404_text currentTime)).2)
  else if status_code = 500 then (1, some (snprintf 1024 (error_500_text currentTime)).2)
  else if status_code = 501 then (1, some (snprintf 1024 (error_501_text currentTime)).2)
  else (-1, none)

/-- Spec: the status line of each error response. -/
def error_status_line (status_code : Int) : List Nat :=
  if status_code = 400 then ascii "HTTP/1.1 400 Bad Request\r\n"
  else if status_code = 404 then ascii "HTTP/1.1 404 Not Found\r\n"
  else if status_code = 500 then ascii "HTTP/1.1 500 Internal Server Error\r\n"
  else ascii "HTTP/1.1 501 Not Implemented\r\n"

/-- Spec: the Content-Length value of each error response. -/
def error_content_length (status_code : Int) : Nat :=
  if status_code = 400 then 95 else if status_code = 404 then 91
  else if status_code = 500 then 115 else 103

/-- Decimal digits of a number below 1000. -/
def decimal (n : Nat) : List Nat :=
  if n < 10 then [48 + n]
  else if n < 100 then [48 + n / 10, 48 + n % 10]
  else [48 + n / 100, 48 + n / 10 % 10, 48 + n % 10]

/-- A string in which no occurrence of CRLFCRLF can start: it contains none
and does not end with the beginning of one. -/
def crlfcrlf_free (p : List Nat) : Prop :=
  ¬ CRLFCRLF <:+: p ∧ ¬ [13] <:+ p ∧ ¬ [13, 10] <:+ p ∧ ¬ [13, 10, 13] <:+ p

instance (p : List Nat) : Decidable (crlfcrlf_free p) := by
  unfold crlfcrlf_free; infer_instance

def date_sample : List Nat := ascii "Fri, 30 Oct 2026 10:09:00 GMT"

/-- The header mutation of `handle_request` (proxy_server_with_cache.c:168-178):
`Connection: close` is set, and `Host: <request->host>` is set when
`ParsedHeader_get(request, "Host")` is NULL. With a NULL `host`
`ParsedHeader_set` returns -1 and changes nothing. -/
def upstream_headers (request : ParsedRequest) : ParsedRequest :=
  match ParsedHeader_get (ParsedHeader_set request (ascii "Connection") (ascii "close")).2
      (ascii "Host") with
  | none =>
    match request.host with
    | some host =>
      (ParsedHeader_set (ParsedHeader_set request (ascii "Connection") (ascii "close")).2
        (ascii "Host") host).2
    | none => (ParsedHeader_set request (ascii "Connection") (ascii "close")).2
  | some _ => (ParsedHeader_set request (ascii "Connection") (ascii "close")).2

def long_host_buffer : List Nat :=
  ascii "GET http://" ++ List.replicate 1024 97 ++ ascii "/ HTTP/1.1\r\nA: b\r\n\r\n"

def long_host_request : ParsedRequest :=
  { method := ascii "GET", host := some (List.replicate 1024 97), path := some (ascii "/"),
    version := some (ascii "HTTP/1.1"), port := some (ascii "80"),
    headers := [{ name := ascii "A", value := ascii "b" }],
    body := none, content_length := 0, body_length := 0 }

/-! ## The response cache (`proxy_server_with_cache.c`)

The globals `head`, `cache_size` and `lock` are the fields of `Cache`. A cache
operation returns `none` when the call never returns: `lock` is a default
(non-recursive) mutex, so `pthread_mutex_lock` on a mutex the caller already
holds blocks for ever. `time(NULL)` is the argument `now`. -/

def MAX_BYTES : Nat := 8192

/-- `MAX_SIZE`, `200*(1<<20)`. -/
def MAX_SIZE : Int := 200 * 2 ^ 20

/-- `MAX_ELEMENT_SIZE`, `10*(1<<20)`. -/
def MAX_ELEMENT_SIZE : Int := 10 * 2 ^ 20

/-- `sizeof(cache_element)` on LP64: three pointers, an `int` padded to 8
bytes, a `time_t` and the `next` pointer. -/
def SIZEOF_CACHE_ELEMENT : Int := 48

/-- Conversion of a `size_t` value to `int`: the expression is reduced modulo
2^64 and then to the 32-bit two's complement range. -/
def size_t_to_int (n : Int) : Int := long_to_int (n % 2 ^ 64)

/-- `struct cache_element` without its `next` link; the list of the elements
from `head` on is `Cache.head`. -/
structure cache_element where
  data : List Nat
  len : Int
  url : List Nat
  method : List Nat
  lru_time_track : Int
  deriving DecidableEq, Repr

structure Cache where
  head : List cache_element
  cache_size : Int
  locked : Bool
  deriving DecidableEq, Repr

/-- The cache at start-up: `head` NULL, `cache_size` 0, `lock` free. -/
def empty_cache : Cache := { head := [], cache_size := 0, locked := false }

/-- `pthread_mutex_lock(&lock)` by the running thread: `none` when it already
holds the mutex. -/
def pthread_mutex_lock (c : Cache) : Option Cache :=
  if c.locked then none else some { c with locked := true }

/-- `pthread_mutex_unlock(&lock)`. -/
def pthread_mutex_unlock (c : Cache) : Cache := { c with locked := false }

/-- The `while(site != NULL)` loop of `find` (proxy_server_with_cache.c:485-492):
the element `site` ends on (`none` for NULL) and the list with its
`lru_time_track` updated. -/
def find_loop : List cache_element → List Nat → List Nat → Int →
    Option cache_element × List cache_element
  | [], _, _, _ => (none, [])
  | site :: rest, url, method, now =>
    if strcmp site.url url = 0 ∧ strcmp site.method method = 0 then
      (some { site with lru_time_track := now }, { site with lru_time_track := now } :: rest)
    else ((find_loop rest url method now).1, site :: (find_loop rest url method now).2)

/-- `find(url, method)` (proxy_server_with_cache.c:474-497). -/
def find (c : Cache) (url method : List Nat) (now : Int) : Option (Option cache_element × Cache) :=
  match pthread_mutex_lock c with
  | none => none
  | some c1 =>
    some ((find_loop c1.head url method now).1,
      pthread_mutex_unlock { c1 with head := (find_loop c1.head url method now).2 })

/-- The `for(q = head; q->next != NULL; q = q->next)` loop of
`remove_cache_element` (proxy_server_with_cache.c:512-517): `temp` is the
position of the oldest element seen so far and `temp_time` its time stamp, `i`
the position of `q->next`, the list argument the elements from `q->next` on.
The result is the final position of `temp`. -/
def oldest_scan : Nat → Int → Nat → List cache_element → Nat
  | temp, _, _, [] => temp
  | temp, temp_time, i, next :: rest =>
    if next.lru_time_track < temp_time then oldest_scan i next.lru_time_track (i + 1) rest
    else oldest_scan temp temp_time (i + 1) rest

/-- `remove_cache_element()` (proxy_server_with_cache.c:499-537). -/
def remove_cache_element (c : Cache) : Option Cache :=
  match pthread_mutex_lock c with
  | none => none
  | some c1 =>
    match c1.head with
    | [] => some (pthread_mutex_unlock c1)
    | first :: rest =>
      let temp_idx := oldest_scan 0 first.lru_time_track 1 rest
      let temp := (first :: rest).getD temp_idx first
      some (pthread_mutex_unlock
        { c1 with
          head := (first :: rest).eraseIdx temp_idx,
          cache_size := size_t_to_int (c1.cache_size - temp.len - SIZEOF_CACHE_ELEMENT
            - temp.url.length - temp.method.length - 2) })

/-- The loop `while(cache_size + element_size > MAX_SIZE) remove_cache_element();`
(proxy_server_with_cache.c:555-557) with an iteration bound; `none` when a
call of `remove_cache_element` does not return or the bound is reached. -/
def evict_loop : Nat → Cache → Int → Option Cache
  | 0, c, element_size => if c.cache_size + element_size > MAX_SIZE then none else some c
  | n + 1, c, element_size =>
    if c.cache_size + element_size > MAX_SIZE then
      match remove_cache_element c with
      | none => none
      | some c' => evict_loop n c' element_size
    else some c

/-- `add_cache_element(data, size, url, method)` (proxy_server_with_cache.c:539-593):
the return value and the cache, `none` when the call never returns. `data`
holds at least `size` bytes. -/
def add_cache_element (c : Cache) (data : List Nat) (size : Int) (url method : List Nat)
    (now : Int) : Option (Int × Cache) :=
  match pthread_mutex_lock c with
  | none => none
  | some c1 =>
    let element_size := size_t_to_int
      (size + 1 + url.length + method.length + 2 + SIZEOF_CACHE_ELEMENT)
    if element_size > MAX_ELEMENT_SIZE then some (0, pthread_mutex_unlock c1)
    else
      match evict_loop (c1.head.length + 1) c1 element_size with
      | none => none
      | some c2 =>
        some (1, pthread_mutex_unlock
          { c2 with
            head := { data := data.take size.toNat, len := size, url := url, method := method,
                      lru_time_track := now } :: c2.head,
            cache_size := c2.cache_size + element_size })


def cache_two_entries : Cache :=
  { head := [{ data := ascii "new", len := 3, url := ascii "k", method := ascii "GET",
               lru_time_track := 20 },
             { data := ascii "x", len := 1, url := ascii "j", method := ascii "GET",
               lru_time_track := 10 },
             { data := ascii "old", len := 3, url := ascii "k", method := ascii "GET",
               lru_time_track := 5 }],
    cache_size := 172, locked := false }

/-- The arguments of one `add_cache_element` call and the time of the call. -/
structure InsertRequest where
  data : List Nat
  size : Int
  url : List Nat
  method : List Nat
  now : Int

/-- A run of `add_cache_element` calls that all return 1; `none` when one of
them does not. -/
def insert_all : Cache → List InsertRequest → Option Cache
  | c, [] => some c
  | c, r :: rs =>
    match add_cache_element c r.data r.size r.url r.method r.now with
    | some (1, c') => insert_all c' rs
    | _ => none

/-- The element `add_cache_element` links for a request. -/
def new_element (r : InsertRequest) : cache_element :=
  { data := r.data.take r.size.toNat, len := r.size, url := r.url, method := r.method,
    lru_time_track := r.now }

/-- A payload of 2^31 - 2 bytes. -/
def huge_payload : List Nat := List.replicate 2147483646 0

/-- Twenty inserts of 10485000 bytes each under the keys `a`, `b`, ... -/
def fill_requests : List InsertRequest :=
  (List.range 20).map (fun i =>
    { data := List.replicate 10485000 0, size := 10485000, url := [97 + i],
      method := ascii "GET", now := i })

def tie_requests : List InsertRequest :=
  [{ data := ascii "first", size := 5, url := ascii "a", method := ascii "GET", now := 100 },
   { data := ascii "second", size := 6, url := ascii "b", method := ascii "GET", now := 100 }]

def ordered_requests : List InsertRequest :=
  [{ data := ascii "first", size := 5, url := ascii "a", method := ascii "GET", now := 100 },
   { data := ascii "second", size := 6, url := ascii "b", method := ascii "GET", now := 101 }]

/-- A call of one of the two cache operations the worker uses. -/
inductive CacheCall where
  | add (r : InsertRequest)
  | find (url method : List Nat) (now : Int)

/-- The cache after a sequence of calls that all return; `none` when one of
them does not return. -/
def run_calls : Cache → List CacheCall → Option Cache
  | c, [] => some c
  | c, CacheCall.add r :: rest =>
    match add_cache_element c r.data r.size r.url r.method r.now with
    | none => none
    | some res => run_calls res.2 rest
  | c, CacheCall.find url method now :: rest =>
    match find c url method now with
    | none => none
    | some res => run_calls res.2 rest

/-- The size the cache charges for an entry: payload, key, method and the
overhead of 3 bytes and the `struct`. -/
def accounted_size (e : cache_element) : Int :=
  e.len + e.url.length + e.method.length + 3 + SIZEOF_CACHE_ELEMENT

/-- The size bounds of the cache. -/
def cache_bounds (c : Cache) : Prop :=
  c.locked = false ∧ c.cache_size ≤ MAX_SIZE ∧ ∀ e ∈ c.head, accounted_size e ≤ MAX_ELEMENT_SIZE

/-- The arguments of an insert do not overflow `int element_size`. -/
def fits_int (r : InsertRequest) : Prop :=
  0 ≤ r.size ∧ r.size + r.url.length + r.method.length + 3 + SIZEOF_CACHE_ELEMENT < 2 ^ 31

/-- The result of `ParsedRequest_parse` as a function of the body bytes, the
request line and the header lines of the buffer (`none` where the parser finds
no CRLFCRLF, or no CRLF before it). -/
def parse_from_views (pr : ParsedRequest) (body line : Option (List Nat))
    (lines : List (List Nat)) : Int × ParsedRequest :=
  match body with
  | none => (-1, pr)
  | some body =>
    match line with
    | none =>
      (-1, if body.length > 0 then { pr with body := some body, body_length := body.length }
           else pr)
    | some line =>
      match (request_fields line).1, (request_fields line).2.1, (request_fields line).2.2 with
      | some method, some url, some version =>
        if !is_valid_method method || !is_valid_version version then
          (-1, if body.length > 0 then { pr with body := some body, body_length := body.length }
               else pr)
        else (0, lines.foldl parse_header_line (before_headers pr body method url version))
      | _, _, _ =>
        (-1, if body.length > 0 then { pr with body := some body, body_length := body.length }
             else pr)

/-- Spec: two header lines that differ only in leading or trailing ASCII white
space around the value, the text after the first `:` of the line. -/
def same_header_line (l1 l2 : List Nat) : Prop :=
  l1 = l2 ∨
  ∃ n v w1 t1 w2 t2 : List Nat, COLON ∉ n ∧
    (∀ c ∈ w1 ++ t1 ++ w2 ++ t2, isspace c = true) ∧
    l1 = n ++ COLON :: (w1 ++ v ++ t1) ∧ l2 = n ++ COLON :: (w2 ++ v ++ t2)

def plain_value_buffer : List Nat := ascii "GET http://h/ HTTP/1.1\r\nA: b\r\n\r\n"

def padded_value_buffer : List Nat := ascii "GET http://h/ HTTP/1.1\r\nA: \t b \t\r\n\r\n"

def line_feed_value_buffer : List Nat := ascii "GET http://h/ HTTP/1.1\r\nA: \nb\r\n\r\n"

def lower_connection_buffer : List Nat :=
  ascii "GET http://h/ HTTP/1.1\r\nconnection: keep-alive\r\n\r\n"

def ordered_request : ParsedRequest :=
  { method := ascii "GET", host := some (ascii "h"), path := some (ascii "/"),
    version := some (ascii "HTTP/1.1"), port := some (ascii "80"),
    headers := [{ name := ascii "B", value := ascii "2" }, { name := ascii "A", value := ascii "1" }],
    body := none, content_length := 0, body_length := 0 }

def duplicate_name_buffer : List Nat := ascii "GET http://h/ HTTP/1.1\r\nA: 1\r\na: 2\r\n\r\n"

def duplicate_name_request : ParsedRequest :=
  { method := ascii "GET", host := some (ascii "h"), path := some (ascii "/"),
    version := some (ascii "HTTP/1.1"), port := some (ascii "80"),
    headers := [{ name := ascii "A", value := ascii "2" }],
    body := none, content_length := 0, body_length := 0 }

def lower_connection_request : ParsedRequest :=
  { method := ascii "GET", host := some (ascii "h"), path := some (ascii "/"),
    version := some (ascii "HTTP/1.1"), port := some (ascii "80"),
    headers := [{ name := ascii "connection", value := ascii "keep-alive" }],
    body := none, content_length := 0, body_length := 0 }

def no_header_request : List Nat := ascii "GET / HTTP/1.1\r\n\r\n"

/-- A cache whose two oldest entries carry the same time stamp. -/
def cache_with_tie : Cache :=
  { head := [{ data := ascii "c", len := 1, url := ascii "c", method := ascii "GET",
               lru_time_track := 7 },
             { data := ascii "b", len := 1, url := ascii "b", method := ascii "GET",
               lru_time_track := 3 },
             { data := ascii "a", len := 1, url := ascii "a", method := ascii "GET",
               lru_time_track := 3 }],
    cache_size := 168, locked := false }

/-! ## The upstream request and the relay loop of `handle_request` -/

/-- The capture variables of the relay loop of `handle_request`
(proxy_server_with_cache.c:223-225): the bytes stored in `response_buffer` so
far, `total_response_size` and `response_capacity`, the number of bytes
allocated. -/
structure Capture where
  response_buffer : List Nat
  total_response_size : Int
  response_capacity : Int
  deriving DecidableEq, Repr

/-- The capture variables on entry to the loop, for a request that is cached
(`malloc(response_capacity)` succeeded). -/
def capture_start : Capture :=
  { response_buffer := [], total_response_size := 0, response_capacity := MAX_BYTES }

/-- The capture part of one iteration of the relay loop
(proxy_server_with_cache.c:246-258) for the `bytes_recv` bytes `chunk` in `buf`:
the capacity is doubled when `total_response_size + bytes_recv` reaches it, and
the chunk is copied at `total_response_size`. The `int` results wrap; `none`
when the copy would write outside the `response_capacity` bytes allocated. -/
def capture_chunk (s : Capture) (chunk : List Nat) : Option Capture :=
  let bytes_recv : Int := chunk.length
  let new_size := long_to_int (s.total_response_size + bytes_recv)
  let response_capacity :=
    if new_size ≥ s.response_capacity then long_to_int (s.response_capacity * 2)
    else s.response_capacity
  if 0 ≤ s.total_response_size ∧ s.total_response_size + bytes_recv ≤ response_capacity then
    some { response_buffer := s.response_buffer ++ chunk,
           total_response_size := new_size,
           response_capacity := response_capacity }
  else none

/-- The relay loop over the chunks `recv` delivers, in order. -/
def capture_loop : Capture → List (List Nat) → Option Capture
  | s, [] => some s
  | s, chunk :: rest =>
    match capture_chunk s chunk with
    | none => none
    | some s' => capture_loop s' rest

/-- The terminator store `response_buffer[total_response_size] = 0` after the
loop (proxy_server_with_cache.c:266): the C string left in the buffer, `none`
when the index is outside the allocation. -/
def capture_finish (s : Capture) : Option (List Nat) :=
  if 0 ≤ s.total_response_size ∧ s.total_response_size < s.response_capacity then
    some (cstr s.response_buffer)
  else none

def sample_chunks : List (List Nat) :=
  [List.replicate 8191 65, List.replicate 8191 66, List.replicate 1 67]

/-- The request line `handle_request` builds at the start of `buf` with
`strcpy` and `strcat` (proxy_server_with_cache.c:159-164). `thread_fn` calls
`handle_request` with a non-NULL `path` and `version` only. -/
def upstream_request_line (request : ParsedRequest) : List Nat :=
  request.method ++ SP ++ request.path.getD [] ++ SP ++ request.version.getD [] ++ CRLF

/-- The C string `handle_request` builds in the `MAX_BYTES` bytes of `buf`
(proxy_server_with_cache.c:152-185): the request line, the header lines that
`ParsedRequest_unparse_headers` stores at `buf + len` with
`(size_t)MAX_BYTES - len` bytes of room after the header mutation, and the
final CRLF. The result is `none` when a `strcpy` or `strcat` writes outside
`buf`, the terminator included. -/
def upstream_block (request : ParsedRequest) : Option (List Nat) :=
  let line := upstream_request_line request
  if line.length ≥ MAX_BYTES then none
  else
    let hs := ParsedRequest_unparse_headers (upstream_headers request) (MAX_BYTES - line.length)
    if line.length + hs.2.length + 2 ≥ MAX_BYTES then none
    else some (line ++ hs.2 ++ CRLF)

/-- An absolute-form target of 9009 bytes. -/
def long_target : List Nat := ascii "http://h/" ++ List.replicate 9000 97

/-- The request `GET http://h/aaa...a HTTP/1.1` with the header line `A: b`,
9032 bytes. -/
def long_target_buffer : List Nat :=
  ascii "GET" ++ SP ++ long_target ++ SP ++ ascii "HTTP/1.1" ++ CRLF ++ ascii "A: b" ++ CRLFCRLF

def host_kept_buffer : List Nat :=
  ascii "GET http://example.com/foo HTTP/1.1\r\nHost: other:99\r\nA: 1\r\n\r\n"

def host_kept_request : ParsedRequest :=
  { method := ascii "GET", host := some (ascii "example.com"), path := some (ascii "/foo"),
    version := some (ascii "HTTP/1.1"), port := some (ascii "80"),
    headers := [{ name := ascii "A", value := ascii "1" },
                { name := ascii "Host", value := ascii "other:99" }],
    body := none, content_length := 0, body_length := 0 }

/-- Two inserts with a lookup after each. -/
def sample_calls : List CacheCall :=
  [CacheCall.add { data := ascii "first", size := 5, url := ascii "a", method := ascii "GET",
                   now := 100 },
   CacheCall.find (ascii "a") (ascii "GET") 101,
   CacheCall.add { data := ascii "second", size := 6, url := ascii "b", method := ascii "GET",
                   now := 102 },
   CacheCall.find (ascii "z") (ascii "GET") 103]

/-! ## Lemmas on the string primitives -/

theorem strchr_none_iff (s : List Nat) (c : Nat) : strchr s c = none ↔ c ∉ s := by
  induction s with
  | nil => simp [strchr]
  | cons x s ih =>
    by_cases hx : x = c
    · simp [strchr, hx]
    · have hx' : ¬ c = x := fun h => hx h.symm
      simp [strchr, hx, hx', ih]

theorem strchr_some_split (s : List Nat) (c i : Nat) (h : strchr s c = some i) :
    s.take i = s.takeWhile (fun x => x != c) ∧ s.drop i = s.dropWhile (fun x => x != c) := by
  induction s generalizing i with
  | nil => simp [strchr] at h
  | cons x s ih =>
    by_cases hx : x = c
    · simp [strchr, hx] at h
      subst h
      simp [hx]
    · simp only [strchr, hx, if_false, Option.map_eq_some'] at h
      obtain ⟨j, hj, rfl⟩ := h
      have := ih j hj
      simp [hx, this.1, this.2]

theorem strchr_none_split (s : List Nat) (c : Nat) (h : strchr s c = none) :
    s.takeWhile (fun x => x != c) = s ∧ s.dropWhile (fun x => x != c) = [] := by
  rw [strchr_none_iff] at h
  constructor
  · rw [List.takeWhile_eq_self_iff]
    intro x hx
    simp
    rintro rfl
    exact h hx
  · rw [List.dropWhile_eq_nil_iff]
    intro x hx
    simp
    rintro rfl
    exact h hx

theorem tolower_eq_zero (c : Nat) : tolower c = 0 ↔ c = 0 := by
  unfold tolower
  split <;> omega

theorem cstr_nil : cstr [] = [] := rfl

theorem cstr_cons_zero (s : List Nat) : cstr (0 :: s) = [] := by simp [cstr]

theorem cstr_cons_ne (c : Nat) (s : List Nat) (h : c ≠ 0) : cstr (c :: s) = c :: cstr s := by
  simp [cstr, h]

theorem zero_not_mem_cstr (buf : List Nat) : 0 ∉ cstr buf := by
  intro h
  have := List.mem_takeWhile_imp h
  simp at this

theorem cstr_eq_self (s : List Nat) (h : 0 ∉ s) : cstr s = s := by
  unfold cstr
  rw [List.takeWhile_eq_self_iff]
  intro x hx
  simp
  rintro rfl
  exact h hx

theorem strcasecmp_eq_zero_iff (a b : List Nat) :
    strcasecmp a b = 0 ↔ (cstr a).map tolower = (cstr b).map tolower := by
  induction a generalizing b with
  | nil =>
    cases b with
    | nil => simp [strcasecmp, cstr, tolower]
    | cons c2 r2 =>
      by_cases h2 : c2 = 0
      · subst h2; simp [strcasecmp, cstr, tolower]
      · have : tolower c2 ≠ 0 := fun h => h2 ((tolower_eq_zero c2).1 h)
        simp [strcasecmp, cstr_cons_ne _ _ h2, cstr_nil]
        omega
  | cons c1 r1 ih =>
    by_cases h1 : c1 = 0
    · subst h1
      cases b with
      | nil => simp [strcasecmp, cstr, tolower]
      | cons c2 r2 =>
        by_cases h2 : c2 = 0
        · subst h2; simp [strcasecmp, cstr, tolower]
        · have : tolower c2 ≠ 0 := fun h => h2 ((tolower_eq_zero c2).1 h)
          simp [strcasecmp, cstr_cons_ne _ _ h2, cstr_cons_zero]
          have h0 : tolower 0 = 0 := rfl
          rw [h0]; omega
    · have ht1 : tolower c1 ≠ 0 := fun h => h1 ((tolower_eq_zero c1).1 h)
      cases b with
      | nil =>
        simp [strcasecmp, cstr_cons_ne _ _ h1, cstr_nil]
        have h0 : tolower 0 = 0 := rfl
        rw [h0]; omega
      | cons c2 r2 =>
        by_cases h2 : c2 = 0
        · subst h2
          simp [strcasecmp, cstr_cons_ne _ _ h1, cstr_cons_zero]
          have h0 : tolower 0 = 0 := rfl
          rw [h0]; omega
        · by_cases ht : tolower c1 = tolower c2
          · simp [strcasecmp, cstr_cons_ne _ _ h1, cstr_cons_ne _ _ h2, h1, ht, ih]
          · simp [strcasecmp, cstr_cons_ne _ _ h1, cstr_cons_ne _ _ h2, h1, ht]
            omega

theorem strcmp_self (a : List Nat) : strcmp a a = 0 := by
  induction a with
  | nil => simp [strcmp]
  | cons c r ih => simp [strcmp, ih]

theorem strcmp_eq_zero (a b : List Nat) (ha : 0 ∉ a) (hb : 0 ∉ b) (h : strcmp a b = 0) :
    a = b := by
  induction a generalizing b with
  | nil =>
    cases b with
    | nil => rfl
    | cons c2 r2 =>
      simp [strcmp] at h
      simp [h] at hb
  | cons c1 r1 ih =>
    have h1 : c1 ≠ 0 := fun h => ha (by simp [h])
    cases b with
    | nil =>
      simp [strcmp] at h
      omega
    | cons c2 r2 =>
      by_cases hc : c1 = c2
      · subst hc
        simp [strcmp, h1] at h
        rw [ih r2 (fun hm => ha (by simp [hm])) (fun hm => hb (by simp [hm])) h]
      · simp [strcmp, h1, hc] at h
        omega

theorem dropWhile_cons_head {p : Nat → Bool} {s : List Nat} {c : Nat} {r : List Nat}
    (h : s.dropWhile p = c :: r) : p c = false := by
  induction s with
  | nil => simp at h
  | cons x s ih =>
    by_cases hx : p x = true
    · simp [List.dropWhile_cons, hx] at h; exact ih h
    · simp [List.dropWhile_cons, hx] at h
      rw [← h.1]; simpa using hx

theorem strtok_none_save (s d : List Nat) (h : (strtok s d).1 = none) : (strtok s d).2 = [] := by
  unfold strtok at *
  split at h <;> simp_all

theorem strtok_token_mem (s d t : List Nat) (h : (strtok s d).1 = some t) :
    ∀ x ∈ t, x ∈ s := by
  unfold strtok at h
  split at h
  · simp at h
  · rename_i c r heq
    simp only [Option.some.injEq] at h
    intro x hx
    rw [← h] at hx
    have h1 := (List.takeWhile_sublist _).subset hx
    rw [← heq] at h1
    exact (List.dropWhile_sublist _).subset h1

theorem strtok_token_ne_nil (s d t : List Nat) (h : (strtok s d).1 = some t) : t ≠ [] := by
  unfold strtok at h
  split at h
  · simp at h
  · rename_i c r heq
    simp only [Option.some.injEq] at h
    have hc : d.contains c = false := dropWhile_cons_head heq
    rw [← h, List.takeWhile_cons]
    simp only [hc]
    simp

theorem strtok_save_mem (s d : List Nat) : ∀ x ∈ (strtok s d).2, x ∈ s := by
  unfold strtok
  split
  · simp
  · rename_i c r heq
    intro x hx
    have h1 := (List.tail_sublist _).subset hx
    have h2 := (List.dropWhile_sublist _).subset h1
    rw [← heq] at h2
    exact (List.dropWhile_sublist _).subset h2

theorem strtok_save_length (s d t : List Nat) (h : (strtok s d).1 = some t) :
    (strtok s d).2.length < s.length := by
  unfold strtok at *
  split at h
  · simp at h
  · rename_i c r heq
    have hc : d.contains c = false := dropWhile_cons_head heq
    have h1 : (s.dropWhile (fun c => d.contains c)).length ≤ s.length :=
      (List.dropWhile_sublist _).length_le
    rw [heq] at h1
    simp only [heq]
    have h2 : ((c :: r).dropWhile (fun x => !d.contains x)) = r.dropWhile (fun x => !d.contains x) := by
      rw [List.dropWhile_cons]; simp only [hc]; rfl
    rw [h2]
    have h3 : (r.dropWhile (fun x => !d.contains x)).length ≤ r.length :=
      (List.dropWhile_sublist _).length_le
    simp only [List.length_tail, List.length_cons] at *
    omega

theorem parse_header_loop_isSome (n : Nat) (pr : ParsedRequest) (t : Option (List Nat))
    (save : List Nat) (h : t = none ∨ save.length < n) :
    ∃ pr', parse_header_loop n pr t save = some pr' := by
  induction n generalizing pr t save with
  | zero =>
    rcases h with h | h
    · subst h; exact ⟨pr, by simp [parse_header_loop]⟩
    · omega
  | succ n ih =>
    cases t with
    | none => exact ⟨pr, by simp [parse_header_loop]⟩
    | some line =>
      simp only [parse_header_loop]
      apply ih
      cases hq : (strtok save CRLF).1 with
      | none => left; rfl
      | some t' =>
        right
        have := strtok_save_length save CRLF t' hq
        rcases h with h | h
        · simp at h
        · omega

theorem parse_header_loop_eq_foldl (n : Nat) (pr pr' : ParsedRequest) (t : Option (List Nat))
    (save : List Nat) (h : parse_header_loop n pr t save = some pr') :
    pr' = (strtok_all n t save).foldl parse_header_line pr := by
  induction n generalizing pr t save with
  | zero =>
    cases t with
    | none => simp [parse_header_loop] at h; simp [strtok_all, h]
    | some line => simp [parse_header_loop] at h
  | succ n ih =>
    cases t with
    | none => simp [parse_header_loop] at h; simp [strtok_all, h]
    | some line =>
      simp only [parse_header_loop] at h
      simp only [strtok_all, List.foldl_cons]
      exact ih _ _ _ h

theorem parse_ok_inv (pr pr' : ParsedRequest) (buffer : List Nat)
    (h : ParsedRequest_parse pr buffer = some (0, pr')) :
    ∃ body line method url version,
      body_start buffer = some body ∧
      request_line buffer = some line ∧
      request_fields line = (some method, some url, some version) ∧
      is_valid_method method = true ∧ is_valid_version version = true ∧
      pr' = (header_lines buffer).foldl parse_header_line
              (before_headers pr body method url version) := by
  unfold ParsedRequest_parse at h
  by_cases hlen : buffer.length ≤ 0
  · rw [if_pos hlen] at h; simp at h
  rw [if_neg hlen] at h
  cases hhe : strstr (cstr buffer) CRLFCRLF with
  | none => simp only [hhe] at h; simp at h
  | some headers_end =>
    simp only [hhe] at h
    cases hle : strstr ((cstr buffer).take headers_end) CRLF with
    | none => simp only [hle] at h; simp at h
    | some line_end =>
      simp only [hle] at h
      split at h
      · rename_i method url version hm hu hv
        split at h
        · simp at h
        · rename_i hvalid
          split at h
          · simp at h
          · rename_i pr4 hloop
            simp only [Option.some.injEq, Prod.mk.injEq, true_and] at h
            subst h
            refine ⟨(cstr buffer).drop (headers_end + 4), ((cstr buffer).take headers_end).take line_end,
              method, url, version, ?_, ?_, ?_, ?_, ?_, ?_⟩
            · simp [body_start, hhe]
            · simp [request_line, header_section, hhe, hle]
            · simp [request_fields, hm, hu, hv]
            · exact (by simpa using hvalid : is_valid_method method = true ∧ is_valid_version version = true).1
            · exact (by simpa using hvalid : is_valid_method method = true ∧ is_valid_version version = true).2
            · have := parse_header_loop_eq_foldl _ _ _ _ _ hloop
              rw [this]
              simp [header_lines, header_block, header_section, hhe, hle, before_headers]
      · simp at h

/-! ## Lemmas on the parser -/

theorem ParsedHeader_set_snd (pr : ParsedRequest) (name value : List Nat) :
    ∃ hs, (ParsedHeader_set pr name value).2 = { pr with headers := hs } := by
  unfold ParsedHeader_set
  split
  · exact ⟨_, rfl⟩
  · exact ⟨_, rfl⟩

theorem ParsedHeader_set_frame (pr : ParsedRequest) (name value : List Nat) :
    (ParsedHeader_set pr name value).2.method = pr.method ∧
    (ParsedHeader_set pr name value).2.host = pr.host ∧
    (ParsedHeader_set pr name value).2.path = pr.path ∧
    (ParsedHeader_set pr name value).2.version = pr.version ∧
    (ParsedHeader_set pr name value).2.port = pr.port ∧
    (ParsedHeader_set pr name value).2.body = pr.body ∧
    (ParsedHeader_set pr name value).2.content_length = pr.content_length ∧
    (ParsedHeader_set pr name value).2.body_length = pr.body_length := by
  obtain ⟨hs, h⟩ := ParsedHeader_set_snd pr name value
  rw [h]; simp

/-- Fields other than `host`, `port`, `content_length`, `headers` are never
touched by the header loop. -/
theorem parse_header_line_frame (pr : ParsedRequest) (l : List Nat) :
    (parse_header_line pr l).method = pr.method ∧
    (parse_header_line pr l).path = pr.path ∧
    (parse_header_line pr l).version = pr.version ∧
    (parse_header_line pr l).body = pr.body ∧
    (parse_header_line pr l).body_length = pr.body_length := by
  unfold parse_header_line
  cases strchr l COLON with
  | none => simp
  | some colon =>
    dsimp only
    split_ifs
    · cases strchr (trim_whitespace (List.drop (colon + 1) l)) COLON <;>
        simp [ParsedHeader_set_frame]
    · simp [ParsedHeader_set_frame]
    · simp [ParsedHeader_set_frame]

/-- Once `host` is set, the header loop changes neither `host` nor `port`. -/
theorem parse_header_line_host_set (pr : ParsedRequest) (l : List Nat) (h : pr.host ≠ none) :
    (parse_header_line pr l).host = pr.host ∧ (parse_header_line pr l).port = pr.port := by
  unfold parse_header_line
  cases strchr l COLON with
  | none => simp
  | some colon =>
    dsimp only
    simp only [h, and_false, if_false]
    split_ifs <;> simp [ParsedHeader_set_frame]

theorem foldl_frame (ls : List (List Nat)) (pr : ParsedRequest) :
    (ls.foldl parse_header_line pr).method = pr.method ∧
    (ls.foldl parse_header_line pr).path = pr.path ∧
    (ls.foldl parse_header_line pr).version = pr.version ∧
    (ls.foldl parse_header_line pr).body = pr.body ∧
    (ls.foldl parse_header_line pr).body_length = pr.body_length := by
  induction ls generalizing pr with
  | nil => simp
  | cons l ls ih =>
    simp only [List.foldl_cons]
    have h1 := ih (parse_header_line pr l)
    have h2 := parse_header_line_frame pr l
    refine ⟨h1.1.trans h2.1, h1.2.1.trans h2.2.1, h1.2.2.1.trans h2.2.2.1,
      h1.2.2.2.1.trans h2.2.2.2.1, h1.2.2.2.2.trans h2.2.2.2.2⟩

theorem foldl_host_set (ls : List (List Nat)) (pr : ParsedRequest) (h : pr.host ≠ none) :
    (ls.foldl parse_header_line pr).host = pr.host ∧
    (ls.foldl parse_header_line pr).port = pr.port := by
  induction ls generalizing pr with
  | nil => simp
  | cons l ls ih =>
    simp only [List.foldl_cons]
    have h2 := parse_header_line_host_set pr l h
    have h1 := ih (parse_header_line pr l) (by rw [h2.1]; exact h)
    exact ⟨h1.1.trans h2.1, h1.2.trans h2.2⟩

theorem strncmp_http (url : List Nat) (h : HTTP_PREFIX <+: url) :
    strncmp url HTTP_PREFIX 7 = 0 := by
  obtain ⟨r, rfl⟩ := h
  have h7 : HTTP_PREFIX.length = 7 := by decide
  unfold strncmp
  rw [List.take_left' h7, ← h7, List.take_length]
  exact strcmp_self _

/-- The target fields `parse_url` leaves for an absolute-form target. -/
theorem parse_url_absolute (pr : ParsedRequest) (url : List Nat) (h : HTTP_PREFIX <+: url) :
    (parse_url pr url).host = some ((authority url).takeWhile (fun c => c != COLON)) ∧
    (parse_url pr url).port =
      some (if COLON ∈ authority url then ((authority url).dropWhile (fun c => c != COLON)).drop 1
            else ascii "80") ∧
    (parse_url pr url).path =
      some (if SLASH ∈ url.drop 7 then (url.drop 7).dropWhile (fun c => c != SLASH)
            else ascii "/") := by
  unfold parse_url
  rw [if_pos (strncmp_http url h)]
  dsimp only
  cases hs : strchr (url.drop 7) SLASH with
  | none =>
    have hsn := (strchr_none_iff _ _).1 hs
    have hauth : authority url = url.drop 7 := (strchr_none_split _ _ hs).1
    simp only [hsn, if_false]
    cases hc : strchr (url.drop 7) COLON with
    | none =>
      have hcn := (strchr_none_iff _ _).1 hc
      have := (strchr_none_split _ _ hc).1
      simp [hauth, hcn, this]
    | some j =>
      have hcn : COLON ∈ url.drop 7 := by
        by_contra hn
        rw [(strchr_none_iff _ _).2 hn] at hc
        simp at hc
      have := strchr_some_split _ _ _ hc
      simp [hauth, hcn, this.1, ← this.2, Nat.add_assoc]
  | some i =>
    have hsn : SLASH ∈ url.drop 7 := by
      by_contra hn
      rw [(strchr_none_iff _ _).2 hn] at hs
      simp at hs
    have hsp := strchr_some_split _ _ _ hs
    have hauth : authority url = (url.drop 7).take i := hsp.1.symm
    simp only [hsn, if_true]
    cases hc : strchr ((url.drop 7).take i) COLON with
    | none =>
      have hcn := (strchr_none_iff _ _).1 hc
      have := (strchr_none_split _ _ hc).1
      simp [hauth, hcn, this, hsp.2]
    | some j =>
      have hcn : COLON ∈ (url.drop 7).take i := by
        by_contra hn
        rw [(strchr_none_iff _ _).2 hn] at hc
        simp at hc
      have := strchr_some_split _ _ _ hc
      simp [hauth, hcn, this.1, ← this.2, hsp.2]

/-- The target fields after the header loop, for an absolute-form target. -/
theorem absolute_form_fields (pr : ParsedRequest) (body method url version : List Nat)
    (ls : List (List Nat)) (hpre : HTTP_PREFIX <+: url) :
    (ls.foldl parse_header_line (before_headers pr body method url version)).host =
      some ((authority url).takeWhile (fun c => c != COLON)) ∧
    (ls.foldl parse_header_line (before_headers pr body method url version)).port =
      some (if COLON ∈ authority url then ((authority url).dropWhile (fun c => c != COLON)).drop 1
            else ascii "80") ∧
    (ls.foldl parse_header_line (before_headers pr body method url version)).path =
      some (if SLASH ∈ url.drop 7 then (url.drop 7).dropWhile (fun c => c != SLASH)
            else ascii "/") := by
  have hp := parse_url_absolute
    { (if body.length > 0 then { pr with body := some body, body_length := body.length } else pr)
      with method := strncpy method (MAX_METHOD_LEN - 1), version := some version } url hpre
  have hhost : (before_headers pr body method url version).host ≠ none := by
    unfold before_headers; rw [hp.1]; simp
  have h1 := foldl_host_set ls _ hhost
  have h2 := foldl_frame ls (before_headers pr body method url version)
  exact ⟨h1.1.trans hp.1, h1.2.trans hp.2.1, h2.2.1.trans hp.2.2⟩

theorem request_target_of_fields (buffer line : List Nat) (m u v : Option (List Nat))
    (hl : request_line buffer = some line) (hf : request_fields line = (m, u, v)) :
    request_target buffer = u := by
  simp only [request_target, hl]
  rw [Option.some_bind, hf]

/-- C1: when `ParsedRequest_parse` accepts a buffer whose request-target begins
with `http://`, host is the authority up to its first `:`, port is the text
after that `:` (or "80" when the authority has none) and path is the target
from the first `/` after the prefix on (or "/" when there is none). The three
fields depend on the target only, so no header line changes them. -/
theorem parse_absolute_form_target (pr pr' : ParsedRequest) (buffer url : List Nat)
    (hok : ParsedRequest_parse pr buffer = some (0, pr'))
    (hurl : request_target buffer = some url)
    (hpre : HTTP_PREFIX <+: url) :
    pr'.host = some ((authority url).takeWhile (fun c => c != COLON)) ∧
    pr'.port =
      some (if COLON ∈ authority url then ((authority url).dropWhile (fun c => c != COLON)).drop 1
            else ascii "80") ∧
    pr'.path =
      some (if SLASH ∈ url.drop 7 then (url.drop 7).dropWhile (fun c => c != SLASH)
            else ascii "/") := by
  obtain ⟨body, line, method, url', version, hb, hl, hf, hm, hv, rfl⟩ := parse_ok_inv pr pr' buffer hok
  have hu : url' = url :=
    Option.some.inj ((request_target_of_fields buffer line _ _ _ hl hf).symm.trans hurl)
  subst hu
  exact absolute_form_fields pr body method url' version (header_lines buffer) hpre

/-- C1 witness: scenario A of the specification. -/
theorem parse_absolute_form_target_witness :
    ParsedRequest_parse ParsedRequest_create scenarioA = some (0, resultA) ∧
    request_target scenarioA = some (ascii "http://example.com/foo") ∧
    resultA.method = ascii "GET" ∧
    resultA.host = some (ascii "example.com") ∧
    resultA.port = some (ascii "80") ∧
    resultA.path = some (ascii "/foo") ∧
    resultA.version = some (ascii "HTTP/1.1") :=
  have h := parse_absolute_form_target ParsedRequest_create resultA scenarioA
    (ascii "http://example.com/foo") (by decide) (by decide) (by decide)
  ⟨by decide, by decide, by decide, h.1.trans (by decide), h.2.1.trans (by decide),
    h.2.2.trans (by decide), by decide⟩

theorem request_line_mem (buffer line : List Nat) (h : request_line buffer = some line) :
    ∀ x ∈ line, x ∈ cstr buffer := by
  unfold request_line header_section at h
  cases hhe : strstr (cstr buffer) CRLFCRLF with
  | none => simp [hhe] at h
  | some e =>
    simp only [hhe, Option.map_some', Option.some_bind] at h
    cases hle : strstr ((cstr buffer).take e) CRLF with
    | none => simp [hle] at h
    | some e' =>
      simp only [hle, Option.map_some', Option.some.injEq] at h
      subst h
      intro x hx
      exact (List.take_sublist _ _).subset ((List.take_sublist _ _).subset hx)

theorem request_fields_nul_free (buffer line : List Nat) (m u v : Option (List Nat))
    (h : request_line buffer = some line) (hf : request_fields line = (m, u, v)) :
    (∀ t, m = some t → 0 ∉ t) ∧ (∀ t, u = some t → 0 ∉ t) ∧ (∀ t, v = some t → 0 ∉ t) := by
  have hline : 0 ∉ line := fun h0 => zero_not_mem_cstr buffer (request_line_mem buffer line h 0 h0)
  simp only [request_fields, Prod.mk.injEq] at hf
  obtain ⟨h1, h2, h3⟩ := hf
  have hs1 : 0 ∉ (strtok line SP).2 := fun h0 => hline (strtok_save_mem _ _ 0 h0)
  have hs2 : 0 ∉ (strtok (strtok line SP).2 SP).2 := fun h0 => hs1 (strtok_save_mem _ _ 0 h0)
  refine ⟨?_, ?_, ?_⟩
  · intro t ht h0
    exact hline (strtok_token_mem _ _ t (h1.trans ht) 0 h0)
  · intro t ht h0
    exact hs1 (strtok_token_mem _ _ t (h2.trans ht) 0 h0)
  · intro t ht h0
    exact hs2 (strtok_token_mem _ _ t (h3.trans ht) 0 h0)

theorem strncmp_http_iff (url : List Nat) (h0 : 0 ∉ url) :
    strncmp url HTTP_PREFIX 7 = 0 ↔ HTTP_PREFIX <+: url := by
  constructor
  · intro h
    unfold strncmp at h
    have h7 : HTTP_PREFIX.take 7 = HTTP_PREFIX := by decide
    rw [h7] at h
    have := strcmp_eq_zero (url.take 7) HTTP_PREFIX
      (fun hm => h0 ((List.take_sublist _ _).subset hm)) (by decide) h
    rw [← this]
    exact List.take_prefix _ _
  · exact strncmp_http url

theorem parse_url_origin (pr : ParsedRequest) (url : List Nat) (h0 : 0 ∉ url)
    (h : ¬ HTTP_PREFIX <+: url) :
    parse_url pr url = { pr with path := some url, port := some (ascii "80") } := by
  unfold parse_url
  rw [if_neg (fun hc => h ((strncmp_http_iff url h0).1 hc))]

theorem parse_header_line_not_host (pr : ParsedRequest) (l : List Nat)
    (h : is_host_line l = false) :
    (parse_header_line pr l).host = pr.host ∧ (parse_header_line pr l).port = pr.port := by
  unfold parse_header_line
  unfold is_host_line at h
  cases hc : strchr l COLON with
  | none => simp
  | some colon =>
    simp only [hc, beq_eq_false_iff_ne, ne_eq] at h
    dsimp only
    rw [if_neg (fun hh => h hh.1)]
    split_ifs <;> simp [ParsedHeader_set_frame]

theorem parse_header_line_host (pr : ParsedRequest) (l : List Nat)
    (h : is_host_line l = true) (hn : pr.host = none) :
    (parse_header_line pr l).host = some ((header_value l).takeWhile (fun c => c != COLON)) ∧
    (parse_header_line pr l).port =
      if COLON ∈ header_value l then
        some (((header_value l).dropWhile (fun c => c != COLON)).drop 1)
      else pr.port := by
  unfold parse_header_line
  unfold is_host_line at h
  unfold header_value
  cases hc : strchr l COLON with
  | none => simp [hc] at h
  | some colon =>
    simp only [hc, beq_iff_eq] at h
    dsimp only
    rw [if_pos ⟨h, hn⟩]
    cases hp : strchr (trim_whitespace (List.drop (colon + 1) l)) COLON with
    | none =>
      have hcn := (strchr_none_iff _ _).1 hp
      have := (strchr_none_split _ _ hp).1
      simp [ParsedHeader_set_frame, hcn, this]
    | some j =>
      have hcn : COLON ∈ trim_whitespace (List.drop (colon + 1) l) := by
        by_contra hn'
        rw [(strchr_none_iff _ _).2 hn'] at hp
        simp at hp
      have := strchr_some_split _ _ _ hp
      simp [ParsedHeader_set_frame, hcn, this.1, ← this.2]

/-- The header loop takes `host` (and `port`) from the first Host line only. -/
theorem foldl_first_host (ls : List (List Nat)) (pr : ParsedRequest) (hn : pr.host = none) :
    (∀ l, ls.find? is_host_line = some l →
      (ls.foldl parse_header_line pr).host =
        some ((header_value l).takeWhile (fun c => c != COLON)) ∧
      (ls.foldl parse_header_line pr).port =
        if COLON ∈ header_value l then
          some (((header_value l).dropWhile (fun c => c != COLON)).drop 1)
        else pr.port) ∧
    (ls.find? is_host_line = none →
      (ls.foldl parse_header_line pr).host = none ∧
      (ls.foldl parse_header_line pr).port = pr.port) := by
  induction ls generalizing pr with
  | nil => simp [hn]
  | cons x ls ih =>
    simp only [List.foldl_cons]
    cases hx : is_host_line x with
    | true =>
      have hh := parse_header_line_host pr x hx hn
      have hs : (parse_header_line pr x).host ≠ none := by rw [hh.1]; simp
      have hf := foldl_host_set ls _ hs
      constructor
      · intro l hl
        simp only [List.find?_cons, hx, Option.some.injEq] at hl
        subst hl
        exact ⟨hf.1.trans hh.1, hf.2.trans hh.2⟩
      · intro hl
        simp [List.find?_cons, hx] at hl
    | false =>
      have hh := parse_header_line_not_host pr x hx
      have := ih (parse_header_line pr x) (hh.1.trans hn)
      simp only [List.find?_cons, hx]
      rw [hh.2] at this
      exact this

/-- The target fields after the header loop, for a target that does not begin
with `http://`, starting from a fresh request. -/
theorem origin_form_fields (body method url version : List Nat) (ls : List (List Nat))
    (h0 : 0 ∉ url) (hpre : ¬ HTTP_PREFIX <+: url) :
    (ls.foldl parse_header_line
      (before_headers ParsedRequest_create body method url version)).path = some url ∧
    (∀ l, ls.find? is_host_line = some l →
      (ls.foldl parse_header_line
        (before_headers ParsedRequest_create body method url version)).host =
        some ((header_value l).takeWhile (fun c => c != COLON)) ∧
      (ls.foldl parse_header_line
        (before_headers ParsedRequest_create body method url version)).port =
        some (if COLON ∈ header_value l then
                ((header_value l).dropWhile (fun c => c != COLON)).drop 1
              else ascii "80")) ∧
    (ls.find? is_host_line = none →
      (ls.foldl parse_header_line
        (before_headers ParsedRequest_create body method url version)).host = none ∧
      (ls.foldl parse_header_line
        (before_headers ParsedRequest_create body method url version)).port =
        some (ascii "80")) := by
  have hbh : before_headers ParsedRequest_create body method url version =
      { (if body.length > 0 then
            { ParsedRequest_create with body := some body, body_length := body.length }
          else ParsedRequest_create) with
        method := strncpy method (MAX_METHOD_LEN - 1), version := some version,
        path := some url, port := some (ascii "80") } := by
    unfold before_headers
    rw [parse_url_origin _ url h0 hpre]
  have hhost : (before_headers ParsedRequest_create body method url version).host = none := by
    rw [hbh]; split_ifs <;> rfl
  have hport : (before_headers ParsedRequest_create body method url version).port
      = some (ascii "80") := by rw [hbh]
  have hpath : (before_headers ParsedRequest_create body method url version).path
      = some url := by rw [hbh]
  have h2 := foldl_frame ls (before_headers ParsedRequest_create body method url version)
  have h1 := foldl_first_host ls _ hhost
  refine ⟨h2.2.1.trans hpath, ?_, ?_⟩
  · intro l hl
    have := h1.1 l hl
    refine ⟨this.1, ?_⟩
    rw [this.2, hport]
    split_ifs <;> rfl
  · intro hl
    have := h1.2 hl
    exact ⟨this.1, this.2.trans hport⟩

/-- C2: when `ParsedRequest_parse` accepts a buffer whose request-target does
not begin with `http://`, path is the request-target verbatim, and host and
port come from the first Host header line: for a trimmed value `h:p` host is
`h` and port is `p`; for a value without `:` host is the whole value and port
is "80". -/
theorem parse_origin_form_target (pr' : ParsedRequest) (buffer url : List Nat)
    (hok : ParsedRequest_parse ParsedRequest_create buffer = some (0, pr'))
    (hurl : request_target buffer = some url)
    (hpre : ¬ HTTP_PREFIX <+: url) :
    pr'.path = some url ∧
    ∀ v, first_host_value buffer = some v →
      pr'.host = some (v.takeWhile (fun c => c != COLON)) ∧
      pr'.port =
        some (if COLON ∈ v then (v.dropWhile (fun c => c != COLON)).drop 1 else ascii "80") := by
  obtain ⟨body, line, method, url', version, hb, hl, hf, hm, hv, rfl⟩ :=
    parse_ok_inv ParsedRequest_create pr' buffer hok
  have hu : url' = url :=
    Option.some.inj ((request_target_of_fields buffer line _ _ _ hl hf).symm.trans hurl)
  subst hu
  have h0 : 0 ∉ url' := (request_fields_nul_free buffer line _ _ _ hl hf).2.1 url' rfl
  have h := origin_form_fields body method url' version (header_lines buffer) h0 hpre
  refine ⟨h.1, ?_⟩
  intro v hv'
  unfold first_host_value at hv'
  cases hfind : (header_lines buffer).find? is_host_line with
  | none => simp [hfind] at hv'
  | some l =>
    simp only [hfind, Option.map_some', Option.some.injEq] at hv'
    subst hv'
    exact h.2.1 l hfind

/-- C2 witness: scenario B of the specification. -/
theorem parse_origin_form_target_witness :
    ParsedRequest_parse ParsedRequest_create scenarioB = some (0, resultB) ∧
    request_target scenarioB = some (ascii "/submit") ∧
    first_host_value scenarioB = some (ascii "api.local:8443") ∧
    resultB.host = some (ascii "api.local") ∧
    resultB.port = some (ascii "8443") ∧
    resultB.path = some (ascii "/submit") :=
  have h := parse_origin_form_target resultB scenarioB (ascii "/submit")
    (by decide) (by decide) (by decide)
  have hv := h.2 (ascii "api.local:8443") (by decide)
  ⟨by decide, by decide, by decide, hv.1.trans (by decide), hv.2.trans (by decide), h.1⟩

theorem strstr_some_at (s n : List Nat) (i : Nat) (h : strstr s n = some i) :
    n <+: s.drop i := by
  induction s generalizing i with
  | nil =>
    simp only [strstr] at h
    split_ifs at h with hn
    simp only [Option.some.injEq] at h
    subst h
    simp only [List.isEmpty_eq_true] at hn
    simp [hn]
  | cons c s ih =>
    simp only [strstr] at h
    split_ifs at h with hp
    · simp only [Option.some.injEq] at h
      subst h
      simpa using List.isPrefixOf_iff_prefix.1 hp
    · simp only [Option.map_eq_some'] at h
      obtain ⟨j, hj, rfl⟩ := h
      simpa using ih j hj

theorem strstr_some_occurs (s n : List Nat) (i : Nat) (h : strstr s n = some i) : n <:+: s := by
  have h1 := strstr_some_at s n i h
  exact h1.isInfix.trans (List.drop_suffix i s).isInfix

theorem cstr_is_initial (buf : List Nat) : cstr buf <+: buf := List.takeWhile_prefix _

theorem is_valid_method_mem (method : List Nat) (h0 : 0 ∉ method)
    (h : is_valid_method method = true) : method ∈ valid_methods := by
  unfold is_valid_method at h
  rw [List.any_eq_true] at h
  obtain ⟨m, hm, hc⟩ := h
  have hm0 : ∀ m ∈ valid_methods, 0 ∉ m := by decide
  have := strcmp_eq_zero method m h0 (hm0 m hm) (by simpa using hc)
  rw [this]; exact hm

theorem is_valid_version_eq (version : List Nat) (h0 : 0 ∉ version)
    (h : is_valid_version version = true) :
    version = ascii "HTTP/1.0" ∨ version = ascii "HTTP/1.1" := by
  unfold is_valid_version at h
  rw [Bool.or_eq_true] at h
  rcases h with h | h
  · left; exact strcmp_eq_zero _ _ h0 (by decide) (by simpa using h)
  · right; exact strcmp_eq_zero _ _ h0 (by decide) (by simpa using h)

/-- URL handling writes `host`, `path`, `port` only. -/
theorem parse_url_frame (pr : ParsedRequest) (url : List Nat) :
    (parse_url pr url).method = pr.method ∧
    (parse_url pr url).version = pr.version ∧
    (parse_url pr url).headers = pr.headers ∧
    (parse_url pr url).body = pr.body ∧
    (parse_url pr url).content_length = pr.content_length ∧
    (parse_url pr url).body_length = pr.body_length := by
  unfold parse_url
  split_ifs
  · dsimp only
    cases strchr (List.drop 7 url) SLASH with
    | none =>
      dsimp only
      cases strchr (List.drop 7 url) COLON <;> simp
    | some i =>
      dsimp only
      cases strchr (List.take i (List.drop 7 url)) COLON <;> simp
  · simp

theorem before_headers_frame (pr : ParsedRequest) (body method url version : List Nat) :
    (before_headers pr body method url version).method = strncpy method (MAX_METHOD_LEN - 1) ∧
    (before_headers pr body method url version).version = some version ∧
    (before_headers pr body method url version).headers = pr.headers ∧
    (before_headers pr body method url version).content_length = pr.content_length ∧
    (before_headers pr body method url version).body =
      (if body.length > 0 then some body else pr.body) ∧
    (before_headers pr body method url version).body_length =
      (if body.length > 0 then body.length else pr.body_length) := by
  unfold before_headers
  have h := parse_url_frame
    { (if body.length > 0 then { pr with body := some body, body_length := body.length } else pr)
      with method := strncpy method (MAX_METHOD_LEN - 1), version := some version } url
  refine ⟨h.1, h.2.1, ?_, ?_, ?_, ?_⟩
  · rw [h.2.2.1]; split_ifs <;> rfl
  · rw [h.2.2.2.2.1]; split_ifs <;> rfl
  · rw [h.2.2.2.1]; split_ifs <;> rfl
  · rw [h.2.2.2.2.2]; split_ifs <;> rfl

/-- `ParsedRequest_parse` returns on every buffer, with 0 or -1. -/
theorem parse_total (pr : ParsedRequest) (buffer : List Nat) :
    ∃ rc pr', ParsedRequest_parse pr buffer = some (rc, pr') ∧ (rc = 0 ∨ rc = -1) := by
  unfold ParsedRequest_parse
  by_cases hlen : buffer.length ≤ 0
  · rw [if_pos hlen]; exact ⟨-1, pr, rfl, Or.inr rfl⟩
  rw [if_neg hlen]
  dsimp only
  cases hhe : strstr (cstr buffer) CRLFCRLF with
  | none => exact ⟨-1, pr, rfl, Or.inr rfl⟩
  | some headers_end =>
    dsimp only
    cases hle : strstr ((cstr buffer).take headers_end) CRLF with
    | none => exact ⟨-1, _, rfl, Or.inr rfl⟩
    | some line_end =>
      dsimp only
      split
      · rename_i method url version hm hu hv
        split
        · exact ⟨-1, _, rfl, Or.inr rfl⟩
        · obtain ⟨pr4, h4⟩ := parse_header_loop_isSome
            (List.drop (line_end + 2) (List.take headers_end (cstr buffer))).length
            (parse_url
              { (if (List.drop (headers_end + 4) (cstr buffer)).length > 0 then
                  { pr with body := some (List.drop (headers_end + 4) (cstr buffer)),
                            body_length := (List.drop (headers_end + 4) (cstr buffer)).length }
                 else pr) with
                method := strncpy method (MAX_METHOD_LEN - 1), version := some version } url)
            (strtok (List.drop (line_end + 2) (List.take headers_end (cstr buffer))) CRLF).1
            (strtok (List.drop (line_end + 2) (List.take headers_end (cstr buffer))) CRLF).2
            (by
              cases hq : (strtok (List.drop (line_end + 2) (List.take headers_end (cstr buffer))) CRLF).1 with
              | none => left; rfl
              | some t => right; exact strtok_save_length _ _ t hq)
          rw [h4]
          exact ⟨0, pr4, rfl, Or.inl rfl⟩
      · exact ⟨-1, _, rfl, Or.inr rfl⟩

/-- C3: `ParsedRequest_parse` returns 0 or -1 on every buffer, and when it
returns 0 the buffer contains CRLFCRLF, the stored method is one of the nine
known methods and the stored version is "HTTP/1.0" or "HTTP/1.1"; so a missing
delimiter, an unknown method or an unknown version each give -1. -/
theorem parse_success_well_formed (pr : ParsedRequest) (buffer : List Nat) :
    ∃ rc pr', ParsedRequest_parse pr buffer = some (rc, pr') ∧ (rc = 0 ∨ rc = -1) ∧
      (rc = 0 →
        CRLFCRLF <:+: buffer ∧ pr'.method ∈ valid_methods ∧
        (pr'.version = some (ascii "HTTP/1.0") ∨ pr'.version = some (ascii "HTTP/1.1"))) := by
  obtain ⟨rc, pr', hp, hrc⟩ := parse_total pr buffer
  refine ⟨rc, pr', hp, hrc, ?_⟩
  rintro rfl
  obtain ⟨body, line, method, url, version, hb, hl, hf, hm, hv, rfl⟩ := parse_ok_inv pr pr' buffer hp
  have h0 := request_fields_nul_free buffer line _ _ _ hl hf
  have hfr := foldl_frame (header_lines buffer) (before_headers pr body method url version)
  refine ⟨?_, ?_, ?_⟩
  · unfold body_start at hb
    cases hhe : strstr (cstr buffer) CRLFCRLF with
    | none => simp [hhe] at hb
    | some e => exact (strstr_some_occurs _ _ e hhe).trans (cstr_is_initial buffer).isInfix
  · rw [hfr.1]
    have hmem := is_valid_method_mem method (h0.1 method rfl) hm
    have hlen : ∀ m ∈ valid_methods, m.length ≤ MAX_METHOD_LEN - 1 := by decide
    rw [(before_headers_frame pr body method url version).1, strncpy,
      List.take_of_length_le (hlen method hmem)]
    exact hmem
  · rw [hfr.2.2.1]
    rw [(before_headers_frame pr body method url version).2.1]
    rcases is_valid_version_eq version (h0.2.2 version rfl) hv with h | h
    · left; rw [h]
    · right; rw [h]

theorem splitOnP_head (p : Nat → Bool) (r : List Nat) :
    r.splitOnP p = r.takeWhile (fun c => !p c) ::
      (match r.dropWhile (fun c => !p c) with
       | [] => []
       | _ :: t => t.splitOnP p) := by
  induction r with
  | nil => simp
  | cons x r ih =>
    rw [List.splitOnP_cons]
    by_cases hx : p x = true
    · simp [hx, List.takeWhile_cons, List.dropWhile_cons]
    · simp only [hx, if_false]
      rw [ih]
      simp [List.takeWhile_cons, List.dropWhile_cons, hx]

theorem SP_contains (c : Nat) : SP.contains c = (c == 32) := by
  have : SP = [32] := by decide
  rw [this]
  by_cases h : c = 32 <;> simp [h]

theorem strtok_SP_eq (s : List Nat) :
    strtok s SP =
      match s.dropWhile (fun c => c == 32) with
      | [] => (none, [])
      | c :: t => (some ((c :: t).takeWhile (fun x => !(x == 32))),
          ((c :: t).dropWhile (fun x => !(x == 32))).tail) := by
  unfold strtok
  simp only [SP_contains]

/-- The `strtok(…, " ")` calls enumerate the space-separated fields. -/
theorem space_fields_strtok (s : List Nat) :
    ((strtok s SP).1 = none ∧ space_fields s = []) ∨
    (∃ t, (strtok s SP).1 = some t ∧ space_fields s = t :: space_fields (strtok s SP).2) := by
  induction s with
  | nil => left; simp [strtok, space_fields]
  | cons x r ih =>
    by_cases hx : x = 32
    · subst hx
      have h1 : strtok (32 :: r) SP = strtok r SP := by
        rw [strtok_SP_eq, strtok_SP_eq]; simp [List.dropWhile_cons]
      have h2 : space_fields (32 :: r) = space_fields r := by
        unfold space_fields; rw [List.splitOnP_cons]; simp
      rw [h1, h2]; exact ih
    · right
      have hx' : (x == 32) = false := by simpa using hx
      have h1 : strtok (x :: r) SP =
          (some ((x :: r).takeWhile (fun c => !(c == 32))),
            ((x :: r).dropWhile (fun c => !(c == 32))).tail) := by
        rw [strtok_SP_eq]; simp [List.dropWhile_cons, hx']
      refine ⟨_, by rw [h1], ?_⟩
      rw [h1]
      unfold space_fields
      rw [splitOnP_head (fun c => c == 32) (x :: r)]
      have hne : ((x :: r).takeWhile (fun c => !(c == 32))) ≠ [] := by
        simp [List.takeWhile_cons, hx']
      rw [List.filter_cons_of_pos (by simpa using hne)]
      congr 1
      cases hd : (x :: r).dropWhile (fun c => !(c == 32)) with
      | nil => simp
      | cons d t => simp

theorem strtok_none_iff (s d : List Nat) :
    (strtok s d).1 = none ↔ ∀ x ∈ s, d.contains x = true := by
  unfold strtok
  constructor
  · intro h
    split at h
    · rename_i heq
      exact List.dropWhile_eq_nil_iff.1 heq
    · simp at h
  · intro h
    rw [List.dropWhile_eq_nil_iff.2 h]

/-- A request line whose `strtok` fields are not all present is rejected. -/
theorem parse_fail_of_fields (pr : ParsedRequest) (buffer line : List Nat)
    (hl : request_line buffer = some line)
    (hf : (request_fields line).1 = none ∨ (request_fields line).2.1 = none ∨
          (request_fields line).2.2 = none) :
    ∃ pr', ParsedRequest_parse pr buffer = some (-1, pr') := by
  unfold request_line header_section at hl
  unfold ParsedRequest_parse
  by_cases hlen : buffer.length ≤ 0
  · rw [if_pos hlen]; exact ⟨pr, rfl⟩
  rw [if_neg hlen]
  dsimp only
  cases hhe : strstr (cstr buffer) CRLFCRLF with
  | none => exact ⟨pr, rfl⟩
  | some headers_end =>
    dsimp only
    simp only [hhe, Option.map_some', Option.some_bind] at hl
    cases hle : strstr ((cstr buffer).take headers_end) CRLF with
    | none => exact ⟨_, rfl⟩
    | some line_end =>
      dsimp only
      simp only [hle, Option.map_some', Option.some.injEq] at hl
      subst hl
      split
      · rename_i method url version hm hu hv
        simp only [request_fields, hm, hu, hv] at hf
        simp at hf
      · exact ⟨_, rfl⟩

/-- C4 (amended): a request line with fewer than three space-separated fields
makes `ParsedRequest_parse` return -1. -/
theorem parse_fewer_than_three_fields (pr : ParsedRequest) (buffer line : List Nat)
    (hl : request_line buffer = some line) (hlt : (space_fields line).length < 3) :
    ∃ pr', ParsedRequest_parse pr buffer = some (-1, pr') := by
  apply parse_fail_of_fields pr buffer line hl
  unfold request_fields
  dsimp only
  rcases space_fields_strtok line with ⟨h1, _⟩ | ⟨t1, h1, e1⟩
  · left; exact h1
  · right
    rcases space_fields_strtok (strtok line SP).2 with ⟨h2, _⟩ | ⟨t2, h2, e2⟩
    · left; exact h2
    · right
      rcases space_fields_strtok (strtok (strtok line SP).2 SP).2 with ⟨h3, _⟩ | ⟨t3, h3, e3⟩
      · rw [strtok_none_iff] at h3 ⊢
        intro x hx
        have := h3 x hx
        rw [SP_contains] at this
        have hx32 : x = 32 := by simpa using this
        subst hx32
        decide
      · rw [e1, e2, e3] at hlt
        simp only [List.length_cons] at hlt
        omega

/-- C4 witness: a request line with the two fields `GET` and `/`. -/
theorem parse_fewer_than_three_fields_witness :
    request_line two_fields = some (ascii "GET /") ∧
    (space_fields (ascii "GET /")).length = 2 ∧
    ∃ pr', ParsedRequest_parse ParsedRequest_create two_fields = some (-1, pr') :=
  ⟨by decide, by decide,
    parse_fewer_than_three_fields ParsedRequest_create two_fields (ascii "GET /")
      (by decide) (by decide)⟩

/-- C4 counterexample: a request line with four space-separated fields is
accepted; the fourth field is ignored. -/
theorem parse_four_fields_accepted :
    request_line four_fields = some (ascii "GET http://a/ HTTP/1.1 extra") ∧
    (space_fields (ascii "GET http://a/ HTTP/1.1 extra")).length = 4 ∧
    (ParsedRequest_parse ParsedRequest_create four_fields).map (fun r => r.1) = some 0 := by
  decide

theorem request_fields_url_ne_nil (line : List Nat) (m v : Option (List Nat)) (url : List Nat)
    (hf : request_fields line = (m, some url, v)) : url ≠ [] := by
  simp only [request_fields, Prod.mk.injEq] at hf
  exact strtok_token_ne_nil _ _ url hf.2.1

theorem dropWhile_ne_head (s : List Nat) (c : Nat) (h : c ∈ s) :
    (s.dropWhile (fun x => x != c)).head? = some c := by
  induction s with
  | nil => simp at h
  | cons x s ih =>
    by_cases hx : x = c
    · simp [List.dropWhile_cons, hx]
    · have : c ∈ s := by
        rcases List.mem_cons.1 h with h | h
        · exact absurd h.symm hx
        · exact h
      simp [List.dropWhile_cons, hx, ih this]

/-- C5 (amended): after a successful parse the path is present and non-empty.
For a target beginning with `http://` the host is present and the path begins
with "/". For any other target the path is the target verbatim and the host is
present exactly when the request has a Host header line. -/
theorem parse_target_fields_invariant (pr' : ParsedRequest) (buffer : List Nat)
    (hok : ParsedRequest_parse ParsedRequest_create buffer = some (0, pr')) :
    ∃ url, request_target buffer = some url ∧
      (∃ p, pr'.path = some p ∧ p ≠ []) ∧
      (HTTP_PREFIX <+: url →
        pr'.host ≠ none ∧ ∃ p, pr'.path = some p ∧ p.head? = some SLASH) ∧
      (¬ HTTP_PREFIX <+: url →
        pr'.path = some url ∧
        (pr'.host ≠ none ↔ ∃ l ∈ header_lines buffer, is_host_line l = true)) := by
  obtain ⟨body, line, method, url, version, hb, hl, hf, hm, hv, hpr⟩ :=
    parse_ok_inv ParsedRequest_create pr' buffer hok
  have hurl := request_target_of_fields buffer line _ _ _ hl hf
  have hne := request_fields_url_ne_nil line _ _ url hf
  subst hpr
  have h0 : 0 ∉ url := (request_fields_nul_free buffer line _ _ _ hl hf).2.1 url rfl
  have habs : HTTP_PREFIX <+: url →
      (List.foldl parse_header_line (before_headers ParsedRequest_create body method url version)
        (header_lines buffer)).host ≠ none ∧
      ∃ p, (List.foldl parse_header_line
        (before_headers ParsedRequest_create body method url version)
        (header_lines buffer)).path = some p ∧ p.head? = some SLASH := by
    intro hpre
    have h := absolute_form_fields ParsedRequest_create body method url version
      (header_lines buffer) hpre
    refine ⟨by rw [h.1]; simp, ?_⟩
    by_cases hs : SLASH ∈ url.drop 7
    · refine ⟨_, h.2.2, ?_⟩
      rw [if_pos hs]
      exact dropWhile_ne_head _ _ hs
    · refine ⟨_, h.2.2, ?_⟩
      rw [if_neg hs]
      decide
  have horg : ¬ HTTP_PREFIX <+: url →
      (List.foldl parse_header_line (before_headers ParsedRequest_create body method url version)
        (header_lines buffer)).path = some url ∧
      ((List.foldl parse_header_line (before_headers ParsedRequest_create body method url version)
        (header_lines buffer)).host ≠ none ↔
        ∃ l ∈ header_lines buffer, is_host_line l = true) := by
    intro hpre
    have h := origin_form_fields body method url version (header_lines buffer) h0 hpre
    refine ⟨h.1, ?_⟩
    cases hfind : (header_lines buffer).find? is_host_line with
    | none =>
      have := (h.2.2 hfind).1
      constructor
      · intro hc; exact absurd this hc
      · rintro ⟨l, hl', hl''⟩
        have := List.find?_eq_none.1 hfind l hl'
        exact absurd hl'' this
    | some l =>
      have := (h.2.1 l hfind).1
      constructor
      · intro _
        exact ⟨l, List.mem_of_find?_eq_some hfind, List.find?_some hfind⟩
      · intro _
        rw [this]; simp
  refine ⟨url, hurl, ?_, habs, horg⟩
  by_cases hpre : HTTP_PREFIX <+: url
  · obtain ⟨_, p, hp, hh⟩ := habs hpre
    refine ⟨p, hp, ?_⟩
    rintro rfl
    simp at hh
  · exact ⟨url, (horg hpre).1, hne⟩

/-- C5 witness: scenario A. -/
theorem parse_target_fields_invariant_witness :
    ParsedRequest_parse ParsedRequest_create scenarioA = some (0, resultA) ∧
    ∃ url, request_target scenarioA = some url ∧
      (∃ p, resultA.path = some p ∧ p ≠ []) ∧
      (HTTP_PREFIX <+: url →
        resultA.host ≠ none ∧ ∃ p, resultA.path = some p ∧ p.head? = some SLASH) ∧
      (¬ HTTP_PREFIX <+: url →
        resultA.path = some url ∧
        (resultA.host ≠ none ↔ ∃ l ∈ header_lines scenarioA, is_host_line l = true)) :=
  ⟨by decide, parse_target_fields_invariant resultA scenarioA (by decide)⟩

/-- C5 counterexample: three accepted requests, one leaving `host` NULL, one
with a path that does not begin with "/", one with an empty host. -/
theorem parse_target_fields_counterexample :
    (∃ pr', ParsedRequest_parse ParsedRequest_create no_host_request = some (0, pr') ∧
      pr'.host = none) ∧
    (∃ pr', ParsedRequest_parse ParsedRequest_create relative_target_request = some (0, pr') ∧
      pr'.path = some (ascii "foo")) ∧
    (∃ pr', ParsedRequest_parse ParsedRequest_create empty_authority_request = some (0, pr') ∧
      pr'.host = some []) := by
  refine ⟨⟨_, rfl, ?_⟩, ⟨_, rfl, ?_⟩, ⟨_, rfl, ?_⟩⟩ <;> decide

theorem not_host_of_content_length (name : List Nat)
    (h : strcasecmp name (ascii "Content-Length") = 0) : strcasecmp name (ascii "Host") ≠ 0 := by
  intro h'
  rw [strcasecmp_eq_zero_iff] at h h'
  rw [h] at h'
  revert h'
  decide

theorem parse_header_line_content_length (pr : ParsedRequest) (l : List Nat) :
    (parse_header_line pr l).content_length =
      if is_content_length_line l = true then atoi (header_value l) else pr.content_length := by
  unfold parse_header_line is_content_length_line header_value
  cases hc : strchr l COLON with
  | none => simp
  | some colon =>
    dsimp only
    by_cases hcl : strcasecmp (trim_whitespace (List.take colon l)) (ascii "Content-Length") = 0
    · rw [if_neg (fun hh => not_host_of_content_length _ hcl hh.1), if_pos hcl]
      simp [ParsedHeader_set_frame, hcl]
    · have hb : (strcasecmp (trim_whitespace (List.take colon l)) (ascii "Content-Length") == 0)
          = false := by simpa using hcl
      rw [if_neg hcl]
      simp only [hb, Bool.false_eq_true, if_false]
      split_ifs
      · cases strchr (trim_whitespace (List.drop (colon + 1) l)) COLON <;>
          simp [ParsedHeader_set_frame]
      · simp [ParsedHeader_set_frame]

/-- The header loop leaves in `content_length` the `atoi` of the last
Content-Length line, or the initial value when there is none. -/
theorem foldl_content_length (ls : List (List Nat)) (pr : ParsedRequest) :
    (ls.foldl parse_header_line pr).content_length =
      match (ls.filter is_content_length_line).getLast? with
      | none => pr.content_length
      | some l => atoi (header_value l) := by
  induction ls using List.reverseRecOn with
  | nil => simp
  | append_singleton init x ih =>
    rw [List.foldl_append, List.foldl_cons, List.foldl_nil, parse_header_line_content_length,
      List.filter_append]
    by_cases hx : is_content_length_line x = true
    · simp [hx, List.filter_cons]
    · simp only [hx, if_false]
      rw [ih]
      simp [List.filter_cons, hx]

theorem long_to_int_clamp_small (n : Nat) (h : n < 2 ^ 31) :
    long_to_int (clamp_long (n : Int)) = n := by
  have h1 : (n : Int) < 2 ^ 31 := by exact_mod_cast h
  have h0 : (0 : Int) ≤ n := Int.natCast_nonneg n
  unfold clamp_long long_to_int
  rw [if_neg (by omega), if_neg (by omega)]
  omega

theorem atoi_digits (ds : List Nat) (hne : ds ≠ []) (hall : ∀ d ∈ ds, isdigit d = true)
    (hlt : digits_value ds < 2 ^ 31) : atoi ds = digits_value ds := by
  cases ds with
  | nil => exact absurd rfl hne
  | cons d r =>
    have hd : isdigit d = true := hall d (by simp)
    have hd' : 48 ≤ d ∧ d ≤ 57 := by simpa [isdigit] using hd
    have hsp : isspace d = false := by
      simp only [isspace, Bool.or_eq_false_iff, Bool.and_eq_false_iff, beq_eq_false_iff_ne,
        decide_eq_false_iff_not]
      omega
    have htw : (d :: r).takeWhile isdigit = d :: r :=
      List.takeWhile_eq_self_iff.2 (fun x hx => hall x hx)
    unfold atoi
    rw [List.dropWhile_cons, hsp]
    simp only [Bool.false_eq_true, if_false]
    split
    · rename_i t heq
      simp only [List.cons.injEq] at heq
      omega
    · rename_i t heq
      simp only [List.cons.injEq] at heq
      omega
    · rw [htw]
      exact long_to_int_clamp_small _ hlt

theorem atoi_no_digit (v : List Nat)
    (h : ∀ c, (v.dropWhile isspace).head? = some c → isdigit c = false ∧ c ≠ 43 ∧ c ≠ 45) :
    atoi v = 0 := by
  unfold atoi
  split
  · rename_i t heq
    rw [heq] at h
    exact absurd rfl (h 45 rfl).2.2
  · rename_i t heq
    rw [heq] at h
    exact absurd rfl (h 43 rfl).2.1
  · rename_i t h1 h2
    cases ht : v.dropWhile isspace with
    | nil => simp [digits_value, clamp_long, long_to_int]
    | cons c r =>
      rw [ht] at h
      have := (h c rfl).1
      simp [List.takeWhile_cons, this, digits_value, clamp_long, long_to_int]

theorem trim_whitespace_dropWhile (s : List Nat) :
    (trim_whitespace s).dropWhile isspace = trim_whitespace s := by
  unfold trim_whitespace
  split
  · rfl
  · rename_i c r heq
    have := dropWhile_cons_head heq
    simp [List.dropWhile_cons, this]

theorem header_value_dropWhile (l : List Nat) :
    (header_value l).dropWhile isspace = header_value l := by
  unfold header_value
  split
  · rfl
  · exact trim_whitespace_dropWhile _

/-- C6 (amended): after a successful parse of a fresh request, `content_length`
is 0 when the request has no Content-Length header line; otherwise it is
`atoi` of the trimmed value of the last Content-Length line, which is the
number when the value is a non-empty run of decimal digits below 2^31 and 0
when the value starts with neither a digit nor a sign. -/
theorem parse_content_length (pr' : ParsedRequest) (buffer : List Nat)
    (hok : ParsedRequest_parse ParsedRequest_create buffer = some (0, pr')) :
    (last_content_length_value buffer = none → pr'.content_length = 0) ∧
    (∀ v, last_content_length_value buffer = some v →
      pr'.content_length = atoi v ∧
      (v ≠ [] → (∀ d ∈ v, isdigit d = true) → digits_value v < 2 ^ 31 →
        pr'.content_length = digits_value v) ∧
      ((∀ c, v.head? = some c → isdigit c = false ∧ c ≠ 43 ∧ c ≠ 45) →
        pr'.content_length = 0)) := by
  obtain ⟨body, line, method, url, version, hb, hl, hf, hm, hv, rfl⟩ :=
    parse_ok_inv ParsedRequest_create pr' buffer hok
  have h := foldl_content_length (header_lines buffer)
    (before_headers ParsedRequest_create body method url version)
  have h0 : (before_headers ParsedRequest_create body method url version).content_length = 0 :=
    (before_headers_frame ParsedRequest_create body method url version).2.2.2.1
  unfold last_content_length_value
  cases hlast : ((header_lines buffer).filter is_content_length_line).getLast? with
  | none =>
    simp only [hlast] at h
    refine ⟨fun _ => h.trans h0, ?_⟩
    intro v hv'
    simp at hv'
  | some l =>
    simp only [hlast] at h
    refine ⟨fun hc => by simp at hc, ?_⟩
    intro v hv'
    simp only [Option.map_some', Option.some.injEq] at hv'
    subst hv'
    refine ⟨h, ?_, ?_⟩
    · intro hne hall hlt
      rw [h, atoi_digits _ hne hall hlt]
    · intro hc
      rw [h]
      apply atoi_no_digit
      rw [header_value_dropWhile]
      exact hc

/-- C6 witness: scenario B, `Content-Length: 5` gives 5. -/
theorem parse_content_length_witness :
    ParsedRequest_parse ParsedRequest_create scenarioB = some (0, resultB) ∧
    last_content_length_value scenarioB = some (ascii "5") ∧
    resultB.content_length = 5 :=
  have h := parse_content_length resultB scenarioB (by decide)
  ⟨by decide, by decide,
    ((h.2 (ascii "5") (by decide)).2.1 (by decide) (by decide) (by decide)).trans (by decide)⟩

/-- C6 counterexample: `Content-Length: -5` is accepted and leaves the
negative `content_length` -5, although the value is not a decimal number. -/
theorem parse_content_length_negative :
    ∃ pr', ParsedRequest_parse ParsedRequest_create negative_length_request = some (0, pr') ∧
      last_content_length_value negative_length_request = some (ascii "-5") ∧
      pr'.content_length = -5 ∧ pr'.content_length < 0 := by
  refine ⟨_, rfl, ?_, ?_, ?_⟩ <;> decide

theorem strstr_some_length (s n : List Nat) (i : Nat) (h : strstr s n = some i) :
    i + n.length ≤ s.length := by
  have h1 := (strstr_some_at s n i h).length_le
  rw [List.length_drop] at h1
  by_cases hi : i ≤ s.length
  · omega
  · have hd : s.drop i = [] := List.drop_eq_nil_of_le (by omega)
    have h2 := strstr_some_at s n i h
    rw [hd] at h2
    have hn : n = [] := List.prefix_nil.1 h2
    subst hn
    -- the empty needle is found at offset 0
    cases s with
    | nil => simp [strstr] at h; omega
    | cons c s => simp [strstr] at h; omega

/-- The first occurrence in a prefix is the first occurrence in the whole. -/
theorem strstr_of_prefix (s b n : List Nat) (i : Nat) (hs : s <+: b)
    (h : strstr s n = some i) : strstr b n = some i := by
  induction s generalizing b i with
  | nil =>
    simp only [strstr] at h
    split_ifs at h with hn
    simp only [Option.some.injEq] at h
    subst h
    simp only [List.isEmpty_eq_true] at hn
    subst hn
    cases b <;> simp [strstr]
  | cons c s ih =>
    obtain ⟨r, rfl⟩ := hs
    have e : strstr (c :: (s ++ r)) n =
        if n.isPrefixOf (c :: (s ++ r)) then some 0
        else (strstr (s ++ r) n).map (· + 1) := rfl
    rw [List.cons_append, e]
    simp only [strstr] at h
    split_ifs at h with hp
    · simp only [Option.some.injEq] at h
      subst h
      have h1 : n <+: c :: s := List.isPrefixOf_iff_prefix.1 hp
      have h2 : n <+: c :: (s ++ r) := h1.trans ⟨r, rfl⟩
      rw [if_pos (List.isPrefixOf_iff_prefix.2 h2)]
    · simp only [Option.map_eq_some'] at h
      obtain ⟨j, hj, rfl⟩ := h
      have hlen := strstr_some_length s n j hj
      have hnp : ¬ n.isPrefixOf (c :: (s ++ r)) = true := by
        intro hq
        have h2 : n <+: c :: (s ++ r) := List.isPrefixOf_iff_prefix.1 hq
        have h3 : c :: s <+: c :: (s ++ r) := ⟨r, rfl⟩
        have h4 : n <+: c :: s :=
          List.prefix_of_prefix_length_le h2 h3 (by simp only [List.length_cons]; omega)
        exact hp (List.isPrefixOf_iff_prefix.2 h4)
      rw [if_neg hnp, ih (s ++ r) j ⟨r, rfl⟩ hj]
      rfl

theorem cstr_drop (b : List Nat) (k : Nat) (hk : k ≤ (cstr b).length) :
    (cstr b).drop k = cstr (b.drop k) := by
  induction b generalizing k with
  | nil => simp [cstr]
  | cons c b ih =>
    cases k with
    | zero => simp
    | succ k =>
      by_cases hc : c = 0
      · subst hc
        rw [cstr_cons_zero] at hk
        simp at hk
      · rw [cstr_cons_ne _ _ hc] at hk ⊢
        simp only [List.length_cons, Nat.add_le_add_iff_right] at hk
        simpa using ih k hk

/-- C7 (amended): after a successful parse of a fresh request, `body` holds the
bytes that follow the first CRLFCRLF of the buffer up to, not including, the
first NUL byte among them (all of them when there is none), `body_length` is
their number, and `body` stays NULL exactly when there are none. -/
theorem parse_body (pr' : ParsedRequest) (buffer : List Nat)
    (hok : ParsedRequest_parse ParsedRequest_create buffer = some (0, pr')) :
    ∃ i, strstr buffer CRLFCRLF = some i ∧
      pr'.body.getD [] = cstr (buffer.drop (i + 4)) ∧
      pr'.body_length = (cstr (buffer.drop (i + 4))).length ∧
      (pr'.body = none ↔ cstr (buffer.drop (i + 4)) = []) ∧
      (0 ∉ buffer → pr'.body.getD [] = buffer.drop (i + 4)) := by
  obtain ⟨body, line, method, url, version, hb, hl, hf, hm, hv, rfl⟩ :=
    parse_ok_inv ParsedRequest_create pr' buffer hok
  have hfr := foldl_frame (header_lines buffer)
    (before_headers ParsedRequest_create body method url version)
  have hbf := before_headers_frame ParsedRequest_create body method url version
  unfold body_start at hb
  cases hhe : strstr (cstr buffer) CRLFCRLF with
  | none => simp [hhe] at hb
  | some i =>
    simp only [hhe, Option.map_some', Option.some.injEq] at hb
    have hlen := strstr_some_length _ _ i hhe
    have h4 : CRLFCRLF.length = 4 := by decide
    rw [h4] at hlen
    rw [cstr_drop buffer (i + 4) hlen] at hb
    have hbody : (List.foldl parse_header_line
        (before_headers ParsedRequest_create body method url version)
        (header_lines buffer)).body = if body.length > 0 then some body else none := by
      rw [hfr.2.2.2.1, hbf.2.2.2.2.1]; rfl
    have hblen : (List.foldl parse_header_line
        (before_headers ParsedRequest_create body method url version)
        (header_lines buffer)).body_length = body.length := by
      rw [hfr.2.2.2.2, hbf.2.2.2.2.2]
      split_ifs with hpos
      · rfl
      · simp only [ParsedRequest_create]; omega
    have hget : (List.foldl parse_header_line
        (before_headers ParsedRequest_create body method url version)
        (header_lines buffer)).body.getD [] = body := by
      rw [hbody]
      split_ifs with hpos
      · rfl
      · have : body = [] := List.length_eq_zero.1 (by omega)
        simp [this]
    refine ⟨i, strstr_of_prefix _ _ _ i (cstr_is_initial buffer) hhe, ?_, ?_, ?_, ?_⟩
    · rw [hget, hb]
    · rw [hblen, hb]
    · rw [hbody, ← hb]
      split_ifs with hpos
      · constructor
        · intro hc; simp at hc
        · intro hc; rw [hc] at hpos; simp at hpos
      · constructor
        · intro _; exact List.length_eq_zero.1 (by omega)
        · intro _; rfl
    · intro h0
      rw [hget, ← hb]
      exact cstr_eq_self _ (fun hm => h0 ((List.drop_sublist _ _).subset hm))

/-- C7 witness: scenario B yields the body `hello`. -/
theorem parse_body_witness :
    ParsedRequest_parse ParsedRequest_create scenarioB = some (0, resultB) ∧
    resultB.body = some (ascii "hello") ∧ resultB.body_length = 5 ∧
    ∃ i, strstr scenarioB CRLFCRLF = some i ∧
      resultB.body.getD [] = cstr (scenarioB.drop (i + 4)) ∧
      resultB.body_length = (cstr (scenarioB.drop (i + 4))).length ∧
      (resultB.body = none ↔ cstr (scenarioB.drop (i + 4)) = []) ∧
      (0 ∉ scenarioB → resultB.body.getD [] = scenarioB.drop (i + 4)) :=
  ⟨by decide, by decide, by decide, parse_body resultB scenarioB (by decide)⟩

/-- C7 counterexample: the five bytes `he\0lo` follow the first CRLFCRLF, but
the accepted request keeps only the two bytes `he` as body. -/
theorem parse_body_stops_at_nul :
    ∃ pr', ParsedRequest_parse ParsedRequest_create nul_in_body_request = some (0, pr') ∧
      strstr nul_in_body_request CRLFCRLF = some 29 ∧
      nul_in_body_request.drop (29 + 4) = ascii "he" ++ [0] ++ ascii "lo" ∧
      pr'.body = some (ascii "he") ∧ pr'.body_length = 2 := by
  refine ⟨_, rfl, ?_, ?_, ?_, ?_⟩ <;> decide

/-- C8 (code defect): with a 26-byte buffer `ParsedRequest_unparse` returns 0 on
a request with the two headers `A: b` and `C: d`, whose complete rendering
takes 30 bytes, and leaves a rendering without the header `C: d`. -/
theorem unparse_drops_header :
    ParsedRequest_parse ParsedRequest_create two_header_buffer = some (0, two_header_request) ∧
    (complete_rendering two_header_request).length = 30 ∧
    ParsedRequest_unparse two_header_request 26 = (0, ascii "GET / HTTP/1.1\r\nA: b\r\n\r\n") ∧
    ParsedRequest_unparse two_header_request 26 ≠ (0, complete_rendering two_header_request) ∧
    ParsedRequest_unparse two_header_request 31 = (0, complete_rendering two_header_request) := by
  refine ⟨?_, ?_, ?_, ?_, ?_⟩ <;> decide

theorem ParsedHeader_set_headers (pr : ParsedRequest) (name value : List Nat) :
    (ParsedHeader_set pr name value).2.headers = header_list_set pr.headers name value := by
  unfold ParsedHeader_set header_list_set
  cases update_existing pr.headers name value <;> rfl

theorem ParsedHeader_set_code (pr : ParsedRequest) (name value : List Nat) :
    (ParsedHeader_set pr name value).1 = 0 := by
  unfold ParsedHeader_set
  cases update_existing pr.headers name value <;> rfl

theorem strcasecmp_symm (a b : List Nat) : strcasecmp a b = 0 ↔ strcasecmp b a = 0 := by
  rw [strcasecmp_eq_zero_iff, strcasecmp_eq_zero_iff]
  exact eq_comm

theorem strcasecmp_trans (a b c : List Nat) (h1 : strcasecmp a b = 0) (h2 : strcasecmp b c = 0) :
    strcasecmp a c = 0 := by
  rw [strcasecmp_eq_zero_iff] at *
  exact h1.trans h2

theorem update_existing_none_iff (hs : List ParsedHeader) (name value : List Nat) :
    update_existing hs name value = none ↔ ∀ h ∈ hs, strcasecmp h.name name ≠ 0 := by
  induction hs with
  | nil => simp [update_existing]
  | cons h t ih =>
    by_cases hh : strcasecmp h.name name = 0
    · simp [update_existing, hh]
    · simp [update_existing, hh, ih]

theorem update_existing_names (hs hs' : List ParsedHeader) (name value : List Nat)
    (h : update_existing hs name value = some hs') :
    hs'.map (fun x => x.name) = hs.map (fun x => x.name) := by
  induction hs generalizing hs' with
  | nil => simp [update_existing] at h
  | cons x t ih =>
    by_cases hh : strcasecmp x.name name = 0
    · simp only [update_existing, hh, if_true, Option.some.injEq] at h
      subst h; rfl
    · simp only [update_existing, hh, if_false, Option.map_eq_some'] at h
      obtain ⟨t', ht', rfl⟩ := h
      simp [ih t' ht']

theorem find_header_update_same (hs hs' : List ParsedHeader) (name value n : List Nat)
    (h : update_existing hs name value = some hs') (hn : strcasecmp n name = 0) :
    find_header hs' n = some (strncpy value (MAX_HEADER_VALUE_LEN - 1)) := by
  induction hs generalizing hs' with
  | nil => simp [update_existing] at h
  | cons x t ih =>
    by_cases hh : strcasecmp x.name name = 0
    · simp only [update_existing, hh, if_true, Option.some.injEq] at h
      subst h
      have : strcasecmp x.name n = 0 :=
        strcasecmp_trans _ _ _ hh ((strcasecmp_symm _ _).1 hn)
      simp [find_header, this]
    · simp only [update_existing, hh, if_false, Option.map_eq_some'] at h
      obtain ⟨t', ht', rfl⟩ := h
      have : strcasecmp x.name n ≠ 0 := fun hc => hh (strcasecmp_trans _ _ _ hc hn)
      simp [find_header, this, ih t' ht']

theorem find_header_update_other (hs hs' : List ParsedHeader) (name value n : List Nat)
    (h : update_existing hs name value = some hs') (hn : strcasecmp n name ≠ 0) :
    find_header hs' n = find_header hs n := by
  induction hs generalizing hs' with
  | nil => simp [update_existing] at h
  | cons x t ih =>
    by_cases hh : strcasecmp x.name name = 0
    · simp only [update_existing, hh, if_true, Option.some.injEq] at h
      subst h
      have : strcasecmp x.name n ≠ 0 := fun hc =>
        hn (strcasecmp_trans _ _ _ ((strcasecmp_symm _ _).1 hc) hh)
      simp [find_header, this]
    · simp only [update_existing, hh, if_false, Option.map_eq_some'] at h
      obtain ⟨t', ht', rfl⟩ := h
      by_cases hx : strcasecmp x.name n = 0
      · simp [find_header, hx]
      · simp [find_header, hx, ih t' ht']

theorem strncpy_short (s : List Nat) (n : Nat) (h : s.length ≤ n) : strncpy s n = s :=
  List.take_of_length_le h

/-- C10 (amended): for a name shorter than 64 bytes and a value shorter than
1024 bytes, `ParsedHeader_set` returns 0 and afterwards `ParsedHeader_get`
returns the value for every name equal to `name` ignoring case and is
unchanged for every other name; if a header with an equal name existed, the
number of headers and the order of their names are unchanged, otherwise
exactly one header is added (in front); and names that were pairwise
different ignoring case stay so. -/
theorem header_set_then_get (pr : ParsedRequest) (name value : List Nat)
    (hname : name.length < MAX_HEADER_NAME_LEN) (hvalue : value.length < MAX_HEADER_VALUE_LEN) :
    (ParsedHeader_set pr name value).1 = 0 ∧
    (∀ n, strcasecmp n name = 0 →
      ParsedHeader_get (ParsedHeader_set pr name value).2 n = some value) ∧
    (∀ n, strcasecmp n name ≠ 0 →
      ParsedHeader_get (ParsedHeader_set pr name value).2 n = ParsedHeader_get pr n) ∧
    ((∃ h ∈ pr.headers, strcasecmp h.name name = 0) →
      (ParsedHeader_set pr name value).2.headers.length = pr.headers.length ∧
      (ParsedHeader_set pr name value).2.headers.map (fun h => h.name) =
        pr.headers.map (fun h => h.name)) ∧
    ((¬ ∃ h ∈ pr.headers, strcasecmp h.name name = 0) →
      (ParsedHeader_set pr name value).2.headers =
        { name := name, value := value } :: pr.headers) ∧
    (pr.headers.Pairwise (fun a b => strcasecmp a.name b.name ≠ 0) →
      (ParsedHeader_set pr name value).2.headers.Pairwise
        (fun a b => strcasecmp a.name b.name ≠ 0)) := by
  have hn' : strncpy name (MAX_HEADER_NAME_LEN - 1) = name :=
    strncpy_short _ _ (by simp only [MAX_HEADER_NAME_LEN] at hname ⊢; omega)
  have hv' : strncpy value (MAX_HEADER_VALUE_LEN - 1) = value :=
    strncpy_short _ _ (by simp only [MAX_HEADER_VALUE_LEN] at hvalue ⊢; omega)
  refine ⟨ParsedHeader_set_code pr name value, ?_⟩
  unfold ParsedHeader_get
  rw [ParsedHeader_set_headers]
  unfold header_list_set
  rw [hn', hv']
  cases hu : update_existing pr.headers name value with
  | none =>
    have hall := (update_existing_none_iff _ _ _).1 hu
    refine ⟨?_, ?_, ?_, ?_, ?_⟩
    · intro n hn
      simp [find_header, (strcasecmp_symm _ _).1 hn]
    · intro n hn
      have : strcasecmp name n ≠ 0 := fun hc => hn ((strcasecmp_symm _ _).1 hc)
      simp [find_header, this]
    · rintro ⟨h, hm, h0⟩
      exact absurd h0 (hall h hm)
    · intro _; rfl
    · intro hp
      refine List.Pairwise.cons ?_ hp
      intro h hm hc
      exact hall h hm ((strcasecmp_symm _ _).1 hc)
  | some hs' =>
    have hnames := update_existing_names _ _ _ _ hu
    refine ⟨?_, ?_, ?_, ?_, ?_⟩
    · intro n hn
      rw [← hv']
      exact find_header_update_same _ _ _ _ _ hu hn
    · intro n hn
      exact find_header_update_other _ _ _ _ _ hu hn
    · intro _
      refine ⟨?_, hnames⟩
      have := congrArg List.length hnames
      simpa using this
    · intro hne
      exfalso
      apply hne
      by_contra hc
      have : update_existing pr.headers name value = none :=
        (update_existing_none_iff _ _ _).2 (fun h hm h0 => hc ⟨h, hm, h0⟩)
      rw [this] at hu
      simp at hu
    · intro hp
      have h1 : (pr.headers.map (fun h => h.name)).Pairwise (fun a b => strcasecmp a b ≠ 0) :=
        List.pairwise_map.2 hp
      rw [← hnames] at h1
      exact List.pairwise_map.1 h1

/-- C10 witness: setting `host` on the request of scenario B. -/
theorem header_set_then_get_witness :
    ParsedHeader_get (ParsedHeader_set resultB (ascii "host") (ascii "x")).2 (ascii "HOST")
      = some (ascii "x") ∧
    ParsedHeader_get (ParsedHeader_set resultB (ascii "host") (ascii "x")).2
      (ascii "content-length") = some (ascii "5") ∧
    (ParsedHeader_set resultB (ascii "host") (ascii "x")).2.headers.length = 2 :=
  have h := header_set_then_get resultB (ascii "host") (ascii "x") (by decide) (by decide)
  ⟨h.2.1 (ascii "HOST") (by decide),
   (h.2.2.1 (ascii "content-length") (by decide)).trans (by decide),
   ((h.2.2.2.1 ⟨{ name := ascii "Host", value := ascii "api.local" }, by decide, by decide⟩).1).trans
     (by decide)⟩

set_option maxRecDepth 100000 in
/-- C10 counterexample: a value of 1024 bytes is stored cut to 1023 bytes, and
a name of 64 bytes is stored cut to 63 bytes and then not found. -/
theorem header_set_truncates :
    ParsedHeader_get (ParsedHeader_set ParsedRequest_create (ascii "X") long_value).2 (ascii "X")
      = some (List.replicate 1023 97) ∧
    ParsedHeader_get (ParsedHeader_set ParsedRequest_create (ascii "X") long_value).2 (ascii "X")
      ≠ some long_value ∧
    ParsedHeader_get (ParsedHeader_set ParsedRequest_create long_name (ascii "v")).2 long_name
      = none := by
  refine ⟨?_, ?_, ?_⟩ <;> decide

theorem header_list_set_new (hs : List ParsedHeader) (name value : List Nat)
    (hd : ∀ h ∈ hs, strcasecmp h.name name ≠ 0) :
    header_list_set hs name value =
      { name := strncpy name (MAX_HEADER_NAME_LEN - 1),
        value := strncpy value (MAX_HEADER_VALUE_LEN - 1) } :: hs := by
  unfold header_list_set
  rw [(update_existing_none_iff hs name value).2 hd]

/-- Setting headers with new, pairwise different names stacks them in front. -/
theorem set_all_names (hs : List (List Nat × List Nat)) (pr : ParsedRequest)
    (hdist : (hs.map Prod.fst).Pairwise (fun a b => strcasecmp a b ≠ 0))
    (hfresh : ∀ h ∈ pr.headers, ∀ p ∈ hs, strcasecmp h.name p.1 ≠ 0)
    (hlen : ∀ p ∈ hs, p.1.length < MAX_HEADER_NAME_LEN) :
    (set_all pr hs).headers.map (fun h => h.name) =
      (hs.map Prod.fst).reverse ++ pr.headers.map (fun h => h.name) := by
  induction hs generalizing pr with
  | nil => simp [set_all]
  | cons p ps ih =>
    have hp : (ParsedHeader_set pr p.1 p.2).2.headers =
        { name := p.1, value := strncpy p.2 (MAX_HEADER_VALUE_LEN - 1) } :: pr.headers := by
      rw [ParsedHeader_set_headers, header_list_set_new _ _ _ (fun h hm => hfresh h hm p (by simp)),
        strncpy_short p.1 _ (by
          have := hlen p (by simp)
          simp only [MAX_HEADER_NAME_LEN] at this ⊢; omega)]
    rw [List.map_cons, List.pairwise_cons] at hdist
    have := ih (ParsedHeader_set pr p.1 p.2).2 hdist.2
      (by
        intro h hm q hq
        rw [hp] at hm
        rcases List.mem_cons.1 hm with rfl | hm
        · exact hdist.1 q.1 (List.mem_map_of_mem _ hq)
        · exact hfresh h hm q (List.mem_cons_of_mem _ hq))
      (fun q hq => hlen q (List.mem_cons_of_mem _ hq))
    simp only [set_all, List.foldl_cons] at this ⊢
    rw [this, hp]
    simp

theorem parse_header_line_headers (pr : ParsedRequest) (l : List Nat) :
    (header_name l = none ∧ (parse_header_line pr l).headers = pr.headers) ∨
    (∃ n v, header_name l = some n ∧
      (parse_header_line pr l).headers = header_list_set pr.headers n v) := by
  unfold parse_header_line header_name
  cases hc : strchr l COLON with
  | none => left; simp
  | some colon =>
    right
    dsimp only
    split_ifs
    · cases strchr (trim_whitespace (List.drop (colon + 1) l)) COLON with
      | none => exact ⟨_, _, rfl, by rw [ParsedHeader_set_headers]⟩
      | some j => exact ⟨_, _, rfl, by rw [ParsedHeader_set_headers]⟩
    · exact ⟨_, _, rfl, by rw [ParsedHeader_set_headers]⟩
    · exact ⟨_, _, rfl, by rw [ParsedHeader_set_headers]⟩

/-- The header loop stacks headers with new, pairwise different names in
front of the list. -/
theorem foldl_names (ls : List (List Nat)) (pr : ParsedRequest)
    (hdist : (ls.filterMap header_name).Pairwise (fun a b => strcasecmp a b ≠ 0))
    (hfresh : ∀ h ∈ pr.headers, ∀ n ∈ ls.filterMap header_name, strcasecmp h.name n ≠ 0)
    (hlen : ∀ n ∈ ls.filterMap header_name, n.length < MAX_HEADER_NAME_LEN) :
    (ls.foldl parse_header_line pr).headers.map (fun h => h.name) =
      (ls.filterMap header_name).reverse ++ pr.headers.map (fun h => h.name) := by
  induction ls generalizing pr with
  | nil => simp
  | cons l ls ih =>
    rw [List.foldl_cons]
    rcases parse_header_line_headers pr l with ⟨hn, hh⟩ | ⟨n, v, hn, hh⟩
    · rw [List.filterMap_cons_none hn] at hdist hfresh hlen ⊢
      rw [ih _ hdist (by rw [hh]; exact hfresh) hlen, hh]
    · rw [List.filterMap_cons_some hn] at hdist hfresh hlen ⊢
      rw [List.pairwise_cons] at hdist
      have hp : (parse_header_line pr l).headers =
          { name := n, value := strncpy v (MAX_HEADER_VALUE_LEN - 1) } :: pr.headers := by
        rw [hh, header_list_set_new _ _ _ (fun h hm => hfresh h hm n (by simp)),
          strncpy_short n _ (by
            have := hlen n (by simp)
            simp only [MAX_HEADER_NAME_LEN] at this ⊢; omega)]
      rw [ih _ hdist.2
        (by
          intro h hm q hq
          rw [hp] at hm
          rcases List.mem_cons.1 hm with rfl | hm
          · exact hdist.1 q hq
          · exact hfresh h hm q (List.mem_cons_of_mem _ hq))
        (fun q hq => hlen q (List.mem_cons_of_mem _ hq)), hp]
      simp

theorem header_text_length (h : ParsedHeader) : 4 ≤ (header_text h).length := by
  unfold header_text
  have h1 : (ascii ": ").length = 2 := by decide
  have h2 : CRLF.length = 2 := by decide
  simp only [List.length_append, h1, h2]
  omega

/-- With room for every line the loop of `ParsedRequest_unparse_headers`
stores all header lines, in list order. -/
theorem unparse_headers_loop_fits (buflen : Nat) (hs : List ParsedHeader) (offset : Nat)
    (out : List Nat) (hsz : buflen < SIZE_MOD)
    (hfit : offset + ((hs.map header_text).flatten).length + 4 ≤ buflen) :
    unparse_headers_loop buflen hs offset out = (0, out ++ (hs.map header_text).flatten) := by
  induction hs generalizing offset out with
  | nil => simp [unparse_headers_loop]
  | cons h t ih =>
    have h4 := header_text_length h
    simp only [List.map_cons, List.flatten_cons, List.length_append] at hfit
    have hguard : offset < (buflen + SIZE_MOD - 4) % SIZE_MOD := by
      have : (buflen + SIZE_MOD - 4) % SIZE_MOD = buflen - 4 := by
        have e : buflen + SIZE_MOD - 4 = (buflen - 4) + SIZE_MOD := by omega
        rw [e, Nat.add_mod_right, Nat.mod_eq_of_lt (by omega)]
      rw [this]; omega
    rw [unparse_headers_loop, if_pos hguard]
    simp only [snprintf]
    rw [if_neg (by omega), List.take_of_length_le (by omega), ih _ _ (by omega)]
    simp

theorem unparse_headers_fits (pr : ParsedRequest) (buflen : Nat) (hsz : buflen < SIZE_MOD)
    (hfit : ((pr.headers.map header_text).flatten).length + 4 ≤ buflen) :
    ParsedRequest_unparse_headers pr buflen = (0, (pr.headers.map header_text).flatten) := by
  unfold ParsedRequest_unparse_headers
  rw [if_neg (by omega), unparse_headers_loop_fits buflen _ 0 [] hsz (by omega)]
  simp

theorem unparse_fits (pr : ParsedRequest) (buflen : Nat) (hsz : buflen < SIZE_MOD)
    (hfit : (request_line_text pr).length + ((pr.headers.map header_text).flatten).length + 4
      + pr.body_length ≤ buflen) :
    ParsedRequest_unparse pr buflen = (0, complete_rendering pr) := by
  have hs : buflen - (request_line_text pr).length < SIZE_MOD := by omega
  unfold ParsedRequest_unparse complete_rendering
  rw [if_neg (by omega)]
  simp only [snprintf]
  rw [if_neg (by omega), List.take_of_length_le (by omega),
    unparse_headers_fits pr _ hs (by omega)]
  simp only [List.length_append]
  rw [if_neg (by decide), if_neg (by omega)]
  cases hb : pr.body with
  | none => simp
  | some body =>
    simp only [Option.getD_some]
    have h2 : CRLF.length = 2 := by decide
    by_cases hpos : pr.body_length > 0
    · rw [if_pos hpos, if_neg (by rw [h2]; omega)]
    · rw [if_neg hpos]
      have : pr.body_length = 0 := by omega
      simp [this]

/-- C9 (amended): headers are serialized in reverse insertion order. Headers
added with pairwise different names (ignoring case), each shorter than 64
bytes, in the order n1, ..., nk, by `ParsedHeader_set` calls on an empty list
or by `ParsedRequest_parse` reading the header lines, are held in the list in
the order nk, ..., n1; and with room for the complete rendering
`ParsedRequest_unparse_headers` and `ParsedRequest_unparse` emit the header
lines in the order of the list. -/
theorem headers_serialized_in_reverse_order :
    (∀ (pr : ParsedRequest) (hs : List (List Nat × List Nat)),
      pr.headers = [] →
      (hs.map Prod.fst).Pairwise (fun a b => strcasecmp a b ≠ 0) →
      (∀ p ∈ hs, p.1.length < MAX_HEADER_NAME_LEN) →
      (set_all pr hs).headers.map (fun h => h.name) = (hs.map Prod.fst).reverse) ∧
    (∀ (buffer : List Nat) (pr' : ParsedRequest),
      ParsedRequest_parse ParsedRequest_create buffer = some (0, pr') →
      ((header_lines buffer).filterMap header_name).Pairwise (fun a b => strcasecmp a b ≠ 0) →
      (∀ n ∈ (header_lines buffer).filterMap header_name, n.length < MAX_HEADER_NAME_LEN) →
      pr'.headers.map (fun h => h.name) = ((header_lines buffer).filterMap header_name).reverse) ∧
    (∀ (pr : ParsedRequest) (buflen : Nat), buflen < SIZE_MOD →
      ((pr.headers.map header_text).flatten).length + 4 ≤ buflen →
      ParsedRequest_unparse_headers pr buflen = (0, (pr.headers.map header_text).flatten)) ∧
    (∀ (pr : ParsedRequest) (buflen : Nat), buflen < SIZE_MOD →
      (request_line_text pr).length + ((pr.headers.map header_text).flatten).length + 4
        + pr.body_length ≤ buflen →
      ParsedRequest_unparse pr buflen =
        (0, request_line_text pr ++ (pr.headers.map header_text).flatten ++ CRLF ++
              (pr.body.getD []).take pr.body_length)) := by
  refine ⟨?_, ?_, ?_, ?_⟩
  · intro pr hs hempty hdist hlen
    have := set_all_names hs pr hdist (by rw [hempty]; simp) hlen
    rw [this, hempty]; simp
  · intro buffer pr' hok hdist hlen
    obtain ⟨body, line, method, url, version, hb, hl, hf, hm, hv, rfl⟩ :=
      parse_ok_inv ParsedRequest_create pr' buffer hok
    have h0 : (before_headers ParsedRequest_create body method url version).headers = [] :=
      (before_headers_frame ParsedRequest_create body method url version).2.2.1
    have := foldl_names (header_lines buffer) _ hdist (by rw [h0]; simp) hlen
    rw [this, h0]; simp
  · intro pr buflen hsz hfit
    exact unparse_headers_fits pr buflen hsz hfit
  · intro pr buflen hsz hfit
    exact unparse_fits pr buflen hsz hfit

/-- C9 witness: `A` then `B` are set, and are read by the parser, in that
order; the list holds `B` before `A`. -/
theorem headers_serialized_in_reverse_order_witness :
    (set_all ParsedRequest_create [(ascii "A", ascii "1"), (ascii "B", ascii "2")]).headers.map
      (fun h => h.name) = [ascii "B", ascii "A"] ∧
    (∀ pr', ParsedRequest_parse ParsedRequest_create ordered_buffer = some (0, pr') →
      pr'.headers.map (fun h => h.name) = [ascii "B", ascii "A"]) :=
  ⟨(headers_serialized_in_reverse_order.1 ParsedRequest_create
      [(ascii "A", ascii "1"), (ascii "B", ascii "2")] rfl (by decide) (by decide)).trans
      (by decide),
   fun pr' h => (headers_serialized_in_reverse_order.2.1 ordered_buffer pr' h
      (by decide) (by decide)).trans (by decide)⟩

/-- C9 counterexample: `A` is added before `B`, by two `ParsedHeader_set` calls
and by the parser, and the line of `B` is emitted before the line of `A`. -/
theorem headers_emitted_newest_first :
    ParsedRequest_unparse_headers
      (set_all ParsedRequest_create [(ascii "A", ascii "1"), (ascii "B", ascii "2")]) 100
      = (0, ascii "B: 2\r\nA: 1\r\n") ∧
    (ParsedRequest_parse ParsedRequest_create ordered_buffer).map
      (fun r => (r.1, ParsedRequest_unparse r.2 100))
      = some (0, 0, ascii "GET / HTTP/1.1\r\nB: 2\r\nA: 1\r\n\r\n") := by
  refine ⟨?_, ?_⟩ <;> decide

theorem parse_url_path_isSome (pr : ParsedRequest) (url : List Nat) :
    (parse_url pr url).path ≠ none := by
  unfold parse_url
  split_ifs
  · dsimp only
    cases strchr (List.drop 7 url) SLASH with
    | none =>
      dsimp only
      cases strchr (List.drop 7 url) COLON <;> simp
    | some i =>
      dsimp only
      cases strchr (List.take i (List.drop 7 url)) COLON <;> simp
  · simp

/-- After a successful parse the method is one of the nine known ones, the
version is one of the two known ones and the path is set. -/
theorem parse_ok_fields (pr pr' : ParsedRequest) (buffer : List Nat)
    (hp : ParsedRequest_parse pr buffer = some (0, pr')) :
    pr'.method ∈ valid_methods ∧
    (pr'.version = some (ascii "HTTP/1.0") ∨ pr'.version = some (ascii "HTTP/1.1")) ∧
    pr'.path ≠ none := by
  obtain ⟨body, line, method, url, version, hb, hl, hf, hm, hv, rfl⟩ := parse_ok_inv pr pr' buffer hp
  have h0 := request_fields_nul_free buffer line _ _ _ hl hf
  have hfr := foldl_frame (header_lines buffer) (before_headers pr body method url version)
  refine ⟨?_, ?_, ?_⟩
  · rw [hfr.1]
    have hmem := is_valid_method_mem method (h0.1 method rfl) hm
    have hlen : ∀ m ∈ valid_methods, m.length ≤ MAX_METHOD_LEN - 1 := by decide
    rw [(before_headers_frame pr body method url version).1, strncpy,
      List.take_of_length_le (hlen method hmem)]
    exact hmem
  · rw [hfr.2.2.1]
    rw [(before_headers_frame pr body method url version).2.1]
    rcases is_valid_version_eq version (h0.2.2 version rfl) hv with h | h
    · left; rw [h]
    · right; rw [h]
  · rw [hfr.2.1]
    unfold before_headers
    exact parse_url_path_isSome _ _

/-- C18: the response `thread_fn` chooses. A failed parse gives 400. After a
successful parse, a method outside GET, POST, PUT, PATCH, DELETE (then one of
HEAD, OPTIONS, TRACE, CONNECT) gives 501 whatever the host is; a supported
method with a missing host or path or an invalid version gives 400 (only the
host can be missing); otherwise the worker proceeds with the parsed request
and sends neither 400 nor 501. -/
theorem worker_response_choice (buffer : List Nat) :
    ∃ rc request, ParsedRequest_parse ParsedRequest_create (cstr buffer) = some (rc, request) ∧
      (rc ≠ 0 → thread_fn_action buffer = some (WorkerAction.send_error 400)) ∧
      (rc = 0 → request.method ∉ supported_methods →
        thread_fn_action buffer = some (WorkerAction.send_error 501) ∧
        request.method ∈ [ascii "HEAD", ascii "OPTIONS", ascii "TRACE", ascii "CONNECT"]) ∧
      (rc = 0 → request.method ∈ supported_methods →
        (request.host = none ∨ request.path = none ∨
          (request.version ≠ some (ascii "HTTP/1.0") ∧
           request.version ≠ some (ascii "HTTP/1.1"))) →
        thread_fn_action buffer = some (WorkerAction.send_error 400) ∧ request.host = none) ∧
      (rc = 0 → request.method ∈ supported_methods → request.host ≠ none →
        thread_fn_action buffer = some (WorkerAction.proceed request)) := by
  obtain ⟨rc, request, hp, hrc⟩ := parse_total ParsedRequest_create (cstr buffer)
  refine ⟨rc, request, hp, ?_, ?_, ?_, ?_⟩
  · intro hne
    have : rc = -1 := by rcases hrc with h | h; exact absurd h hne; exact h
    subst this
    simp [thread_fn_action, hp]
  all_goals
    intro h0
    subst h0
    obtain ⟨hm, hv, hpath⟩ := parse_ok_fields _ _ _ hp
    have hsup : ∀ m ∈ valid_methods, is_supported_method m = true ↔ m ∈ supported_methods := by
      decide
    have hrest : ∀ m ∈ valid_methods, m ∉ supported_methods →
        m ∈ [ascii "HEAD", ascii "OPTIONS", ascii "TRACE", ascii "CONNECT"] := by decide
    have hver : request.version.map checkHTTPversion = some 1 := by
      rcases hv with h | h <;> rw [h] <;> decide
  · intro hns
    have : is_supported_method request.method = false := by
      rw [Bool.eq_false_iff]
      exact fun hc => hns ((hsup _ hm).1 hc)
    exact ⟨by simp [thread_fn_action, hp, this], hrest _ hm hns⟩
  · intro hs hbad
    have hsm : is_supported_method request.method = true := (hsup _ hm).2 hs
    have hhost : request.host = none := by
      rcases hbad with h | h | h
      · exact h
      · exact absurd h hpath
      · rcases hv with h' | h'
        · exact absurd h' h.1
        · exact absurd h' h.2
    exact ⟨by simp [thread_fn_action, hp, hsm, hhost], hhost⟩
  · intro hs hhost
    have hsm : is_supported_method request.method = true := (hsup _ hm).2 hs
    simp [thread_fn_action, hp, hsm, hhost, hpath, hver]

/-- C18 examples: `FOO` yields 400, `HEAD` without a host yields 501, `GET`
without a host yields 400, and scenarios A and B proceed. -/
theorem worker_response_choice_examples :
    thread_fn_action foo_request = some (WorkerAction.send_error 400) ∧
    thread_fn_action head_request = some (WorkerAction.send_error 501) ∧
    thread_fn_action get_no_host_request = some (WorkerAction.send_error 400) ∧
    thread_fn_action scenarioA = some (WorkerAction.proceed resultA) ∧
    thread_fn_action scenarioB = some (WorkerAction.proceed resultB) := by
  refine ⟨?_, ?_, ?_, ?_, ?_⟩ <;> decide

theorem crlfcrlf_free_tail (c : Nat) (p : List Nat) (h : crlfcrlf_free (c :: p)) :
    crlfcrlf_free p := by
  obtain ⟨h1, h2, h3, h4⟩ := h
  refine ⟨?_, ?_, ?_, ?_⟩
  · exact fun hc => h1 (hc.trans (List.suffix_cons c p).isInfix)
  · exact fun hc => h2 (hc.trans (List.suffix_cons c p))
  · exact fun hc => h3 (hc.trans (List.suffix_cons c p))
  · exact fun hc => h4 (hc.trans (List.suffix_cons c p))

theorem crlfcrlf_free_not_start (p r : List Nat) (hp : p ≠ []) (h : crlfcrlf_free p) :
    ¬ CRLFCRLF <+: p ++ r := by
  intro hc
  obtain ⟨h1, h2, h3, h4⟩ := h
  have hN : CRLFCRLF = [13, 10, 13, 10] := by decide
  rw [hN] at hc h1
  by_cases hlen : 4 ≤ p.length
  · exact h1 (List.prefix_of_prefix_length_le hc (List.prefix_append p r) (by simpa using hlen)).isInfix
  · have hpp : p <+: [13, 10, 13, 10] :=
      List.prefix_of_prefix_length_le (List.prefix_append p r) hc (by simp; omega)
    match p, hp, hlen, hpp with
    | [a], _, _, hpp =>
      have := hpp.eq_of_length_le
      obtain ⟨t, ht⟩ := hpp
      simp at ht
      exact h2 (by rw [ht.1])
    | [a, b], _, _, hpp =>
      obtain ⟨t, ht⟩ := hpp
      simp at ht
      exact h3 (by rw [ht.1, ht.2.1])
    | [a, b, c], _, _, hpp =>
      obtain ⟨t, ht⟩ := hpp
      simp at ht
      exact h4 (by rw [ht.1, ht.2.1, ht.2.2.1])
    | _ :: _ :: _ :: _ :: _, _, hlen, _ => simp at hlen

/-- The first CRLFCRLF of `p ++ r` is the first one of `r` when none can start
in `p`. -/
theorem strstr_append_free (p r : List Nat) (h : crlfcrlf_free p) :
    strstr (p ++ r) CRLFCRLF = (strstr r CRLFCRLF).map (fun i => i + p.length) := by
  induction p with
  | nil => simp
  | cons c p ih =>
    have hns := crlfcrlf_free_not_start (c :: p) r (by simp) h
    have e : strstr (c :: (p ++ r)) CRLFCRLF =
        if CRLFCRLF.isPrefixOf (c :: (p ++ r)) then some 0
        else (strstr (p ++ r) CRLFCRLF).map (· + 1) := rfl
    have hns' : ¬ CRLFCRLF.isPrefixOf (c :: (p ++ r)) = true :=
      fun hc => hns (List.isPrefixOf_iff_prefix.1 hc)
    rw [List.cons_append, e, if_neg hns', ih (crlfcrlf_free_tail c p h)]
    cases strstr r CRLFCRLF <;> simp [Nat.add_assoc]

theorem crlfcrlf_free_of_no_cr (t : List Nat) (h : 13 ∉ t) : crlfcrlf_free t := by
  refine ⟨?_, ?_, ?_, ?_⟩
  · exact fun hc => h (hc.subset (by decide))
  · exact fun hc => h (hc.subset (by decide))
  · exact fun hc => h (hc.subset (by decide))
  · exact fun hc => h (hc.subset (by decide))

theorem strstr_at_start (body : List Nat) : strstr (CRLFCRLF ++ body) CRLFCRLF = some 0 := by
  have hN : CRLFCRLF = [13, 10, 13, 10] := by decide
  rw [hN]
  simp [strstr, List.isPrefixOf]

/-- Shape of one error page built from a fixed beginning `a`, the date `t`, the
fixed `Server` line `b` and the fixed body. -/
theorem error_page_shape (a b body t : List Nat) (ht : t.length < 50)
    (hlen : a.length + b.length + body.length + 54 ≤ 1023)
    (ha : crlfcrlf_free a) (hb : crlfcrlf_free b) :
    (snprintf 1024 (a ++ t ++ (b ++ CRLFCRLF ++ body))).2 = (a ++ t ++ b) ++ CRLFCRLF ++ body ∧
    (13 ∉ t → strstr ((a ++ t ++ b) ++ CRLFCRLF ++ body) CRLFCRLF = some (a ++ t ++ b).length) := by
  have h4 : CRLFCRLF.length = 4 := by decide
  constructor
  · unfold snprintf
    rw [List.take_of_length_le (by simp only [List.length_append, h4]; omega)]
    simp [List.append_assoc]
  · intro h13
    have e : (a ++ t ++ b) ++ CRLFCRLF ++ body = a ++ (t ++ (b ++ (CRLFCRLF ++ body))) := by
      simp [List.append_assoc]
    rw [e, strstr_append_free a _ ha, strstr_append_free t _ (crlfcrlf_free_of_no_cr t h13),
      strstr_append_free b _ hb, strstr_at_start]
    simp only [Option.map_some', List.length_append]
    congr 1
    omega

/-- The properties of one error page, from those of its fixed parts. -/
theorem error_page_properties (a body t status : List Nat) (n : Nat) (ht : t.length < 50)
    (hlen : a.length + body.length + 80 ≤ 1023)
    (ha : crlfcrlf_free a) (hst : status <+: a)
    (hcl : (ascii "\r\nContent-Length: " ++ decimal body.length ++ CRLF) <:+: a)
    (hn : body.length = n) (hconn : ascii "\r\nConnection: close\r\n" <:+: a) :
    ∃ head body',
      (snprintf 1024 (a ++ t ++ (ascii "\r\nServer: ProxyServer/1.0" ++ CRLFCRLF ++ body))).2
        = head ++ CRLFCRLF ++ body' ∧
      status <+: head ∧
      (ascii "\r\nContent-Length: " ++ decimal body'.length ++ CRLF) <:+: head ∧
      body'.length = n ∧
      ascii "\r\nConnection: close\r\n" <:+: head ∧
      ascii "\r\nServer: ProxyServer/1.0" <:+ head ∧
      (13 ∉ t → strstr (head ++ CRLFCRLF ++ body') CRLFCRLF = some head.length) := by
  have hb : (ascii "\r\nServer: ProxyServer/1.0").length = 25 := by decide
  have hsh := error_page_shape a (ascii "\r\nServer: ProxyServer/1.0") body t ht
    (by rw [hb]; omega) ha (by decide)
  have hpre : a <+: a ++ t ++ ascii "\r\nServer: ProxyServer/1.0" := by
    rw [List.append_assoc]; exact List.prefix_append _ _
  exact ⟨a ++ t ++ ascii "\r\nServer: ProxyServer/1.0", body, hsh.1, hst.trans hpre,
    hcl.trans hpre.isInfix, hn, hconn.trans hpre.isInfix, List.suffix_append _ _, hsh.2⟩

set_option maxRecDepth 100000 in
/-- C20: for each status 400, 404, 500, 501 and every date string that fits
the 50-byte `currentTime` buffer, `sendErrorMessage` returns 1 and sends a
message `head CRLFCRLF body` in which `head` starts with the status line,
contains the headers `Connection: close` and `Content-Length: n` and ends with
`Server: ProxyServer/1.0`, where `n` (95, 91, 115, 103) is the length of
`body`, the bytes after the first blank line; for every other status it
returns -1 and sends nothing. -/
theorem error_message_well_formed (status_code : Int) (currentTime : List Nat)
    (hdate : currentTime.length < 50) :
    (status_code ∈ [400, 404, 500, 501] →
      ∃ head body,
        sendErrorMessage status_code currentTime = (1, some (head ++ CRLFCRLF ++ body)) ∧
        error_status_line status_code <+: head ∧
        (ascii "\r\nContent-Length: " ++ decimal body.length ++ CRLF) <:+: head ∧
        body.length = error_content_length status_code ∧
        ascii "\r\nConnection: close\r\n" <:+: head ∧
        ascii "\r\nServer: ProxyServer/1.0" <:+ head ∧
        (13 ∉ currentTime → strstr (head ++ CRLFCRLF ++ body) CRLFCRLF = some head.length)) ∧
    (status_code ∉ [400, 404, 500, 501] →
      sendErrorMessage status_code currentTime = (-1, none)) := by
  constructor
  · intro hmem
    simp only [List.mem_cons, List.mem_singleton, List.not_mem_nil, or_false] at hmem
    rcases hmem with rfl | rfl | rfl | rfl
    · obtain ⟨head, body, h1, h2⟩ := error_page_properties
        (ascii "HTTP/1.1 400 Bad Request\r\nContent-Length: 95\r\nConnection: close\r\nContent-Type: text/html\r\nDate: ")
        (ascii "<HTML><HEAD><TITLE>400 Bad Request</TITLE></HEAD>\n<BODY><H1>400 Bad Request</H1>\n</BODY></HTML>")
        currentTime (error_status_line 400) 95 hdate
        (by decide) (by decide) (by decide) (by decide) (by decide) (by decide)
      exact ⟨head, body, by rw [← h1]; rfl, h2⟩
    · obtain ⟨head, body, h1, h2⟩ := error_page_properties
        (ascii "HTTP/1.1 404 Not Found\r\nContent-Length: 91\r\nContent-Type: text/html\r\nConnection: close\r\nDate: ")
        (ascii "<HTML><HEAD><TITLE>404 Not Found</TITLE></HEAD>\n<BODY><H1>404 Not Found</H1>\n</BODY></HTML>")
        currentTime (error_status_line 404) 91 hdate
        (by decide) (by decide) (by decide) (by decide) (by decide) (by decide)
      exact ⟨head, body, by rw [← h1]; rfl, h2⟩
    · obtain ⟨head, body, h1, h2⟩ := error_page_properties
        (ascii "HTTP/1.1 500 Internal Server Error\r\nContent-Length: 115\r\nConnection: close\r\nContent-Type: text/html\r\nDate: ")
        (ascii "<HTML><HEAD><TITLE>500 Internal Server Error</TITLE></HEAD>\n<BODY><H1>500 Internal Server Error</H1>\n</BODY></HTML>")
        currentTime (error_status_line 500) 115 hdate
        (by decide) (by decide) (by decide) (by decide) (by decide) (by decide)
      exact ⟨head, body, by rw [← h1]; rfl, h2⟩
    · obtain ⟨head, body, h1, h2⟩ := error_page_properties
        (ascii "HTTP/1.1 501 Not Implemented\r\nContent-Length: 103\r\nConnection: close\r\nContent-Type: text/html\r\nDate: ")
        (ascii "<HTML><HEAD><TITLE>501 Not Implemented</TITLE></HEAD>\n<BODY><H1>501 Not Implemented</H1>\n</BODY></HTML>")
        currentTime (error_status_line 501) 103 hdate
        (by decide) (by decide) (by decide) (by decide) (by decide) (by decide)
      exact ⟨head, body, by rw [← h1]; rfl, h2⟩
  · intro hmem
    simp only [List.mem_cons, List.mem_singleton, List.not_mem_nil, or_false, not_or] at hmem
    unfold sendErrorMessage
    rw [if_neg hmem.1, if_neg hmem.2.1, if_neg hmem.2.2.1, if_neg hmem.2.2.2]

/-- C20 witness: the 400 page for a sample date. -/
theorem error_message_well_formed_witness :
    date_sample.length < 50 ∧
    (sendErrorMessage 400 date_sample).1 = 1 ∧
    (∃ head body,
      sendErrorMessage 400 date_sample = (1, some (head ++ CRLFCRLF ++ body)) ∧
      error_status_line 400 <+: head ∧
      (ascii "\r\nContent-Length: " ++ decimal body.length ++ CRLF) <:+: head ∧
      body.length = error_content_length 400 ∧
      ascii "\r\nConnection: close\r\n" <:+: head ∧
      ascii "\r\nServer: ProxyServer/1.0" <:+ head ∧
      (13 ∉ date_sample → strstr (head ++ CRLFCRLF ++ body) CRLFCRLF = some head.length)) ∧
    sendErrorMessage 200 date_sample = (-1, none) :=
  ⟨by decide, by decide,
   (error_message_well_formed 400 date_sample (by decide)).1 (by decide),
   (error_message_well_formed 200 date_sample (by decide)).2 (by decide)⟩

theorem get_after_set_same (pr : ParsedRequest) (name value n : List Nat)
    (hname : name.length < MAX_HEADER_NAME_LEN) (hn : strcasecmp n name = 0) :
    ParsedHeader_get (ParsedHeader_set pr name value).2 n =
      some (strncpy value (MAX_HEADER_VALUE_LEN - 1)) := by
  have hn' : strncpy name (MAX_HEADER_NAME_LEN - 1) = name :=
    strncpy_short _ _ (by simp only [MAX_HEADER_NAME_LEN] at hname ⊢; omega)
  unfold ParsedHeader_get
  rw [ParsedHeader_set_headers]
  unfold header_list_set
  cases hu : update_existing pr.headers name value with
  | none => simp [find_header, hn', (strcasecmp_symm _ _).1 hn]
  | some hs' => exact find_header_update_same _ _ _ _ _ hu hn

theorem get_after_set_other (pr : ParsedRequest) (name value n : List Nat)
    (hname : name.length < MAX_HEADER_NAME_LEN) (hn : strcasecmp n name ≠ 0) :
    ParsedHeader_get (ParsedHeader_set pr name value).2 n = ParsedHeader_get pr n := by
  have hn' : strncpy name (MAX_HEADER_NAME_LEN - 1) = name :=
    strncpy_short _ _ (by simp only [MAX_HEADER_NAME_LEN] at hname ⊢; omega)
  unfold ParsedHeader_get
  rw [ParsedHeader_set_headers]
  unfold header_list_set
  cases hu : update_existing pr.headers name value with
  | none =>
    have : strcasecmp name n ≠ 0 := fun hc => hn ((strcasecmp_symm _ _).1 hc)
    simp [find_header, hn', this]
  | some hs' => exact find_header_update_other _ _ _ _ _ hu hn

theorem update_existing_mem (hs hs' : List ParsedHeader) (name value : List Nat)
    (h : update_existing hs name value = some hs') (x : ParsedHeader) (hx : x ∈ hs)
    (hne : strcasecmp x.name name ≠ 0) : x ∈ hs' := by
  induction hs generalizing hs' with
  | nil => simp at hx
  | cons y t ih =>
    by_cases hh : strcasecmp y.name name = 0
    · simp only [update_existing, hh, if_true, Option.some.injEq] at h
      subst h
      rcases List.mem_cons.1 hx with rfl | hx
      · exact absurd hh hne
      · exact List.mem_cons_of_mem _ hx
    · simp only [update_existing, hh, if_false, Option.map_eq_some'] at h
      obtain ⟨t', ht', rfl⟩ := h
      rcases List.mem_cons.1 hx with rfl | hx
      · exact List.mem_cons_self _ _
      · exact List.mem_cons_of_mem _ (ih t' ht' hx)

/-- `ParsedHeader_set` keeps every header with another name, and removes no
header: the old names are the last names of the new list. -/
theorem set_keeps_headers (pr : ParsedRequest) (name value : List Nat) :
    (∀ x ∈ pr.headers, strcasecmp x.name name ≠ 0 →
      x ∈ (ParsedHeader_set pr name value).2.headers) ∧
    pr.headers.map (fun h => h.name) <:+
      (ParsedHeader_set pr name value).2.headers.map (fun h => h.name) := by
  rw [ParsedHeader_set_headers]
  unfold header_list_set
  cases hu : update_existing pr.headers name value with
  | none =>
    exact ⟨fun x hx _ => List.mem_cons_of_mem _ hx, by simp [List.suffix_cons]⟩
  | some hs' =>
    refine ⟨fun x hx hne => update_existing_mem _ _ _ _ hu x hx hne, ?_⟩
    rw [update_existing_names _ _ _ _ hu]

set_option maxRecDepth 100000 in
/-- C19 (amended): for a request with a non-NULL host, after the header
mutation of `handle_request` `ParsedHeader_get` gives "close" for
`Connection` and a value for `Host`: the value the request already held, or,
when it held none, the first 1023 bytes of `host` (`host` itself when it is
shorter than 1024 bytes). Lookups of other names are unchanged, every header
with another name is still in the list, and the old names are still there in
the same order. -/
theorem upstream_header_mutation (request : ParsedRequest) (host : List Nat)
    (hhost : request.host = some host) :
    ParsedHeader_get (upstream_headers request) (ascii "Connection") = some (ascii "close") ∧
    (ParsedHeader_get request (ascii "Host") = none →
      ParsedHeader_get (upstream_headers request) (ascii "Host")
        = some (host.take (MAX_HEADER_VALUE_LEN - 1)) ∧
      (host.length < MAX_HEADER_VALUE_LEN →
        ParsedHeader_get (upstream_headers request) (ascii "Host") = some host)) ∧
    (∀ v, ParsedHeader_get request (ascii "Host") = some v →
      ParsedHeader_get (upstream_headers request) (ascii "Host") = some v) ∧
    (∀ n, strcasecmp n (ascii "Connection") ≠ 0 → strcasecmp n (ascii "Host") ≠ 0 →
      ParsedHeader_get (upstream_headers request) n = ParsedHeader_get request n) ∧
    (∀ x ∈ request.headers, strcasecmp x.name (ascii "Connection") ≠ 0 →
      strcasecmp x.name (ascii "Host") ≠ 0 → x ∈ (upstream_headers request).headers) ∧
    request.headers.map (fun h => h.name) <:+
      (upstream_headers request).headers.map (fun h => h.name) := by
  have hc : (ascii "Connection").length < MAX_HEADER_NAME_LEN := by decide
  have hh : (ascii "Host").length < MAX_HEADER_NAME_LEN := by decide
  have hne : strcasecmp (ascii "Host") (ascii "Connection") ≠ 0 := by decide
  have hne' : strcasecmp (ascii "Connection") (ascii "Host") ≠ 0 := by decide
  have hclose : strncpy (ascii "close") (MAX_HEADER_VALUE_LEN - 1) = ascii "close" := by decide
  have hg1 : ParsedHeader_get (ParsedHeader_set request (ascii "Connection") (ascii "close")).2
      (ascii "Host") = ParsedHeader_get request (ascii "Host") :=
    get_after_set_other _ _ _ _ hc hne
  have hk1 := set_keeps_headers request (ascii "Connection") (ascii "close")
  unfold upstream_headers
  rw [hg1, hhost]
  cases hg : ParsedHeader_get request (ascii "Host") with
  | some v =>
    dsimp only
    refine ⟨?_, ?_, ?_, ?_, ?_, hk1.2⟩
    · rw [get_after_set_same _ _ _ _ hc (by decide), hclose]
    · intro hc'; simp at hc'
    · intro v' hv'
      rw [hg1, hg]; exact hv'
    · intro n hn1 _
      exact get_after_set_other _ _ _ _ hc hn1
    · intro x hx hx1 _
      exact hk1.1 x hx hx1
  | none =>
    dsimp only
    have hk2 := set_keeps_headers
      (ParsedHeader_set request (ascii "Connection") (ascii "close")).2 (ascii "Host") host
    refine ⟨?_, ?_, ?_, ?_, ?_, hk1.2.trans hk2.2⟩
    · rw [get_after_set_other _ _ _ _ hh hne', get_after_set_same _ _ _ _ hc (by decide), hclose]
    · intro _
      refine ⟨get_after_set_same _ _ _ _ hh (by decide), ?_⟩
      intro hl
      rw [get_after_set_same _ _ _ _ hh (by decide),
        strncpy_short _ _ (by simp only [MAX_HEADER_VALUE_LEN] at hl ⊢; omega)]
    · intro v hv; simp at hv
    · intro n hn1 hn2
      rw [get_after_set_other _ _ _ _ hh hn2, get_after_set_other _ _ _ _ hc hn1]
    · intro x hx hx1 hx2
      exact hk2.1 x (hk1.1 x hx hx1) hx2

/-- C19 witness: the requests of scenario A (client sent a Host header) and of
scenario B. -/
theorem upstream_header_mutation_witness :
    ParsedHeader_get (upstream_headers resultA) (ascii "Connection") = some (ascii "close") ∧
    ParsedHeader_get (upstream_headers resultA) (ascii "Host") = some (ascii "ignored") ∧
    ParsedHeader_get (upstream_headers resultB) (ascii "content-length") = some (ascii "5") :=
  ⟨(upstream_header_mutation resultA (ascii "example.com") rfl).1,
   (upstream_header_mutation resultA (ascii "example.com") rfl).2.2.1 (ascii "ignored") (by decide),
   ((upstream_header_mutation resultB (ascii "api.local") rfl).2.2.2.1 (ascii "content-length")
      (by decide) (by decide)).trans (by decide)⟩

set_option maxRecDepth 1000000 in
/-- C19 counterexample: the accepted request `GET http://aaa…a/ HTTP/1.1` with
a host of 1024 bytes and no Host header gets a Host header that holds only the
first 1023 bytes of the host. -/
theorem upstream_host_header_truncated :
    ParsedRequest_parse ParsedRequest_create long_host_buffer = some (0, long_host_request) ∧
    long_host_request.host = some (List.replicate 1024 97) ∧
    ParsedHeader_get long_host_request (ascii "Host") = none ∧
    ParsedHeader_get (upstream_headers long_host_request) (ascii "Host")
      = some (List.replicate 1023 97) ∧
    ParsedHeader_get (upstream_headers long_host_request) (ascii "Host")
      ≠ long_host_request.host :=
  ⟨by decide!, by decide, by decide, by decide, by decide⟩

theorem strcmp_eq_zero_iff (a b : List Nat) (ha : 0 ∉ a) (hb : 0 ∉ b) :
    strcmp a b = 0 ↔ a = b :=
  ⟨strcmp_eq_zero a b ha hb, fun h => h ▸ strcmp_self a⟩

/-- The scan of `find` stops at the first element whose key and method both
compare equal, and updates its time stamp only. -/
theorem find_loop_hit (pre post : List cache_element) (e : cache_element)
    (url method : List Nat) (now : Int)
    (hpre : ∀ x ∈ pre, ¬ (strcmp x.url url = 0 ∧ strcmp x.method method = 0))
    (he : strcmp e.url url = 0 ∧ strcmp e.method method = 0) :
    find_loop (pre ++ e :: post) url method now =
      (some { e with lru_time_track := now }, pre ++ { e with lru_time_track := now } :: post) := by
  induction pre with
  | nil => simp [find_loop, he]
  | cons x pre ih =>
    have hx := hpre x (by simp)
    have := ih (fun y hy => hpre y (by simp [hy]))
    show find_loop (x :: (pre ++ e :: post)) url method now = _
    rw [find_loop, if_neg hx, this]
    rfl

theorem find_loop_miss (l : List cache_element) (url method : List Nat) (now : Int)
    (h : ∀ x ∈ l, ¬ (strcmp x.url url = 0 ∧ strcmp x.method method = 0)) :
    find_loop l url method now = (none, l) := by
  induction l with
  | nil => simp [find_loop]
  | cons x l ih =>
    have hx := h x (by simp)
    have := ih (fun y hy => h y (by simp [hy]))
    simp only [find_loop, if_neg hx, this]

theorem find_unlocked (c : Cache) (url method : List Nat) (now : Int) (hfree : c.locked = false) :
    find c url method now =
      some ((find_loop c.head url method now).1,
        { c with head := (find_loop c.head url method now).2 }) := by
  unfold find pthread_mutex_lock pthread_mutex_unlock
  rw [hfree]
  simp only [Bool.false_eq_true, if_false]

/-- C15: `find(url, method)` on a cache of C strings, with the lock free,
returns the first entry in list order whose key is byte-equal to `url` and
whose method equals `method`, with its time stamp set to `now`, and changes
nothing else in the cache; when no entry satisfies both it returns NULL and
leaves the cache unchanged. -/
theorem find_postcondition (c : Cache) (url method : List Nat) (now : Int)
    (hfree : c.locked = false)
    (hwf : ∀ x ∈ c.head, 0 ∉ x.url ∧ 0 ∉ x.method) (hu : 0 ∉ url) (hm : 0 ∉ method) :
    (∀ pre e post, c.head = pre ++ e :: post →
      (∀ x ∈ pre, ¬ (x.url = url ∧ x.method = method)) → e.url = url → e.method = method →
      find c url method now =
        some (some { e with lru_time_track := now },
              { c with head := pre ++ { e with lru_time_track := now } :: post })) ∧
    ((∀ x ∈ c.head, ¬ (x.url = url ∧ x.method = method)) →
      find c url method now = some (none, c)) := by
  have hconv : ∀ x ∈ c.head, ¬ (x.url = url ∧ x.method = method) →
      ¬ (strcmp x.url url = 0 ∧ strcmp x.method method = 0) := by
    intro x hx hne hc
    exact hne ⟨strcmp_eq_zero _ _ (hwf x hx).1 hu hc.1, strcmp_eq_zero _ _ (hwf x hx).2 hm hc.2⟩
  constructor
  · intro pre e post hsplit hpre heu hem
    rw [find_unlocked c url method now hfree, hsplit,
      find_loop_hit pre post e url method now
        (fun x hx => hconv x (by rw [hsplit]; simp [hx]) (hpre x hx))
        ⟨heu ▸ strcmp_self _, hem ▸ strcmp_self _⟩]
  · intro hall
    rw [find_unlocked c url method now hfree,
      find_loop_miss c.head url method now (fun x hx => hconv x hx (hall x hx))]

/-- C15 witness: a cache holding an old and a new entry for the key `k` and an
entry for the key `j`: the new entry for `k` is returned, the key `z` and the
key `j` under `POST` miss. -/
theorem find_postcondition_witness :
    find cache_two_entries (ascii "k") (ascii "GET") 30 =
      some (some { data := ascii "new", len := 3, url := ascii "k", method := ascii "GET",
                   lru_time_track := 30 },
            { cache_two_entries with
              head := [] ++ { data := ascii "new", len := 3, url := ascii "k",
                              method := ascii "GET", lru_time_track := 30 }
                      :: cache_two_entries.head.tail }) ∧
    find cache_two_entries (ascii "z") (ascii "GET") 30 = some (none, cache_two_entries) ∧
    find cache_two_entries (ascii "j") (ascii "POST") 30 = some (none, cache_two_entries) :=
  ⟨(find_postcondition cache_two_entries (ascii "k") (ascii "GET") 30 rfl (by decide) (by decide)
      (by decide)).1 [] _ _ rfl (by simp) rfl rfl,
   (find_postcondition cache_two_entries (ascii "z") (ascii "GET") 30 rfl (by decide) (by decide)
      (by decide)).2 (by decide),
   (find_postcondition cache_two_entries (ascii "j") (ascii "POST") 30 rfl (by decide) (by decide)
      (by decide)).2 (by decide)⟩

theorem remove_locked (c : Cache) (h : c.locked = true) : remove_cache_element c = none := by
  unfold remove_cache_element pthread_mutex_lock
  rw [h]; rfl

/-- With the lock held the eviction loop returns only when it has nothing to
do. -/
theorem evict_loop_locked (n : Nat) (c c2 : Cache) (es : Int) (hl : c.locked = true)
    (h : evict_loop n c es = some c2) : c2 = c ∧ ¬ (c.cache_size + es > MAX_SIZE) := by
  cases n with
  | zero =>
    simp only [evict_loop] at h
    split_ifs at h with hc
    exact ⟨(Option.some.inj h).symm, hc⟩
  | succ n =>
    simp only [evict_loop] at h
    split_ifs at h with hc
    · rw [remove_locked c hl] at h
      simp at h
    · exact ⟨(Option.some.inj h).symm, hc⟩

/-- What a call of `add_cache_element` that returns 1 has done. -/
theorem add_returns_one (c c' : Cache) (data : List Nat) (size : Int) (url method : List Nat)
    (now : Int) (h : add_cache_element c data size url method now = some (1, c')) :
    c.locked = false ∧
    size_t_to_int (size + 1 + url.length + method.length + 2 + SIZEOF_CACHE_ELEMENT)
      ≤ MAX_ELEMENT_SIZE ∧
    c.cache_size + size_t_to_int (size + 1 + url.length + method.length + 2 + SIZEOF_CACHE_ELEMENT)
      ≤ MAX_SIZE ∧
    c' = { head := { data := data.take size.toNat, len := size, url := url, method := method,
                     lru_time_track := now } :: c.head,
           cache_size := c.cache_size +
             size_t_to_int (size + 1 + url.length + method.length + 2 + SIZEOF_CACHE_ELEMENT),
           locked := false } := by
  unfold add_cache_element at h
  cases hl : c.locked with
  | true => simp [pthread_mutex_lock, hl] at h
  | false =>
    simp only [pthread_mutex_lock, hl, Bool.false_eq_true, if_false] at h
    split_ifs at h with hbig
    · simp at h
    · split at h
      · simp at h
      · rename_i c2 hev
        have := evict_loop_locked _ _ _ _ rfl hev
        simp only [Option.some.injEq, Prod.mk.injEq, true_and] at h
        subst h
        obtain ⟨rfl, hno⟩ := this
        refine ⟨rfl, by omega, by simpa using hno, ?_⟩
        simp [pthread_mutex_unlock]

/-- C14: when `add_cache_element(p, s, url, method)` returns 1 for a payload
`p` of `s` bytes, a `find(url, method)` right after it returns an entry whose
`data` is `p` and whose `len` is `s`, whatever the cache held before. -/
theorem insert_then_lookup (c c' : Cache) (p url method : List Nat) (now now' : Int)
    (h : add_cache_element c p p.length url method now = some (1, c')) :
    ∃ e c'', find c' url method now' = some (some e, c'') ∧
      e.data = p ∧ e.len = p.length ∧ e.url = url ∧ e.method = method := by
  obtain ⟨_, _, _, rfl⟩ := add_returns_one c c' p p.length url method now h
  have hf := find_loop_hit [] c.head
    { data := p.take (p.length : Int).toNat, len := p.length, url := url, method := method,
      lru_time_track := now } url method now' (by simp) ⟨strcmp_self _, strcmp_self _⟩
  simp only [List.nil_append] at hf
  rw [find_unlocked _ url method now' rfl, hf]
  exact ⟨_, _, rfl, by simp, rfl, rfl, rfl⟩

/-- C14 witness: a second payload for a key that is already cached. -/
theorem insert_then_lookup_witness :
    ∃ c', add_cache_element cache_two_entries (ascii "newest") 6 (ascii "k") (ascii "GET") 40
        = some (1, c') ∧
      ∃ e c'', find c' (ascii "k") (ascii "GET") 50 = some (some e, c'') ∧
        e.data = ascii "newest" ∧ e.len = 6 ∧ e.url = ascii "k" ∧ e.method = ascii "GET" :=
  ⟨{ head := { data := ascii "newest", len := 6, url := ascii "k", method := ascii "GET",
               lru_time_track := 40 } :: cache_two_entries.head,
     cache_size := 233, locked := false }, by decide,
    insert_then_lookup cache_two_entries _ (ascii "newest") (ascii "k") (ascii "GET") 40 50
      (by decide)⟩

/-- C16 (code defect): `add_cache_element` on the empty cache accepts a payload
of 2147483646 bytes, far above `MAX_ELEMENT_SIZE`, because `element_size`
wraps to a negative `int`; and on a cache filled by twenty inserts it never
returns for a payload of 20000 bytes, because the eviction it needs calls
`remove_cache_element` with the lock held. -/
theorem add_cache_element_defects :
    (2147483646 : Int) + (ascii "k").length + (ascii "GET").length + 3 + SIZEOF_CACHE_ELEMENT
      > MAX_ELEMENT_SIZE ∧
    (add_cache_element empty_cache huge_payload 2147483646 (ascii "k") (ascii "GET") 100).map
      (fun r => (r.1, r.2.cache_size, r.2.head.length)) = some (1, -2147483595, 1) ∧
    (insert_all empty_cache fill_requests).map
      (fun c => (c.cache_size, c.head.length, c.locked)) = some (209701100, 20, false) ∧
    (20000 : Int) + (ascii "z").length + (ascii "GET").length + 3 + SIZEOF_CACHE_ELEMENT
      ≤ MAX_ELEMENT_SIZE ∧
    (insert_all empty_cache fill_requests).map
      (fun c => add_cache_element c (List.replicate 20000 0) 20000 (ascii "z") (ascii "GET") 100)
      = some none := by
  refine ⟨?_, ?_, ?_, ?_, ?_⟩ <;> decide

/-- Above the sizes the relay loop can pass: one `add_cache_element` call with
the size 2147483646 on the empty cache returns 1 and leaves an entry whose
accounted size 2147483701 exceeds `MAX_ELEMENT_SIZE`. -/
theorem cache_entry_bound_violated :
    (0 : Int) ≤ 2147483646 ∧
    (add_cache_element empty_cache huge_payload 2147483646 (ascii "k") (ascii "GET") 100).map
      (fun r => (r.1, r.2.head.map
        (fun e => e.len + e.url.length + e.method.length + 3 + SIZEOF_CACHE_ELEMENT)))
      = some (1, [2147483701]) ∧
    (2147483701 : Int) > MAX_ELEMENT_SIZE := by
  refine ⟨?_, ?_, ?_⟩ <;> decide

theorem insert_all_head (reqs : List InsertRequest) (c c' : Cache)
    (h : insert_all c reqs = some c') :
    c'.head = (reqs.map new_element).reverse ++ c.head ∧ (reqs ≠ [] → c'.locked = false) := by
  induction reqs generalizing c with
  | nil =>
    simp only [insert_all, Option.some.injEq] at h
    subst h; simp
  | cons r rs ih =>
    simp only [insert_all] at h
    split at h
    · rename_i c1 hadd
      obtain ⟨_, _, _, rfl⟩ := add_returns_one _ _ _ _ _ _ _ hadd
      have := ih _ h
      refine ⟨?_, fun _ => ?_⟩
      · rw [this.1]; simp [new_element]
      · by_cases hrs : rs = []
        · subst hrs
          simp only [insert_all, Option.some.injEq] at h
          subst h; rfl
        · exact this.2 hrs
    · simp at h

/-- On a list whose time stamps strictly decrease from the head on, the scan of
`remove_cache_element` ends on the last element. -/
theorem oldest_scan_decreasing (rest : List cache_element) (temp i : Nat) (temp_time : Int)
    (hlt : ∀ x ∈ rest, x.lru_time_track < temp_time)
    (hdec : (rest.map (fun e => e.lru_time_track)).Pairwise (fun a b => a > b)) :
    oldest_scan temp temp_time i rest = if rest = [] then temp else i + rest.length - 1 := by
  induction rest generalizing temp i temp_time with
  | nil => simp [oldest_scan]
  | cons x rest ih =>
    rw [List.map_cons, List.pairwise_cons] at hdec
    have hx := hlt x (by simp)
    rw [oldest_scan, if_pos hx, ih i (i + 1) x.lru_time_track
      (fun y hy => hdec.1 _ (List.mem_map_of_mem _ hy)) hdec.2]
    by_cases hr : rest = []
    · simp [hr]
    · have : 0 < rest.length := List.length_pos.2 hr
      simp only [hr, if_false, List.length_cons, reduceCtorEq]
      omega

theorem eraseIdx_last (l : List cache_element) : l.eraseIdx (l.length - 1) = l.dropLast := by
  induction l with
  | nil => rfl
  | cons x t ih =>
    cases t with
    | nil => rfl
    | cons y t =>
      simp only [List.length_cons, Nat.add_sub_cancel, List.eraseIdx_cons_succ,
        List.dropLast_cons₂] at ih ⊢
      rw [ih]

theorem remove_unlocked_cons (c : Cache) (first : cache_element) (rest : List cache_element)
    (hfree : c.locked = false) (hhead : c.head = first :: rest) :
    remove_cache_element c = some
      { head := (first :: rest).eraseIdx (oldest_scan 0 first.lru_time_track 1 rest),
        cache_size := size_t_to_int (c.cache_size
          - ((first :: rest).getD (oldest_scan 0 first.lru_time_track 1 rest) first).len
          - SIZEOF_CACHE_ELEMENT
          - ((first :: rest).getD (oldest_scan 0 first.lru_time_track 1 rest) first).url.length
          - ((first :: rest).getD (oldest_scan 0 first.lru_time_track 1 rest) first).method.length
          - 2),
        locked := false } := by
  unfold remove_cache_element pthread_mutex_lock pthread_mutex_unlock
  rw [hfree]
  simp only [Bool.false_eq_true, if_false, hhead]

/-- Eviction from a cache whose time stamps strictly decrease from the head on
removes the last element of the list. -/
theorem remove_decreasing (c : Cache) (l : List cache_element) (hne : l ≠ [])
    (hfree : c.locked = false) (hhead : c.head = l)
    (hdec : (l.map (fun e => e.lru_time_track)).Pairwise (fun a b => a > b)) :
    ∃ c', remove_cache_element c = some c' ∧ c'.head = l.dropLast ∧ c'.locked = false := by
  cases l with
  | nil => exact absurd rfl hne
  | cons first rest =>
    rw [List.map_cons, List.pairwise_cons] at hdec
    refine ⟨_, remove_unlocked_cons c first rest hfree hhead, ?_, rfl⟩
    rw [oldest_scan_decreasing rest 0 1 first.lru_time_track
      (fun y hy => hdec.1 _ (List.mem_map_of_mem _ hy)) hdec.2]
    by_cases hr : rest = []
    · simp [hr]
    · have hpos : 0 < rest.length := List.length_pos.2 hr
      simp only [hr, if_false]
      have : 1 + rest.length - 1 = (first :: rest).length - 1 := by simp
      rw [this, eraseIdx_last]

theorem find_loop_some (l : List cache_element) (url method : List Nat) (now : Int)
    (h : ∃ x ∈ l, strcmp x.url url = 0 ∧ strcmp x.method method = 0) :
    ∃ e, (find_loop l url method now).1 = some e ∧
      strcmp e.url url = 0 ∧ strcmp e.method method = 0 := by
  induction l with
  | nil => simp at h
  | cons y l ih =>
    by_cases hy : strcmp y.url url = 0 ∧ strcmp y.method method = 0
    · exact ⟨{ y with lru_time_track := now }, by rw [find_loop, if_pos hy], hy.1, hy.2⟩
    · obtain ⟨x, hx, hm⟩ := h
      rcases List.mem_cons.1 hx with rfl | hx
      · exact absurd hm hy
      · obtain ⟨e, he, hme⟩ := ih ⟨x, hx, hm⟩
        exact ⟨e, by rw [find_loop, if_neg hy]; exact he, hme⟩

/-- C17 (amended): after a run of successful inserts into the empty cache, with
pairwise distinct keys and strictly increasing time stamps and no lookup in
between, `remove_cache_element` evicts the earliest-inserted entry and keeps
the others in order; afterwards a lookup of the earliest key misses and a
lookup of every other key hits. -/
theorem lru_evicts_earliest (first : InsertRequest) (rest : List InsertRequest) (c : Cache)
    (hrun : insert_all empty_cache (first :: rest) = some c)
    (htime : ((first :: rest).map (fun r => r.now)).Pairwise (fun a b => a < b))
    (hdist : ((first :: rest).map (fun r => r.url)).Pairwise (fun a b => a ≠ b))
    (hstr : ∀ r ∈ first :: rest, 0 ∉ r.url) :
    ∃ c', remove_cache_element c = some c' ∧
      c'.head = (rest.map new_element).reverse ∧
      (∀ now, find c' first.url first.method now = some (none, c')) ∧
      (∀ r ∈ rest, ∀ now, ∃ e c'', find c' r.url r.method now = some (some e, c'') ∧
        strcmp e.url r.url = 0 ∧ strcmp e.method r.method = 0) := by
  obtain ⟨hhead, hlock⟩ := insert_all_head _ _ _ hrun
  have hfree : c.locked = false := hlock (by simp)
  simp only [List.map_cons, List.reverse_cons, List.append_nil, empty_cache] at hhead
  have hdec : (((rest.map new_element).reverse ++ [new_element first]).map
      (fun e => e.lru_time_track)).Pairwise (fun a b => a > b) := by
    have e1 : ((rest.map new_element).reverse ++ [new_element first]).map
        (fun e => e.lru_time_track) = ((first :: rest).map (fun r => r.now)).reverse := by
      simp [new_element, Function.comp_def]
    rw [e1, List.pairwise_reverse]
    exact htime
  obtain ⟨c', hrem, hhead', hfree'⟩ := remove_decreasing c _ (by simp) hfree hhead hdec
  rw [List.dropLast_concat] at hhead'
  rw [List.map_cons, List.pairwise_cons] at hdist
  refine ⟨c', hrem, hhead', ?_, ?_⟩
  · intro now
    rw [find_unlocked c' _ _ now hfree', find_loop_miss]
    intro x hx hm
    rw [hhead', List.mem_reverse, List.mem_map] at hx
    obtain ⟨r, hr, rfl⟩ := hx
    have := strcmp_eq_zero _ _ (hstr r (List.mem_cons_of_mem _ hr)) (hstr first (by simp)) hm.1
    exact hdist.1 _ (List.mem_map_of_mem _ hr) this.symm
  · intro r hr now
    obtain ⟨e, he, hme⟩ := find_loop_some c'.head r.url r.method now
      ⟨new_element r, by rw [hhead']; simp; exact ⟨r, hr, rfl⟩, strcmp_self _, strcmp_self _⟩
    exact ⟨e, _, by rw [find_unlocked c' _ _ now hfree', he], hme⟩

/-- C17 witness: key `a` inserted at time 100, key `b` at time 101. -/
theorem lru_evicts_earliest_witness :
    ∃ c c', insert_all empty_cache ordered_requests = some c ∧
      remove_cache_element c = some c' ∧
      c'.head.map (fun e => e.url) = [ascii "b"] ∧
      find c' (ascii "a") (ascii "GET") 200 = some (none, c') :=
  have hrun : insert_all empty_cache ordered_requests = some
      { head := [{ data := ascii "second", len := 6, url := ascii "b", method := ascii "GET",
                   lru_time_track := 101 },
                 { data := ascii "first", len := 5, url := ascii "a", method := ascii "GET",
                   lru_time_track := 100 }],
        cache_size := 121, locked := false } := by decide
  have h := lru_evicts_earliest _ _ _ hrun (by decide) (by decide) (by decide)
  h.elim fun c' hc' =>
    ⟨_, c', hrun, hc'.1, by rw [hc'.2.1]; decide, hc'.2.2.1 200⟩

/-- C17 counterexample: keys `a` and then `b` are inserted within the same
second (the clock is non-decreasing); the eviction removes `b`, the later one,
so the lookup of `b` misses while the earliest key `a` still hits. -/
theorem lru_tie_evicts_latest :
    ((tie_requests.map (fun r => r.now)).Pairwise (fun a b => a ≤ b)) ∧
    ((insert_all empty_cache tie_requests).bind remove_cache_element).map
        (fun c => c.head.map (fun e => e.url)) = some [ascii "a"] ∧
    ((insert_all empty_cache tie_requests).bind remove_cache_element).bind
        (fun c => (find c (ascii "a") (ascii "GET") 200).map (fun r => r.1.isSome)) = some true ∧
    ((insert_all empty_cache tie_requests).bind remove_cache_element).bind
        (fun c => (find c (ascii "b") (ascii "GET") 200).map (fun r => r.1.isSome)) = some false := by
  refine ⟨?_, ?_, ?_, ?_⟩ <;> decide

theorem size_t_to_int_small (n : Int) (h0 : 0 ≤ n) (h : n < 2 ^ 31) : size_t_to_int n = n := by
  unfold size_t_to_int long_to_int
  omega

theorem find_loop_fields (l : List cache_element) (url method : List Nat) (now : Int) :
    ∀ e ∈ (find_loop l url method now).2, ∃ e0 ∈ l, accounted_size e = accounted_size e0 := by
  induction l with
  | nil => simp [find_loop]
  | cons y l ih =>
    intro e he
    rw [find_loop] at he
    split_ifs at he
    · rcases List.mem_cons.1 he with rfl | he
      · exact ⟨y, by simp, rfl⟩
      · exact ⟨e, by simp [he], rfl⟩
    · rcases List.mem_cons.1 he with rfl | he
      · exact ⟨e, by simp, rfl⟩
      · obtain ⟨e0, h0, h1⟩ := ih e he
        exact ⟨e0, by simp [h0], h1⟩

theorem find_keeps_bounds (c c' : Cache) (url method : List Nat) (now : Int)
    (r : Option cache_element) (hb : cache_bounds c) (h : find c url method now = some (r, c')) :
    cache_bounds c' := by
  rw [find_unlocked c url method now hb.1] at h
  simp only [Option.some.injEq, Prod.mk.injEq] at h
  obtain ⟨_, rfl⟩ := h
  refine ⟨hb.1, hb.2.1, ?_⟩
  intro e he
  obtain ⟨e0, h0, h1⟩ := find_loop_fields c.head url method now e he
  rw [h1]; exact hb.2.2 e0 h0

theorem add_keeps_bounds (c c' : Cache) (r : InsertRequest) (rc : Int)
    (hb : cache_bounds c) (hr : fits_int r)
    (h : add_cache_element c r.data r.size r.url r.method r.now = some (rc, c')) :
    cache_bounds c' := by
  have hes : size_t_to_int (r.size + 1 + r.url.length + r.method.length + 2 + SIZEOF_CACHE_ELEMENT)
      = r.size + r.url.length + r.method.length + 3 + SIZEOF_CACHE_ELEMENT := by
    have h1 := hr.1
    have h2 := hr.2
    have hu : (0 : Int) ≤ r.url.length := Int.natCast_nonneg _
    have hm : (0 : Int) ≤ r.method.length := Int.natCast_nonneg _
    have hs : SIZEOF_CACHE_ELEMENT = 48 := rfl
    rw [size_t_to_int_small _ (by omega) (by omega)]
    omega
  unfold add_cache_element at h
  simp only [pthread_mutex_lock, hb.1, Bool.false_eq_true, if_false] at h
  split_ifs at h with hbig
  · simp only [Option.some.injEq, Prod.mk.injEq] at h
    obtain ⟨_, rfl⟩ := h
    exact ⟨rfl, hb.2.1, hb.2.2⟩
  · split at h
    · simp at h
    · rename_i c2 hev
      obtain ⟨rfl, hno⟩ := evict_loop_locked _ _ _ _ rfl hev
      simp only [Option.some.injEq, Prod.mk.injEq] at h
      obtain ⟨_, rfl⟩ := h
      refine ⟨rfl, by simpa using hno, ?_⟩
      intro e he
      rcases List.mem_cons.1 he with rfl | he
      · rw [hes] at hbig
        simp only [accounted_size]
        omega
      · exact hb.2.2 e he

/-- For inserts whose sizes do not overflow `int element_size`, every cache
reached from the empty cache by inserts and lookups keeps the size bounds. -/
theorem bounds_of_run (calls : List CacheCall) (c c' : Cache) (hb : cache_bounds c)
    (hfit : ∀ r, CacheCall.add r ∈ calls → fits_int r)
    (h : run_calls c calls = some c') : cache_bounds c' := by
  induction calls generalizing c with
  | nil =>
    simp only [run_calls, Option.some.injEq] at h
    subst h; exact hb
  | cons call rest ih =>
    cases call with
    | add r =>
      simp only [run_calls] at h
      split at h
      · simp at h
      · rename_i res hres
        exact ih res.2 (add_keeps_bounds c res.2 r res.1 hb (hfit r (by simp)) hres)
          (fun r' hr' => hfit r' (List.mem_cons_of_mem _ hr')) h
    | find url method now =>
      simp only [run_calls] at h
      split at h
      · simp at h
      · rename_i res hres
        exact ih res.2 (find_keeps_bounds c res.2 url method now res.1 hb hres)
          (fun r' hr' => hfit r' (List.mem_cons_of_mem _ hr')) h

/-- The arguments `handle_request` passes to `add_cache_element`
(proxy_server_with_cache.c:267) do not overflow `element_size`: the size is
below 2^30 because `response_capacity` is an `int` that is doubled, the key is
the request text of less than `2 * MAX_BYTES` bytes and the method has less
than `MAX_METHOD_LEN` bytes. -/
theorem fits_int_of_relay (r : InsertRequest) (h0 : 0 ≤ r.size) (hs : r.size < 2 ^ 30)
    (hu : r.url.length < 2 * MAX_BYTES) (hm : r.method.length < MAX_METHOD_LEN) :
    fits_int r := by
  have hM : MAX_BYTES = 8192 := rfl
  have hL : MAX_METHOD_LEN = 16 := rfl
  have hS : SIZEOF_CACHE_ELEMENT = 48 := rfl
  rw [hM] at hu
  rw [hL] at hm
  refine ⟨h0, ?_⟩
  rw [hS]
  omega

/-- C13: starting from the empty cache, after every call of a sequence of
`add_cache_element` and `find` calls that return, with non-negative sizes for
which `element_size` does not overflow `int` (all sizes `handle_request` can
pass), `cache_size` is at most `MAX_SIZE` and every entry of the list has an
accounted size of at most `MAX_ELEMENT_SIZE`. -/
theorem cache_size_bounds (calls : List CacheCall)
    (hfit : ∀ r, CacheCall.add r ∈ calls → fits_int r) :
    ∀ done c', done <+: calls → run_calls empty_cache done = some c' →
      c'.cache_size ≤ MAX_SIZE ∧ ∀ e ∈ c'.head, accounted_size e ≤ MAX_ELEMENT_SIZE := by
  intro done c' hdone hrun
  have hb : cache_bounds empty_cache := ⟨rfl, by decide, by simp [empty_cache]⟩
  exact (bounds_of_run done empty_cache c' hb (fun r hr => hfit r (hdone.subset hr)) hrun).2

/-- C13 witness: two inserts with a lookup after each. -/
theorem cache_size_bounds_witness :
    ∃ c', run_calls empty_cache sample_calls = some c' ∧
      c'.cache_size = 121 ∧
      c'.cache_size ≤ MAX_SIZE ∧ ∀ e ∈ c'.head, accounted_size e ≤ MAX_ELEMENT_SIZE := by
  have hrun : run_calls empty_cache sample_calls = some
      { head := [{ data := ascii "second", len := 6, url := ascii "b", method := ascii "GET",
                   lru_time_track := 102 },
                 { data := ascii "first", len := 5, url := ascii "a", method := ascii "GET",
                   lru_time_track := 101 }],
        cache_size := 121, locked := false } := by decide
  have hfit : ∀ r, CacheCall.add r ∈ sample_calls → fits_int r := by
    intro r hr
    simp only [sample_calls, List.mem_cons, CacheCall.add.injEq, reduceCtorEq,
      List.not_mem_nil, or_false, false_or] at hr
    rcases hr with rfl | rfl <;> exact ⟨by decide, by decide⟩
  exact ⟨_, hrun, rfl, cache_size_bounds sample_calls hfit _ _ (List.prefix_refl _) hrun⟩

theorem parse_eq_from_views (pr : ParsedRequest) (buffer : List Nat) :
    ParsedRequest_parse pr buffer =
      some (parse_from_views pr (body_start buffer) (request_line buffer) (header_lines buffer)) := by
  unfold ParsedRequest_parse parse_from_views body_start request_line header_lines header_block
    header_section
  by_cases hlen : buffer.length ≤ 0
  · have : buffer = [] := List.length_eq_zero.1 (by omega)
    subst this
    rfl
  rw [if_neg hlen]
  dsimp only
  cases hhe : strstr (cstr buffer) CRLFCRLF with
  | none => rfl
  | some headers_end =>
    dsimp only [Option.map_some', Option.some_bind]
    cases hle : strstr ((cstr buffer).take headers_end) CRLF with
    | none => rfl
    | some line_end =>
      dsimp only [Option.map_some']
      unfold request_fields
      dsimp only
      generalize (strtok (strtok (strtok (List.take line_end (List.take headers_end (cstr buffer)))
        SP).2 SP).2 SP_CR_LF).1 = o3
      generalize (strtok (strtok (List.take line_end (List.take headers_end (cstr buffer)))
        SP).2 SP).1 = o2
      generalize (strtok (List.take line_end (List.take headers_end (cstr buffer))) SP).1 = o1
      rcases o1 with _ | method
      · rfl
      rcases o2 with _ | url
      · rfl
      rcases o3 with _ | version
      · rfl
      dsimp only
      by_cases hv : (!is_valid_method method || !is_valid_version version) = true
      · rw [if_pos hv, if_pos hv]
      · rw [if_neg hv, if_neg hv]
        obtain ⟨pr4, h4⟩ := parse_header_loop_isSome
          (List.drop (line_end + 2) (List.take headers_end (cstr buffer))).length
          (parse_url
            { (if (List.drop (headers_end + 4) (cstr buffer)).length > 0 then
                { pr with body := some (List.drop (headers_end + 4) (cstr buffer)),
                          body_length := (List.drop (headers_end + 4) (cstr buffer)).length }
               else pr) with
              method := strncpy method (MAX_METHOD_LEN - 1), version := some version } url)
          (strtok (List.drop (line_end + 2) (List.take headers_end (cstr buffer))) CRLF).1
          (strtok (List.drop (line_end + 2) (List.take headers_end (cstr buffer))) CRLF).2
          (by
            cases hq : (strtok (List.drop (line_end + 2)
                (List.take headers_end (cstr buffer))) CRLF).1 with
            | none => left; rfl
            | some t => right; exact strtok_save_length _ _ t hq)
        rw [h4, parse_header_loop_eq_foldl _ _ _ _ _ h4]
        rfl

theorem trim_trailing_space (w : List Nat) (hw : ∀ c ∈ w, isspace c = true) :
    trim_trailing w = [] := by
  induction w with
  | nil => rfl
  | cons c w ih =>
    rw [trim_trailing, ih (fun x hx => hw x (List.mem_cons_of_mem _ hx))]
    simp [hw c (List.mem_cons_self _ _)]

theorem trim_trailing_append (t w : List Nat) (hw : ∀ c ∈ w, isspace c = true) :
    trim_trailing (t ++ w) = trim_trailing t := by
  induction t with
  | nil => simpa [trim_trailing] using trim_trailing_space w hw
  | cons y t ih =>
    rw [List.cons_append, trim_trailing, trim_trailing, ih]

theorem dropWhile_space_append (w s : List Nat) (hw : ∀ c ∈ w, isspace c = true) :
    (w ++ s).dropWhile isspace = s.dropWhile isspace := by
  induction w with
  | nil => rfl
  | cons c w ih =>
    rw [List.cons_append, List.dropWhile_cons, if_pos (hw c (List.mem_cons_self _ _))]
    exact ih (fun x hx => hw x (List.mem_cons_of_mem _ hx))

theorem dropWhile_append_space (v w : List Nat) (hw : ∀ c ∈ w, isspace c = true) :
    (v ++ w).dropWhile isspace =
      match v.dropWhile isspace with
      | [] => []
      | c :: s => c :: (s ++ w) := by
  induction v with
  | nil =>
    simp only [List.nil_append, List.dropWhile_nil]
    exact List.dropWhile_eq_nil_iff.2 hw
  | cons x v ih =>
    by_cases hx : isspace x = true
    · rw [List.cons_append, List.dropWhile_cons, if_pos hx, List.dropWhile_cons, if_pos hx]
      exact ih
    · rw [List.cons_append, List.dropWhile_cons, if_neg hx, List.dropWhile_cons, if_neg hx]

/-- White space on either side of a string does not change its trimmed form. -/
theorem trim_whitespace_padded (w v t : List Nat) (hw : ∀ c ∈ w, isspace c = true)
    (ht : ∀ c ∈ t, isspace c = true) :
    trim_whitespace (w ++ v ++ t) = trim_whitespace v := by
  unfold trim_whitespace
  rw [List.append_assoc, dropWhile_space_append w _ hw, dropWhile_append_space v t ht]
  cases v.dropWhile isspace with
  | nil => rfl
  | cons c s => simp only [trim_trailing_append s t ht]

theorem strchr_append_cons (n r : List Nat) (c : Nat) (hn : c ∉ n) :
    strchr (n ++ c :: r) c = some n.length := by
  induction n with
  | nil => simp [strchr]
  | cons x n ih =>
    have hx : x ≠ c := fun h => hn (h ▸ List.mem_cons_self _ _)
    rw [List.cons_append, strchr, if_neg hx, ih (fun h => hn (List.mem_cons_of_mem _ h))]
    rfl

theorem parse_header_line_same (pr : ParsedRequest) (l1 l2 : List Nat)
    (h : same_header_line l1 l2) : parse_header_line pr l1 = parse_header_line pr l2 := by
  rcases h with rfl | ⟨n, v, w1, t1, w2, t2, hn, hw, rfl, rfl⟩
  · rfl
  · have h1 : ∀ c ∈ w1, isspace c = true := fun c hc => hw c (by simp [hc])
    have h2 : ∀ c ∈ t1, isspace c = true := fun c hc => hw c (by simp [hc])
    have h3 : ∀ c ∈ w2, isspace c = true := fun c hc => hw c (by simp [hc])
    have h4 : ∀ c ∈ t2, isspace c = true := fun c hc => hw c (by simp [hc])
    unfold parse_header_line
    rw [strchr_append_cons n _ COLON hn, strchr_append_cons n _ COLON hn]
    simp only [List.take_left', List.drop_left', List.drop_succ_cons, List.drop_append_of_le_length,
      le_refl, List.drop_length, List.nil_append, List.take_append_of_le_length,
      List.take_length]
    have e1 : List.drop (n.length + 1) (n ++ COLON :: (w1 ++ v ++ t1)) = w1 ++ v ++ t1 := by
      rw [show n ++ COLON :: (w1 ++ v ++ t1) = (n ++ [COLON]) ++ (w1 ++ v ++ t1) by simp]
      exact List.drop_left' (by simp)
    have e2 : List.drop (n.length + 1) (n ++ COLON :: (w2 ++ v ++ t2)) = w2 ++ v ++ t2 := by
      rw [show n ++ COLON :: (w2 ++ v ++ t2) = (n ++ [COLON]) ++ (w2 ++ v ++ t2) by simp]
      exact List.drop_left' (by simp)
    rw [e1, e2, trim_whitespace_padded w1 v t1 h1 h2, trim_whitespace_padded w2 v t2 h3 h4]

theorem foldl_same_lines (ls1 ls2 : List (List Nat)) (h : List.Forall₂ same_header_line ls1 ls2)
    (pr : ParsedRequest) :
    ls1.foldl parse_header_line pr = ls2.foldl parse_header_line pr := by
  induction h generalizing pr with
  | nil => rfl
  | cons hl _ ih => rw [List.foldl_cons, List.foldl_cons, parse_header_line_same pr _ _ hl, ih]

/-- C12 (amended): two buffers with the same request line and the same body
bytes, whose header lines correspond one to one and differ only in leading or
trailing ASCII white space around the value inside the line, give the same
result of `ParsedRequest_parse`: the call returns on both, with the same
return code and the same structured request. -/
theorem value_white_space_ignored (pr : ParsedRequest) (b1 b2 : List Nat)
    (hline : request_line b1 = request_line b2) (hbody : body_start b1 = body_start b2)
    (hlines : List.Forall₂ same_header_line (header_lines b1) (header_lines b2)) :
    ∃ rc pr', ParsedRequest_parse pr b1 = some (rc, pr') ∧
      ParsedRequest_parse pr b2 = some (rc, pr') := by
  refine ⟨_, _, parse_eq_from_views pr b1, ?_⟩
  rw [parse_eq_from_views pr b2, hline, hbody]
  unfold parse_from_views
  cases body_start b2 with
  | none => rfl
  | some body =>
    cases request_line b2 with
    | none => rfl
    | some line =>
      dsimp only
      split
      · rename_i method url version _ _ _
        rw [foldl_same_lines _ _ hlines]
      · rfl

theorem value_white_space_ignored_witness :
    List.Forall₂ same_header_line (header_lines plain_value_buffer)
      (header_lines padded_value_buffer) ∧
    ∃ rc pr', ParsedRequest_parse ParsedRequest_create plain_value_buffer = some (rc, pr') ∧
      ParsedRequest_parse ParsedRequest_create padded_value_buffer = some (rc, pr') := by
  have hl : List.Forall₂ same_header_line (header_lines plain_value_buffer)
      (header_lines padded_value_buffer) := by
    rw [show header_lines plain_value_buffer = [ascii "A: b"] by decide,
      show header_lines padded_value_buffer = [ascii "A: \t b \t"] by decide]
    refine List.Forall₂.cons (Or.inr ⟨ascii "A", ascii "b", ascii " ", [], ascii " \t ",
      ascii " \t", by decide, by decide, by decide, by decide⟩) List.Forall₂.nil
  exact ⟨hl, value_white_space_ignored ParsedRequest_create plain_value_buffer padded_value_buffer
    (by decide) (by decide) hl⟩

/-- C12 (as stated) fails: a line feed is ASCII white space, and the buffer
with one line feed inserted in front of a header value is accepted with a
different structured request, the value being lost. -/
theorem line_feed_before_value_changes_parse :
    isspace 10 = true ∧
    plain_value_buffer = ascii "GET http://h/ HTTP/1.1\r\nA: " ++ ascii "b\r\n\r\n" ∧
    line_feed_value_buffer = ascii "GET http://h/ HTTP/1.1\r\nA: " ++ [10] ++ ascii "b\r\n\r\n" ∧
    (ParsedRequest_parse ParsedRequest_create plain_value_buffer).map
        (fun r => (r.1, r.2.headers)) = some (0, [{ name := ascii "A", value := ascii "b" }]) ∧
    (ParsedRequest_parse ParsedRequest_create line_feed_value_buffer).map
        (fun r => (r.1, r.2.headers)) = some (0, [{ name := ascii "A", value := [] }]) ∧
    ParsedRequest_parse ParsedRequest_create plain_value_buffer ≠
      ParsedRequest_parse ParsedRequest_create line_feed_value_buffer := by
  refine ⟨by decide, by decide, by decide, by decide, by decide, by decide⟩

theorem parse_header_line_value (pr : ParsedRequest) (l n : List Nat)
    (hn : header_name l = some n) (hh : is_host_line l = false) :
    (parse_header_line pr l).headers = header_list_set pr.headers n (header_value l) := by
  unfold parse_header_line
  unfold header_name at hn
  unfold is_host_line at hh
  unfold header_value
  cases hc : strchr l COLON with
  | none => rw [hc] at hn; simp at hn
  | some colon =>
    rw [hc] at hn hh
    simp only [Option.map_some', Option.some.injEq] at hn
    dsimp only at hh ⊢
    rw [hn] at hh ⊢
    have hne : ¬ (strcasecmp n (ascii "Host") = 0 ∧ pr.host = none) := by
      intro hc'
      simp [hc'.1] at hh
    rw [if_neg hne]
    split_ifs <;> rw [ParsedHeader_set_headers]

theorem foldl_headers_mem (ls : List (List Nat)) (pr : ParsedRequest)
    (hdist : (ls.filterMap header_name).Pairwise (fun a b => strcasecmp a b ≠ 0))
    (hfresh : ∀ h ∈ pr.headers, ∀ n ∈ ls.filterMap header_name, strcasecmp h.name n ≠ 0)
    (hlen : ∀ n ∈ ls.filterMap header_name, n.length < MAX_HEADER_NAME_LEN) :
    (∀ h ∈ pr.headers, h ∈ (ls.foldl parse_header_line pr).headers) ∧
    (∀ l ∈ ls, ∀ n, header_name l = some n → is_host_line l = false →
      ({ name := n, value := (header_value l).take (MAX_HEADER_VALUE_LEN - 1) } : ParsedHeader) ∈
        (ls.foldl parse_header_line pr).headers) := by
  induction ls generalizing pr with
  | nil => simp
  | cons l ls ih =>
    rw [List.foldl_cons]
    rcases parse_header_line_headers pr l with ⟨hn, hh⟩ | ⟨n, v, hn, hh⟩
    · rw [List.filterMap_cons_none hn] at hdist hfresh hlen
      have h := ih (parse_header_line pr l) hdist (by rw [hh]; exact hfresh) hlen
      refine ⟨fun x hx => h.1 x (by rw [hh]; exact hx), ?_⟩
      intro l' hl' n' hn' hh'
      rcases List.mem_cons.1 hl' with rfl | hl'
      · rw [hn] at hn'; simp at hn'
      · exact h.2 l' hl' n' hn' hh'
    · rw [List.filterMap_cons_some hn] at hdist hfresh hlen
      rw [List.pairwise_cons] at hdist
      have hnew := header_list_set_new pr.headers n
      have hshort : strncpy n (MAX_HEADER_NAME_LEN - 1) = n :=
        strncpy_short n _ (by
          have := hlen n (by simp)
          simp only [MAX_HEADER_NAME_LEN] at this ⊢; omega)
      have hp : (parse_header_line pr l).headers =
          { name := n, value := strncpy v (MAX_HEADER_VALUE_LEN - 1) } :: pr.headers := by
        rw [hh, hnew v (fun h hm => hfresh h hm n (by simp)), hshort]
      have h := ih (parse_header_line pr l) hdist.2
        (by
          intro h hm q hq
          rw [hp] at hm
          rcases List.mem_cons.1 hm with rfl | hm
          · exact hdist.1 q hq
          · exact hfresh h hm q (List.mem_cons_of_mem _ hq))
        (fun q hq => hlen q (List.mem_cons_of_mem _ hq))
      refine ⟨fun x hx => h.1 x (by rw [hp]; exact List.mem_cons_of_mem _ hx), ?_⟩
      intro l' hl' n' hn' hh'
      rcases List.mem_cons.1 hl' with rfl | hl'
      · rw [hn] at hn'
        simp only [Option.some.injEq] at hn'
        subst hn'
        apply h.1
        rw [parse_header_line_value pr l' n hn hh',
          hnew _ (fun h hm => hfresh h hm n (by simp)), hshort]
        exact List.mem_cons_self _ _
      · exact h.2 l' hl' n' hn' hh'

theorem find_header_mem (hs : List ParsedHeader) (n v : List Nat)
    (h : find_header hs n = some v) : ∃ x ∈ hs, strcasecmp x.name n = 0 ∧ x.value = v := by
  induction hs with
  | nil => simp [find_header] at h
  | cons y t ih =>
    by_cases hy : strcasecmp y.name n = 0
    · simp only [find_header, hy, if_true, Option.some.injEq] at h
      exact ⟨y, List.mem_cons_self _ _, hy, h⟩
    · simp only [find_header, hy, if_false] at h
      obtain ⟨x, hx, hx'⟩ := ih h
      exact ⟨x, List.mem_cons_of_mem _ hx, hx'⟩

/-- The header list after the mutation of `handle_request`, for a request with
a host: it has a header named Connection (ignoring case) with value "close"
and one named Host, the headers with other names are kept, and the other
fields are unchanged. -/
theorem upstream_headers_lines (request : ParsedRequest) (host : List Nat)
    (hhost : request.host = some host) :
    (∃ x ∈ (upstream_headers request).headers,
      strcasecmp x.name (ascii "Connection") = 0 ∧ x.value = ascii "close") ∧
    (∃ x ∈ (upstream_headers request).headers, strcasecmp x.name (ascii "Host") = 0) ∧
    (∀ x ∈ request.headers, strcasecmp x.name (ascii "Connection") ≠ 0 →
      strcasecmp x.name (ascii "Host") ≠ 0 → x ∈ (upstream_headers request).headers) ∧
    (upstream_headers request).method = request.method ∧
    (upstream_headers request).path = request.path ∧
    (upstream_headers request).version = request.version ∧
    (upstream_headers request).body = request.body ∧
    (upstream_headers request).body_length = request.body_length := by
  have hc : (ascii "Connection").length < MAX_HEADER_NAME_LEN := by decide
  have hh : (ascii "Host").length < MAX_HEADER_NAME_LEN := by decide
  have hne' : strcasecmp (ascii "Connection") (ascii "Host") ≠ 0 := by decide
  have hclose : strncpy (ascii "close") (MAX_HEADER_VALUE_LEN - 1) = ascii "close" := by decide
  have hk1 := set_keeps_headers request (ascii "Connection") (ascii "close")
  have hf1 := ParsedHeader_set_frame request (ascii "Connection") (ascii "close")
  have hg1 : ParsedHeader_get (ParsedHeader_set request (ascii "Connection") (ascii "close")).2
      (ascii "Connection") = some (ascii "close") := by
    rw [get_after_set_same _ _ _ _ hc (by decide), hclose]
  unfold upstream_headers
  rw [hhost]
  cases hg : ParsedHeader_get (ParsedHeader_set request (ascii "Connection") (ascii "close")).2
      (ascii "Host") with
  | some v =>
    dsimp only
    obtain ⟨x, hx, hx1, hx2⟩ := find_header_mem _ _ _ hg1
    obtain ⟨y, hy, hy1, _⟩ := find_header_mem _ _ _ hg
    exact ⟨⟨x, hx, hx1, hx2⟩, ⟨y, hy, hy1⟩, fun z hz hz1 _ => hk1.1 z hz hz1,
      hf1.1, hf1.2.2.1, hf1.2.2.2.1, hf1.2.2.2.2.2.1, hf1.2.2.2.2.2.2.2⟩
  | none =>
    dsimp only
    have hk2 := set_keeps_headers
      (ParsedHeader_set request (ascii "Connection") (ascii "close")).2 (ascii "Host") host
    have hf2 := ParsedHeader_set_frame
      (ParsedHeader_set request (ascii "Connection") (ascii "close")).2 (ascii "Host") host
    have hg2 : ParsedHeader_get (ParsedHeader_set
        (ParsedHeader_set request (ascii "Connection") (ascii "close")).2 (ascii "Host") host).2
        (ascii "Connection") = some (ascii "close") := by
      rw [get_after_set_other _ _ _ _ hh hne', hg1]
    have hg3 := get_after_set_same
      (ParsedHeader_set request (ascii "Connection") (ascii "close")).2 (ascii "Host") host
      (ascii "Host") hh (by decide)
    obtain ⟨x, hx, hx1, hx2⟩ := find_header_mem _ _ _ hg2
    obtain ⟨y, hy, hy1, _⟩ := find_header_mem _ _ _ hg3
    exact ⟨⟨x, hx, hx1, hx2⟩, ⟨y, hy, hy1⟩, fun z hz hz1 hz2 => hk2.1 z (hk1.1 z hz hz1) hz2,
      hf2.1.trans hf1.1, hf2.2.2.1.trans hf1.2.2.1, hf2.2.2.2.1.trans hf1.2.2.2.1,
      hf2.2.2.2.2.2.1.trans hf1.2.2.2.2.2.1, hf2.2.2.2.2.2.2.2.trans hf1.2.2.2.2.2.2.2⟩

theorem rendering_of_fields (pr : ParsedRequest) (method path version body : List Nat)
    (hm : pr.method = method) (hp : pr.path = some path) (hv : pr.version = some version)
    (hb : pr.body = if body.length > 0 then some body else none)
    (hbl : pr.body_length = if body.length > 0 then body.length else 0) :
    complete_rendering pr =
      method ++ SP ++ path ++ SP ++ version ++ CRLF ++ (pr.headers.map header_text).flatten
        ++ CRLF ++ body ∧
    (request_line_text pr).length + ((pr.headers.map header_text).flatten).length + 4
      + pr.body_length ≤ (complete_rendering pr).length + 4 := by
  have hbody : (pr.body.getD []).take pr.body_length = body ∧ pr.body_length = body.length := by
    rw [hb, hbl]
    by_cases h : body.length > 0
    · rw [if_pos h, if_pos h]; simp
    · rw [if_neg h, if_neg h]
      have : body = [] := List.length_eq_zero.1 (by omega)
      subst this; simp
  have hr : request_line_text pr = method ++ SP ++ path ++ SP ++ version ++ CRLF := by
    unfold request_line_text
    rw [hm, hp, hv]; rfl
  constructor
  · unfold complete_rendering
    rw [hbody.1, hr]
  · unfold complete_rendering
    rw [hbody.1, hbody.2]
    have h2 : CRLF.length = 2 := by decide
    simp only [List.length_append, h2]
    omega

/-- A header line is stored with its whole trimmed value unless it is the Host
line that sets a still missing host and its value holds a `:`. -/
theorem parse_header_line_stored (pr : ParsedRequest) (l n : List Nat)
    (hn : header_name l = some n)
    (hc : is_host_line l = false ∨ pr.host ≠ none ∨ COLON ∉ header_value l) :
    (parse_header_line pr l).headers = header_list_set pr.headers n (header_value l) := by
  unfold parse_header_line
  unfold header_name at hn
  unfold is_host_line header_value at hc
  unfold header_value
  cases hcol : strchr l COLON with
  | none => rw [hcol] at hn; simp at hn
  | some colon =>
    rw [hcol] at hn hc
    simp only [Option.map_some', Option.some.injEq] at hn
    dsimp only at hc ⊢
    rw [hn] at hc ⊢
    by_cases hcond : strcasecmp n (ascii "Host") = 0 ∧ pr.host = none
    · rw [if_pos hcond]
      have hv : strchr (trim_whitespace (List.drop (colon + 1) l)) COLON = none := by
        rcases hc with hc | hc | hc
        · simp [hcond.1] at hc
        · exact absurd hcond.2 hc
        · exact (strchr_none_iff _ _).2 hc
      rw [hv]
      dsimp only
      rw [ParsedHeader_set_headers]
    · rw [if_neg hcond]
      split_ifs <;> rw [ParsedHeader_set_headers]

theorem foldl_headers_stored (ls : List (List Nat)) (pr : ParsedRequest)
    (hdist : (ls.filterMap header_name).Pairwise (fun a b => strcasecmp a b ≠ 0))
    (hfresh : ∀ h ∈ pr.headers, ∀ n ∈ ls.filterMap header_name, strcasecmp h.name n ≠ 0)
    (hlen : ∀ n ∈ ls.filterMap header_name, n.length < MAX_HEADER_NAME_LEN) :
    (∀ h ∈ pr.headers, h ∈ (ls.foldl parse_header_line pr).headers) ∧
    (∀ l ∈ ls, ∀ n, header_name l = some n →
      (is_host_line l = false ∨ pr.host ≠ none ∨ COLON ∉ header_value l) →
      ({ name := n, value := (header_value l).take (MAX_HEADER_VALUE_LEN - 1) } : ParsedHeader) ∈
        (ls.foldl parse_header_line pr).headers) := by
  induction ls generalizing pr with
  | nil => simp
  | cons l ls ih =>
    rw [List.foldl_cons]
    have hstep : ∀ l' : List Nat,
        (is_host_line l' = false ∨ pr.host ≠ none ∨ COLON ∉ header_value l') →
        (is_host_line l' = false ∨ (parse_header_line pr l).host ≠ none ∨
          COLON ∉ header_value l') := by
      intro l' h
      rcases h with h | h | h
      · exact Or.inl h
      · exact Or.inr (Or.inl (by rw [(parse_header_line_host_set pr l h).1]; exact h))
      · exact Or.inr (Or.inr h)
    rcases parse_header_line_headers pr l with ⟨hn, hh⟩ | ⟨n, v, hn, hh⟩
    · rw [List.filterMap_cons_none hn] at hdist hfresh hlen
      have h := ih (parse_header_line pr l) hdist (by rw [hh]; exact hfresh) hlen
      refine ⟨fun x hx => h.1 x (by rw [hh]; exact hx), ?_⟩
      intro l' hl' n' hn' hc'
      rcases List.mem_cons.1 hl' with rfl | hl'
      · rw [hn] at hn'; simp at hn'
      · exact h.2 l' hl' n' hn' (hstep l' hc')
    · rw [List.filterMap_cons_some hn] at hdist hfresh hlen
      rw [List.pairwise_cons] at hdist
      have hnew := header_list_set_new pr.headers n
      have hshort : strncpy n (MAX_HEADER_NAME_LEN - 1) = n :=
        strncpy_short n _ (by
          have := hlen n (by simp)
          simp only [MAX_HEADER_NAME_LEN] at this ⊢; omega)
      have hp : (parse_header_line pr l).headers =
          { name := n, value := strncpy v (MAX_HEADER_VALUE_LEN - 1) } :: pr.headers := by
        rw [hh, hnew v (fun h hm => hfresh h hm n (by simp)), hshort]
      have h := ih (parse_header_line pr l) hdist.2
        (by
          intro h hm q hq
          rw [hp] at hm
          rcases List.mem_cons.1 hm with rfl | hm
          · exact hdist.1 q hq
          · exact hfresh h hm q (List.mem_cons_of_mem _ hq))
        (fun q hq => hlen q (List.mem_cons_of_mem _ hq))
      refine ⟨fun x hx => h.1 x (by rw [hp]; exact List.mem_cons_of_mem _ hx), ?_⟩
      intro l' hl' n' hn' hc'
      rcases List.mem_cons.1 hl' with rfl | hl'
      · rw [hn] at hn'
        simp only [Option.some.injEq] at hn'
        subst hn'
        apply h.1
        rw [parse_header_line_stored pr l' n hn hc',
          hnew _ (fun h hm => hfresh h hm n (by simp)), hshort]
        exact List.mem_cons_self _ _
      · exact h.2 l' hl' n' hn' (hstep l' hc')

theorem find_header_none_all (hs : List ParsedHeader) (n : List Nat)
    (h : find_header hs n = none) : ∀ x ∈ hs, strcasecmp x.name n ≠ 0 := by
  induction hs with
  | nil => simp
  | cons y t ih =>
    by_cases hy : strcasecmp y.name n = 0
    · simp [find_header, hy] at h
    · simp only [find_header, hy, if_false] at h
      intro x hx
      rcases List.mem_cons.1 hx with rfl | hx
      · exact hy
      · exact ih h x hx

/-- The header mutation of `handle_request` keeps every header whose name is
not Connection. -/
theorem upstream_headers_keeps (request : ParsedRequest) :
    ∀ x ∈ request.headers, strcasecmp x.name (ascii "Connection") ≠ 0 →
      x ∈ (upstream_headers request).headers := by
  intro x hx hc
  have hk1 := (set_keeps_headers request (ascii "Connection") (ascii "close")).1 x hx hc
  unfold upstream_headers
  cases hg : ParsedHeader_get (ParsedHeader_set request (ascii "Connection") (ascii "close")).2
      (ascii "Host") with
  | some v => exact hk1
  | none =>
    dsimp only
    cases hh : request.host with
    | none => exact hk1
    | some host =>
      dsimp only
      exact (set_keeps_headers _ (ascii "Host") host).1 x hk1
        (find_header_none_all _ _ hg x hk1)

/-- C11 (amended): for a buffer that `ParsedRequest_parse` accepts and whose
header lines carry pairwise different names (ignoring case) shorter than 64
bytes, serializing the result into a large enough buffer returns 0 and gives
the request line `method SP path SP version CRLF` of the request (path: an
origin-form target itself, the path part of an absolute-form target or `/`),
the header lines, an empty line and the body bytes; for every header line of
the buffer the header lines contain `name: value CRLF` with the trimmed value
cut to 1023 bytes, the Host line of an origin-form request whose value holds a
`:` excepted. After the header mutation of `handle_request`, for a request
with a host, the same holds for the lines of every name other than
Connection, and there is a line whose name is Connection (ignoring case) with
value `close` and a line whose name is Host. -/
theorem parse_unparse_round_trip (buffer : List Nat) (pr : ParsedRequest) (buflen : Nat)
    (hok : ParsedRequest_parse ParsedRequest_create buffer = some (0, pr))
    (hdist : ((header_lines buffer).filterMap header_name).Pairwise
      (fun a b => strcasecmp a b ≠ 0))
    (hlen : ∀ n ∈ (header_lines buffer).filterMap header_name, n.length < MAX_HEADER_NAME_LEN)
    (hsz : buflen < SIZE_MOD)
    (hfit : (complete_rendering pr).length + 4 ≤ buflen)
    (hfit2 : (complete_rendering (upstream_headers pr)).length + 4 ≤ buflen) :
    ∃ body line method url version path,
      body_start buffer = some body ∧ request_line buffer = some line ∧
      request_fields line = (some method, some url, some version) ∧
      (¬ HTTP_PREFIX <+: url → path = url) ∧
      (HTTP_PREFIX <+: url →
        path = if SLASH ∈ url.drop 7 then (url.drop 7).dropWhile (fun c => c != SLASH)
               else ascii "/") ∧
      ParsedRequest_unparse pr buflen =
        (0, method ++ SP ++ path ++ SP ++ version ++ CRLF ++
              (pr.headers.map header_text).flatten ++ CRLF ++ body) ∧
      (∀ l ∈ header_lines buffer, ∀ n, header_name l = some n →
        (is_host_line l = false ∨ HTTP_PREFIX <+: url ∨ COLON ∉ header_value l) →
        n ++ ascii ": " ++ (header_value l).take 1023 ++ CRLF ∈ pr.headers.map header_text) ∧
      (pr.host ≠ none →
        ParsedRequest_unparse (upstream_headers pr) buflen =
          (0, method ++ SP ++ path ++ SP ++ version ++ CRLF ++
                ((upstream_headers pr).headers.map header_text).flatten ++ CRLF ++ body) ∧
        (∀ l ∈ header_lines buffer, ∀ n, header_name l = some n →
          (is_host_line l = false ∨ HTTP_PREFIX <+: url ∨ COLON ∉ header_value l) →
          strcasecmp n (ascii "Connection") ≠ 0 →
          n ++ ascii ": " ++ (header_value l).take 1023 ++ CRLF ∈
            (upstream_headers pr).headers.map header_text) ∧
        (∃ name, strcasecmp name (ascii "Connection") = 0 ∧
          name ++ ascii ": " ++ ascii "close" ++ CRLF ∈
            (upstream_headers pr).headers.map header_text) ∧
        (∃ name value, strcasecmp name (ascii "Host") = 0 ∧
          name ++ ascii ": " ++ value ++ CRLF ∈
            (upstream_headers pr).headers.map header_text)) := by
  obtain ⟨body, line, method, url, version, hb, hl, hf, hm, hv, hpr⟩ :=
    parse_ok_inv _ _ _ hok
  have h0 := request_fields_nul_free buffer line _ _ _ hl hf
  have hfr := foldl_frame (header_lines buffer)
    (before_headers ParsedRequest_create body method url version)
  have hbf := before_headers_frame ParsedRequest_create body method url version
  rw [← hpr] at hfr
  have hmethod : pr.method = method := by
    have hmem := is_valid_method_mem method (h0.1 method rfl) hm
    have hshort : ∀ m ∈ valid_methods, m.length ≤ MAX_METHOD_LEN - 1 := by decide
    rw [hfr.1, hbf.1, strncpy_short _ _ (hshort _ hmem)]
  have hversion : pr.version = some version := by rw [hfr.2.2.1, hbf.2.1]
  have hbody : pr.body = if body.length > 0 then some body else none := by
    rw [hfr.2.2.2.1, hbf.2.2.2.2.1]; rfl
  have hbl : pr.body_length = if body.length > 0 then body.length else 0 := by
    rw [hfr.2.2.2.2, hbf.2.2.2.2.2]; rfl
  have hpath : ∃ path, pr.path = some path ∧ (¬ HTTP_PREFIX <+: url → path = url) ∧
      (HTTP_PREFIX <+: url →
        path = if SLASH ∈ url.drop 7 then (url.drop 7).dropWhile (fun c => c != SLASH)
               else ascii "/") := by
    by_cases hpre : HTTP_PREFIX <+: url
    · exact ⟨_, by rw [hpr]; exact (absolute_form_fields ParsedRequest_create body method url
        version (header_lines buffer) hpre).2.2, fun h => absurd hpre h, fun _ => rfl⟩
    · exact ⟨url, by rw [hpr]; exact (origin_form_fields body method url version
        (header_lines buffer) (h0.2.1 url rfl) hpre).1, fun _ => rfl, fun h => absurd h hpre⟩
  obtain ⟨path, hp, hp1, hp2⟩ := hpath
  have hhost0 : HTTP_PREFIX <+: url →
      (before_headers ParsedRequest_create body method url version).host ≠ none := by
    intro hpre
    unfold before_headers
    rw [(parse_url_absolute _ url hpre).1]
    simp
  have hmem0 := (foldl_headers_stored (header_lines buffer)
    (before_headers ParsedRequest_create body method url version) hdist
    (by rw [hbf.2.2.1]; intro h hh; simp [ParsedRequest_create] at hh) hlen).2
  rw [← hpr] at hmem0
  have hmem : ∀ l ∈ header_lines buffer, ∀ n, header_name l = some n →
      (is_host_line l = false ∨ HTTP_PREFIX <+: url ∨ COLON ∉ header_value l) →
      ({ name := n, value := (header_value l).take (MAX_HEADER_VALUE_LEN - 1) } : ParsedHeader)
        ∈ pr.headers := by
    intro l hl' n hn hc
    refine hmem0 l hl' n hn ?_
    rcases hc with hc | hc | hc
    · exact Or.inl hc
    · exact Or.inr (Or.inl (hhost0 hc))
    · exact Or.inr (Or.inr hc)
  have hr := rendering_of_fields pr method path version body hmethod hp hversion hbody hbl
  refine ⟨body, line, method, url, version, path, hb, hl, hf, hp1, hp2, ?_, ?_, ?_⟩
  · rw [unparse_fits pr buflen hsz (by omega), hr.1]
  · intro l hl' n hn hc
    exact List.mem_map.2 ⟨_, hmem l hl' n hn hc, rfl⟩
  · intro hhost
    obtain ⟨host, hhost'⟩ := Option.ne_none_iff_exists'.1 hhost
    obtain ⟨⟨x, hx, hx1, hx2⟩, ⟨y, hy, hy1⟩, _, um, up, uv, ub, ubl⟩ :=
      upstream_headers_lines pr host hhost'
    have hr2 := rendering_of_fields (upstream_headers pr) method path version body
      (um.trans hmethod) (up.trans hp) (uv.trans hversion) (ub.trans hbody) (ubl.trans hbl)
    refine ⟨?_, ?_, ⟨x.name, hx1, List.mem_map.2 ⟨x, hx, by rw [header_text, hx2]⟩⟩,
      ⟨y.name, y.value, hy1, List.mem_map.2 ⟨y, hy, rfl⟩⟩⟩
    · rw [unparse_fits _ buflen hsz (by omega), hr2.1]
    · intro l hl' n hn hc hconn
      exact List.mem_map.2 ⟨_, upstream_headers_keeps pr _ (hmem l hl' n hn hc) hconn, rfl⟩

/-- C11 witness: the request `GET http://example.com/foo HTTP/1.1` with the
header lines `Host: other:99` and `A: 1`, serialized into 4096 bytes: both
lines come back, also after the header mutation. -/
theorem parse_unparse_round_trip_witness :
    ParsedRequest_parse ParsedRequest_create host_kept_buffer = some (0, host_kept_request) ∧
    header_lines host_kept_buffer = [ascii "Host: other:99", ascii "A: 1"] ∧
    (∀ l ∈ header_lines host_kept_buffer, ∀ n, header_name l = some n →
      n ++ ascii ": " ++ (header_value l).take 1023 ++ CRLF ∈
        host_kept_request.headers.map header_text) ∧
    (∃ name, strcasecmp name (ascii "Connection") = 0 ∧
      name ++ ascii ": " ++ ascii "close" ++ CRLF ∈
        (upstream_headers host_kept_request).headers.map header_text) ∧
    ParsedRequest_unparse (upstream_headers host_kept_request) 4096 =
      (0, ascii "GET /foo HTTP/1.1\r\nConnection: close\r\nA: 1\r\nHost: other:99\r\n\r\n") := by
  obtain ⟨_, line, _, url, _, _, _, hl, hf, _, _, _, h1, h2⟩ :=
    parse_unparse_round_trip host_kept_buffer host_kept_request 4096 (by decide)
      (by decide) (by decide) (by decide) (by decide) (by decide)
  have hline : request_line host_kept_buffer
      = some (ascii "GET http://example.com/foo HTTP/1.1") := by decide
  rw [hline] at hl
  simp only [Option.some.injEq] at hl
  subst hl
  have hu : url = ascii "http://example.com/foo" := by
    have : request_fields (ascii "GET http://example.com/foo HTTP/1.1")
        = (some (ascii "GET"), some (ascii "http://example.com/foo"), some (ascii "HTTP/1.1")) := by
      decide
    rw [this] at hf
    simp only [Prod.mk.injEq, Option.some.injEq] at hf
    exact hf.2.1.symm
  subst hu
  exact ⟨by decide, by decide,
    fun l hl n hn => h1 l hl n hn (Or.inr (Or.inl (by decide))),
    (h2 (by decide)).2.2.1, by decide⟩

/-- C11 (as stated) fails. Scenario B is accepted, its Host header line carries
the trimmed value `api.local:8443`, and the serialization has the line
`Host: api.local` instead; of two header lines with the names `A` and `a` only
one line is serialized, with the second value; and after the header mutation a
request that came with `connection: keep-alive` is serialized with the line
`connection: close`, not `Connection: close`. -/
theorem round_trip_header_lines_changed :
    ParsedRequest_parse ParsedRequest_create scenarioB = some (0, resultB) ∧
    header_lines scenarioB = [ascii "Host: api.local:8443", ascii "Content-Length: 5"] ∧
    ParsedRequest_unparse resultB 4096 =
      (0, ascii "POST /submit HTTP/1.1\r\nContent-Length: 5\r\nHost: api.local\r\n\r\nhello") ∧
    ¬ (ascii "Host: api.local:8443\r\n" <:+: (ParsedRequest_unparse resultB 4096).2) ∧
    ParsedRequest_parse ParsedRequest_create duplicate_name_buffer
      = some (0, duplicate_name_request) ∧
    ParsedRequest_unparse duplicate_name_request 4096 =
      (0, ascii "GET / HTTP/1.1\r\nA: 2\r\n\r\n") ∧
    ParsedRequest_parse ParsedRequest_create lower_connection_buffer
      = some (0, lower_connection_request) ∧
    ParsedRequest_unparse (upstream_headers lower_connection_request) 4096 =
      (0, ascii "GET / HTTP/1.1\r\nHost: h\r\nconnection: close\r\n\r\n") ∧
    ¬ (ascii "Connection: close\r\n" <:+:
        (ParsedRequest_unparse (upstream_headers lower_connection_request) 4096).2) :=
  ⟨by decide, by decide, by decide, by decide, by decide, by decide, by decide, by decide,
    by decide⟩

theorem strstr_none_of_absent (s n : List Nat) (h : ¬ n <:+: s) : strstr s n = none := by
  cases hs : strstr s n with
  | none => rfl
  | some i => exact absurd (strstr_some_occurs s n i hs) h

/-- The first CRLFCRLF of a buffer that starts with a CRLF-free string followed
by CRLFCRLF is the one that follows the string. -/
theorem strstr_after_line (line r : List Nat) (h : ¬ CRLF <:+: line) :
    strstr (line ++ CRLFCRLF ++ r) CRLFCRLF = some line.length := by
  induction line with
  | nil => simpa using strstr_at_start r
  | cons c p ih =>
    have hp : ¬ CRLF <:+: p := fun hc => h (hc.trans (List.suffix_cons c p).isInfix)
    have hN : CRLFCRLF = [13, 10, 13, 10] := by decide
    have hC : CRLF = [13, 10] := by decide
    have hns : ¬ CRLFCRLF.isPrefixOf (c :: (p ++ CRLFCRLF ++ r)) = true := by
      intro hc
      rw [hN] at hc
      cases p with
      | nil => simp [List.isPrefixOf] at hc
      | cons d p =>
        simp only [List.cons_append, List.isPrefixOf, Bool.and_eq_true, beq_iff_eq] at hc
        apply h
        rw [hC]
        exact ⟨[], p, by simp [← hc.1, ← hc.2.1]⟩
    have e : strstr (c :: (p ++ CRLFCRLF ++ r)) CRLFCRLF =
        if CRLFCRLF.isPrefixOf (c :: (p ++ CRLFCRLF ++ r)) then some 0
        else (strstr (p ++ CRLFCRLF ++ r) CRLFCRLF).map (· + 1) := rfl
    show strstr (c :: (p ++ CRLFCRLF ++ r)) CRLFCRLF = _
    rw [e, if_neg hns, ih hp]
    rfl

theorem parse_fail_of_no_line (pr : ParsedRequest) (buffer : List Nat)
    (h : request_line buffer = none) : ∃ pr', ParsedRequest_parse pr buffer = some (-1, pr') := by
  rw [parse_eq_from_views, h]
  unfold parse_from_views
  cases body_start buffer with
  | none => exact ⟨_, rfl⟩
  | some body => exact ⟨_, rfl⟩

/-- C25: a buffer in which no CRLF occurs before the first CRLFCRLF, that is a
CRLF-free string followed by CRLFCRLF and anything else, is rejected by
`ParsedRequest_parse` with -1, whatever the string is. -/
theorem parse_rejects_without_header_line (pr : ParsedRequest) (line rest : List Nat)
    (hline : ¬ CRLF <:+: line) :
    strstr (line ++ CRLFCRLF ++ rest) CRLFCRLF = some line.length ∧
    ∃ pr', ParsedRequest_parse pr (line ++ CRLFCRLF ++ rest) = some (-1, pr') := by
  refine ⟨strstr_after_line line rest hline, parse_fail_of_no_line pr _ ?_⟩
  unfold request_line header_section
  cases hs : strstr (cstr (line ++ CRLFCRLF ++ rest)) CRLFCRLF with
  | none => rfl
  | some he =>
    have h1 := strstr_of_prefix _ _ _ _ (cstr_is_initial (line ++ CRLFCRLF ++ rest)) hs
    rw [strstr_after_line line rest hline] at h1
    simp only [Option.some.injEq] at h1
    subst h1
    simp only [Option.map_some', Option.some_bind]
    have hpre : (cstr (line ++ CRLFCRLF ++ rest)).take line.length <+: line := by
      have a : (cstr (line ++ CRLFCRLF ++ rest)).take line.length <+: line ++ CRLFCRLF ++ rest :=
        (List.take_prefix _ _).trans (cstr_is_initial _)
      have b : line <+: line ++ CRLFCRLF ++ rest := by
        rw [List.append_assoc]; exact List.prefix_append _ _
      exact List.prefix_of_prefix_length_le a b (by simp)
    rw [strstr_none_of_absent _ _ (fun hc => hline (hc.trans hpre.isInfix))]
    rfl

/-- C25 witness: `GET / HTTP/1.1` followed by the blank line. -/
theorem parse_rejects_without_header_line_witness :
    no_header_request = ascii "GET / HTTP/1.1" ++ CRLFCRLF ++ [] ∧
    ∃ pr', ParsedRequest_parse ParsedRequest_create (ascii "GET / HTTP/1.1" ++ CRLFCRLF ++ [])
      = some (-1, pr') :=
  ⟨by decide,
   (parse_rejects_without_header_line ParsedRequest_create (ascii "GET / HTTP/1.1") []
      (by decide)).2⟩

/-- The scan of `remove_cache_element` ends on the first element, in list
order, that carries the smallest time stamp. -/
theorem oldest_scan_first_minimum (rest pre mid : List cache_element) (e : cache_element)
    (hpre : ∀ x ∈ pre, e.lru_time_track < x.lru_time_track)
    (hmid : ∀ x ∈ mid, e.lru_time_track ≤ x.lru_time_track) :
    ∃ pre' e' post', pre ++ e :: mid ++ rest = pre' ++ e' :: post' ∧
      oldest_scan pre.length e.lru_time_track (pre.length + 1 + mid.length) rest = pre'.length ∧
      (∀ x ∈ pre', e'.lru_time_track < x.lru_time_track) ∧
      (∀ x ∈ post', e'.lru_time_track ≤ x.lru_time_track) := by
  induction rest generalizing pre mid e with
  | nil => exact ⟨pre, e, mid, by simp, rfl, hpre, hmid⟩
  | cons next rest ih =>
    by_cases hlt : next.lru_time_track < e.lru_time_track
    · obtain ⟨pre', e', post', h1, h2, h3, h4⟩ := ih (pre ++ e :: mid) [] next
        (by
          intro x hx
          rcases List.mem_append.1 hx with hx | hx
          · exact lt_trans hlt (hpre x hx)
          · rcases List.mem_cons.1 hx with rfl | hx
            · exact hlt
            · exact lt_of_lt_of_le hlt (hmid x hx))
        (by simp)
      refine ⟨pre', e', post', by rw [← h1]; simp, ?_, h3, h4⟩
      have e1 : (pre ++ e :: mid).length = pre.length + 1 + mid.length := by
        simp only [List.length_append, List.length_cons]; omega
      rw [oldest_scan, if_pos hlt, ← h2, e1]
      rfl
    · obtain ⟨pre', e', post', h1, h2, h3, h4⟩ := ih pre (mid ++ [next]) e hpre
        (by
          intro x hx
          rcases List.mem_append.1 hx with hx | hx
          · exact hmid x hx
          · simp only [List.mem_singleton] at hx
            subst hx
            exact not_lt.1 hlt)
      refine ⟨pre', e', post', by rw [← h1]; simp, ?_, h3, h4⟩
      rw [oldest_scan, if_neg hlt, ← h2]
      simp only [List.length_append, List.length_singleton]
      rfl

/-- The eviction step called with the lock free: on a non-empty cache
`remove_cache_element` removes exactly one entry: the first one in list order that carries the
smallest time stamp (every entry before it is strictly newer, no entry after
it is older). The other entries stay, unchanged and in the same order, and the
lock is free again. -/
theorem eviction_removes_least_recent (c : Cache) (hfree : c.locked = false)
    (hne : c.head ≠ []) :
    ∃ pre e post c', c.head = pre ++ e :: post ∧
      (∀ x ∈ pre, e.lru_time_track < x.lru_time_track) ∧
      (∀ x ∈ post, e.lru_time_track ≤ x.lru_time_track) ∧
      remove_cache_element c = some c' ∧ c'.head = pre ++ post ∧ c'.locked = false := by
  cases hh : c.head with
  | nil => exact absurd hh hne
  | cons first rest =>
    obtain ⟨pre, e, post, h1, h2, h3, h4⟩ :=
      oldest_scan_first_minimum rest [] [] first (by simp) (by simp)
    simp only [List.nil_append, List.length_nil, Nat.zero_add, Nat.add_zero,
      List.cons_append] at h1 h2
    refine ⟨pre, e, post, _, h1, h3, h4, remove_unlocked_cons c first rest hfree hh, ?_, rfl⟩
    show (first :: rest).eraseIdx (oldest_scan 0 first.lru_time_track 1 rest) = pre ++ post
    rw [h2, h1]
    simp [List.eraseIdx_append_of_length_le]

/-- Of the entries `c` (time 7), `b` (time 3), `a` (time 3), in list order,
`b` is removed. -/
theorem eviction_removes_least_recent_witness :
    (∃ pre e post c', cache_with_tie.head = pre ++ e :: post ∧
      (∀ x ∈ pre, e.lru_time_track < x.lru_time_track) ∧
      (∀ x ∈ post, e.lru_time_track ≤ x.lru_time_track) ∧
      remove_cache_element cache_with_tie = some c' ∧ c'.head = pre ++ post ∧
      c'.locked = false) ∧
    (remove_cache_element cache_with_tie).map (fun c => c.head.map (fun e => e.url))
      = some [ascii "c", ascii "a"] :=
  ⟨eviction_removes_least_recent cache_with_tie (by decide) (by decide), by decide⟩

/-- C21 (code defect): `remove_cache_element` is called by `add_cache_element`
only, with the lock held. On the cache of twenty inserts, where the 21st
insert needs room, the list is non-empty and the call does not return, so no
entry is removed; a call with the lock free on the same cache would remove
the entry of the key `a`, the one with the smallest time stamp. -/
theorem eviction_blocked_at_its_call :
    (insert_all empty_cache fill_requests).map
      (fun c => (pthread_mutex_lock c).map
        (fun c1 => (c1.head.length, c1.locked, decide (c1.cache_size + 20055 > MAX_SIZE),
          (remove_cache_element c1).map (fun c2 => c2.head.length))))
      = some (some (20, true, true, none)) ∧
    ((insert_all empty_cache fill_requests).bind remove_cache_element).map
      (fun c => (c.head.length, c.head.map (fun e => e.url) |>.contains [97]))
      = some (19, false) := by
  refine ⟨?_, ?_⟩ <;> decide

/-- With the lock held and the loop condition true, the eviction loop of
`add_cache_element` never ends, whatever the bound on its iterations. -/
theorem evict_loop_held (n : Nat) (c : Cache) (es : Int) (hl : c.locked = true)
    (hc : c.cache_size + es > MAX_SIZE) : evict_loop n c es = none := by
  cases n with
  | zero => simp only [evict_loop, if_pos hc]
  | succ n => simp only [evict_loop, if_pos hc, remove_locked c hl]

/-- C22 (code defect): one insert of a one-byte payload under the key `k` into
the empty cache adds 56, the accounted size of the new entry, to `cache_size`;
the eviction of that entry subtracts 55, so the cache is empty again with
`cache_size` 1 and not 0. -/
theorem accounting_off_by_one :
    (add_cache_element empty_cache (ascii "x") 1 (ascii "k") (ascii "GET") 100).map
      (fun r => (r.1, r.2.cache_size, r.2.head.map accounted_size)) = some (1, 56, [56]) ∧
    ((add_cache_element empty_cache (ascii "x") 1 (ascii "k") (ascii "GET") 100).bind
      (fun r => remove_cache_element r.2)).map
      (fun c => (c.cache_size, c.head.length)) = some (1, 0) ∧
    empty_cache.cache_size = 0 := by
  refine ⟨?_, ?_, ?_⟩ <;> decide

/-- C23 (code defect): `remove_cache_element` called by a thread that holds the
lock never returns, whatever the cache holds; and `add_cache_element` makes
that call: on the cache filled by twenty inserts, with the lock free, an insert
of 20000 bytes takes the lock, finds the loop condition true and calls
`remove_cache_element` with the lock held. -/
theorem add_cache_element_relocks :
    (∀ head cache_size,
      pthread_mutex_lock { head := head, cache_size := cache_size, locked := true } = none ∧
      remove_cache_element { head := head, cache_size := cache_size, locked := true } = none) ∧
    (insert_all empty_cache fill_requests).map (fun c => c.locked) = some false ∧
    (insert_all empty_cache fill_requests).map
      (fun c => (pthread_mutex_lock c).map
        (fun c1 => (c1.locked, decide (c1.cache_size + 20055 > MAX_SIZE),
          (remove_cache_element c1).isNone))) = some (some (true, true, true)) ∧
    (insert_all empty_cache fill_requests).map
      (fun c => (add_cache_element c (List.replicate 20000 0) 20000 (ascii "z") (ascii "GET")
        100).isNone) = some true := by
  refine ⟨fun head cache_size => ⟨rfl, rfl⟩, ?_, ?_, ?_⟩ <;> decide

/-- C26 (code defect): on the cache reached by twenty inserts, for a new entry
of accounted size 20055, at most `MAX_ELEMENT_SIZE`, the loop
`while (cache_size + element_size > MAX_SIZE) remove_cache_element()` of
`add_cache_element` does not end within any number of iterations: the lock is
held, so the first `remove_cache_element` call does not return and no entry is
evicted. -/
theorem eviction_loop_never_ends :
    (20055 : Int) ≤ MAX_ELEMENT_SIZE ∧
    size_t_to_int (20000 + 1 + (ascii "z").length + (ascii "GET").length + 2
      + SIZEOF_CACHE_ELEMENT) = 20055 ∧
    ∀ n, (insert_all empty_cache fill_requests).map
      (fun c => (pthread_mutex_lock c).map (fun c1 => evict_loop n c1 20055))
      = some (some none) := by
  refine ⟨by decide, by decide, fun n => ?_⟩
  have hs : (insert_all empty_cache fill_requests).map
      (fun c => (c.cache_size, c.locked)) = some (209701100, false) := by decide
  cases h : insert_all empty_cache fill_requests with
  | none => rw [h] at hs; simp at hs
  | some c =>
    rw [h] at hs
    simp only [Option.map_some', Option.some.injEq, Prod.mk.injEq] at hs
    simp only [Option.map_some', pthread_mutex_lock, hs.2, Bool.false_eq_true, if_false]
    rw [evict_loop_held n _ 20055 rfl (by show c.cache_size + 20055 > MAX_SIZE; rw [hs.1]; decide)]

theorem capture_chunk_step (s : Capture) (chunk : List Nat)
    (h0 : 0 ≤ s.total_response_size) (hlt : s.total_response_size < s.response_capacity)
    (hcap : (MAX_BYTES : Int) ≤ s.response_capacity)
    (hchunk : chunk.length ≤ MAX_BYTES - 1)
    (htotal : s.total_response_size + chunk.length < 2 ^ 30) :
    ∃ s', capture_chunk s chunk = some s' ∧
      s'.response_buffer = s.response_buffer ++ chunk ∧
      s'.total_response_size = s.total_response_size + chunk.length ∧
      s'.total_response_size < s'.response_capacity ∧
      (s'.response_capacity = s.response_capacity ∨
        s'.response_capacity = s.response_capacity * 2) := by
  have hM : (MAX_BYTES : Int) = 8192 := by decide
  have hM' : MAX_BYTES = 8192 := by decide
  rw [hM] at hcap
  rw [hM'] at hchunk
  have hc : (chunk.length : Int) ≤ 8191 := by omega
  have hc0 : (0 : Int) ≤ chunk.length := Int.natCast_nonneg _
  have htot : long_to_int (s.total_response_size + chunk.length)
      = s.total_response_size + chunk.length := by
    unfold long_to_int; omega
  unfold capture_chunk
  dsimp only
  rw [htot]
  by_cases hd : s.total_response_size + chunk.length ≥ s.response_capacity
  · have hdbl : long_to_int (s.response_capacity * 2) = s.response_capacity * 2 := by
      unfold long_to_int; omega
    rw [if_pos hd, hdbl, if_pos ⟨h0, by omega⟩]
    exact ⟨_, rfl, rfl, rfl, by dsimp only; omega, Or.inr rfl⟩
  · rw [if_neg hd, if_pos ⟨h0, by omega⟩]
    exact ⟨_, rfl, rfl, rfl, by dsimp only; omega, Or.inl rfl⟩

theorem capture_loop_invariant (chunks : List (List Nat)) (s : Capture)
    (h0 : 0 ≤ s.total_response_size) (hlt : s.total_response_size < s.response_capacity)
    (hcap : (MAX_BYTES : Int) ≤ s.response_capacity)
    (hchunks : ∀ chunk ∈ chunks, chunk.length ≤ MAX_BYTES - 1)
    (htotal : s.total_response_size + chunks.flatten.length < 2 ^ 30) :
    ∃ s', capture_loop s chunks = some s' ∧
      s'.response_buffer = s.response_buffer ++ chunks.flatten ∧
      s'.total_response_size = s.total_response_size + chunks.flatten.length ∧
      s'.total_response_size < s'.response_capacity ∧
      ∃ k, k ≤ chunks.length ∧ s'.response_capacity = s.response_capacity * 2 ^ k := by
  induction chunks generalizing s with
  | nil => exact ⟨s, rfl, by simp, by simp, hlt, 0, le_refl _, by simp⟩
  | cons chunk rest ih =>
    simp only [List.flatten_cons, List.length_append, Nat.cast_add] at htotal
    have hr0 : (0 : Int) ≤ rest.flatten.length := Int.natCast_nonneg _
    have hc0 : (0 : Int) ≤ chunk.length := Int.natCast_nonneg _
    obtain ⟨s1, e1, b1, t1, l1, c1⟩ := capture_chunk_step s chunk h0 hlt hcap
      (hchunks chunk (List.mem_cons_self _ _)) (by omega)
    obtain ⟨s2, e2, b2, t2, l2, k, hk, c2⟩ := ih s1 (by omega) l1
      (by rcases c1 with c1 | c1 <;> omega)
      (fun x hx => hchunks x (List.mem_cons_of_mem _ hx)) (by omega)
    refine ⟨s2, by rw [capture_loop, e1]; exact e2, ?_, ?_, l2, ?_⟩
    · rw [b2, b1]; simp
    · rw [t2, t1]; simp only [List.flatten_cons, List.length_append, Nat.cast_add]; omega
    · rcases c1 with c1 | c1
      · exact ⟨k, by simp only [List.length_cons]; omega, by rw [c2, c1]⟩
      · exact ⟨k + 1, by simp only [List.length_cons]; omega, by rw [c2, c1, pow_succ]; ring⟩

/-- C24: for every sequence of upstream chunks of 1 to MAX_BYTES-1 bytes each
whose total stays below 2^30, after every iteration of the relay loop (after
every initial part of the sequence) the copies were inside the buffer, the
buffer holds the bytes received so far, `total_response_size` is their number
and is below `response_capacity`, which is MAX_BYTES doubled at most once per
chunk; so the terminator written at `total_response_size` is inside the buffer
as well. -/
theorem capture_buffer_never_overflows (chunks : List (List Nat))
    (hchunks : ∀ chunk ∈ chunks, 1 ≤ chunk.length ∧ chunk.length ≤ MAX_BYTES - 1)
    (htotal : (chunks.flatten.length : Int) < 2 ^ 30) :
    ∀ done, done <+: chunks →
      ∃ s, capture_loop capture_start done = some s ∧
        s.response_buffer = done.flatten ∧
        s.total_response_size = done.flatten.length ∧
        s.total_response_size < s.response_capacity ∧
        (∃ k, k ≤ done.length ∧ s.response_capacity = (MAX_BYTES : Int) * 2 ^ k) ∧
        capture_finish s = some (cstr done.flatten) := by
  intro done hdone
  have hlen : (done.flatten.length : Int) ≤ chunks.flatten.length := by
    obtain ⟨t, rfl⟩ := hdone
    simp only [List.flatten_append, List.length_append, Nat.cast_add]
    have := Int.natCast_nonneg t.flatten.length
    omega
  obtain ⟨s, e, b, t, l, k⟩ := capture_loop_invariant done capture_start (le_refl _)
    (by decide) (le_refl _) (fun x hx => (hchunks x (hdone.subset hx)).2)
    (by simp only [capture_start]; omega)
  simp only [capture_start, List.nil_append, zero_add] at b t k
  refine ⟨s, e, b, t, l, k, ?_⟩
  unfold capture_finish
  rw [if_pos ⟨by rw [t]; exact Int.natCast_nonneg _, l⟩, b]

/-- C24 witness: two full chunks and a chunk of one byte; the capacity is
doubled twice. -/
theorem capture_buffer_never_overflows_witness :
    (∃ s, capture_loop capture_start sample_chunks = some s ∧
        s.response_buffer = sample_chunks.flatten ∧
        s.total_response_size = sample_chunks.flatten.length ∧
        s.total_response_size < s.response_capacity ∧
        (∃ k, k ≤ sample_chunks.length ∧ s.response_capacity = (MAX_BYTES : Int) * 2 ^ k) ∧
        capture_finish s = some (cstr sample_chunks.flatten)) ∧
    (sample_chunks.map List.length = [8191, 8191, 1]) :=
  ⟨capture_buffer_never_overflows sample_chunks
    (by
      intro chunk hc
      simp only [sample_chunks, List.mem_cons, List.mem_singleton, List.not_mem_nil,
        or_false] at hc
      have hM : MAX_BYTES = 8192 := rfl
      rcases hc with rfl | rfl | rfl <;> simp only [List.length_replicate, hM] <;> omega)
    (by
      simp only [sample_chunks, List.flatten_cons, List.flatten_nil, List.length_append,
        List.length_replicate, List.length_nil]
      norm_num)
    sample_chunks (List.prefix_refl _),
   by simp only [sample_chunks, List.map_cons, List.map_nil, List.length_replicate]⟩

theorem cstr_append (p r : List Nat) (h : 0 ∉ p) : cstr (p ++ r) = p ++ cstr r := by
  unfold cstr
  rw [List.takeWhile_append_of_pos]
  intro x hx
  simp only [bne_iff_ne, ne_eq]
  rintro rfl
  exact h hx

/-- A needle that starts with a byte the string `p` does not hold is not found
inside `p`. -/
theorem strstr_skip (p r needle : List Nat) (a : Nat) (hn : needle.head? = some a)
    (hp : a ∉ p) : strstr (p ++ r) needle = (strstr r needle).map (· + p.length) := by
  induction p with
  | nil => simp
  | cons c p ih =>
    have hc : c ≠ a := fun h => hp (h ▸ List.mem_cons_self _ _)
    have hns : ¬ needle.isPrefixOf (c :: (p ++ r)) = true := by
      cases needle with
      | nil => simp at hn
      | cons b n =>
        simp only [List.head?_cons, Option.some.injEq] at hn
        subst hn
        simp only [List.isPrefixOf, Bool.and_eq_true, beq_iff_eq, not_and]
        intro h
        exact absurd h.symm hc
    show strstr (c :: (p ++ r)) needle = _
    rw [strstr, if_neg hns, ih (fun h => hp (List.mem_cons_of_mem _ h))]
    cases strstr r needle with
    | none => rfl
    | some i => simp only [Option.map_some', Option.some.injEq, List.length_cons]; omega

theorem strtok_first (t r d : List Nat) (c : Nat) (ht : t ≠ [])
    (hnd : ∀ x ∈ t, d.contains x = false) (hc : d.contains c = true) :
    strtok (t ++ c :: r) d = (some t, r) := by
  cases t with
  | nil => exact absurd rfl ht
  | cons x t =>
    have hx : d.contains x = false := hnd x (List.mem_cons_self _ _)
    unfold strtok
    have e1 : (x :: t ++ c :: r).dropWhile (fun c => d.contains c) = x :: t ++ c :: r := by
      rw [List.cons_append, List.dropWhile_cons, hx]; rfl
    rw [e1]
    have e2 : (x :: t ++ c :: r).takeWhile (fun y => !d.contains y) = x :: t := by
      rw [List.takeWhile_append_of_pos (fun y hy => by rw [hnd y hy]; rfl), List.takeWhile_cons,
        hc]
      simp
    have e3 : (x :: t ++ c :: r).dropWhile (fun y => !d.contains y) = c :: r := by
      rw [List.dropWhile_append_of_pos (fun y hy => by rw [hnd y hy]; rfl), List.dropWhile_cons,
        hc]
      simp
    simp only [List.cons_append] at e2 e3 ⊢
    rw [e2, e3]
    rfl

theorem strtok_last (t d : List Nat) (ht : t ≠ []) (hnd : ∀ x ∈ t, d.contains x = false) :
    (strtok t d).1 = some t := by
  cases t with
  | nil => exact absurd rfl ht
  | cons x t =>
    have hx : d.contains x = false := hnd x (List.mem_cons_self _ _)
    unfold strtok
    have e1 : (x :: t).dropWhile (fun c => d.contains c) = x :: t := by
      rw [List.dropWhile_cons, hx]; rfl
    rw [e1]
    have e2 : (x :: t).takeWhile (fun y => !d.contains y) = x :: t := by
      rw [List.takeWhile_eq_self_iff]
      intro y hy
      rw [hnd y hy]; rfl
    simp only [e2]

/-- The views of a buffer made of a request line without NUL and CR, the
header line `A: b` and the blank line. -/
theorem framed_views (line : List Nat) (h0 : 0 ∉ line) (h13 : 13 ∉ line) :
    body_start (line ++ (CRLF ++ ascii "A: b" ++ CRLFCRLF)) = some [] ∧
    request_line (line ++ (CRLF ++ ascii "A: b" ++ CRLFCRLF)) = some line := by
  have hc : cstr (line ++ (CRLF ++ ascii "A: b" ++ CRLFCRLF))
      = line ++ (CRLF ++ ascii "A: b" ++ CRLFCRLF) := by
    rw [cstr_append _ _ h0]
    congr 1
  have h4 : strstr (line ++ (CRLF ++ ascii "A: b" ++ CRLFCRLF)) CRLFCRLF
      = some (6 + line.length) := by
    rw [strstr_skip line _ CRLFCRLF 13 (by decide) h13]
    have : strstr (CRLF ++ ascii "A: b" ++ CRLFCRLF) CRLFCRLF = some 6 := by decide
    rw [this]; rfl
  have hlen : (CRLF ++ ascii "A: b" ++ CRLFCRLF).length = 10 := by decide
  have htake : (line ++ (CRLF ++ ascii "A: b" ++ CRLFCRLF)).take (6 + line.length)
      = line ++ (CRLF ++ ascii "A: b") := by
    rw [Nat.add_comm, List.take_append]
    congr 1
  have h2 : strstr (line ++ (CRLF ++ ascii "A: b")) CRLF = some (0 + line.length) := by
    rw [strstr_skip line _ CRLF 13 (by decide) h13]
    have : strstr (CRLF ++ ascii "A: b") CRLF = some 0 := by decide
    rw [this]; rfl
  constructor
  · unfold body_start
    rw [hc, h4]
    simp only [Option.map_some', Option.some.injEq]
    exact List.drop_eq_nil_of_le (by simp only [List.length_append, hlen]; omega)
  · unfold request_line header_section
    rw [hc, h4]
    simp only [Option.map_some', Option.some_bind]
    rw [htake, h2]
    simp only [Option.map_some', Option.some.injEq, Nat.zero_add]
    exact List.take_left' rfl

/-- The parser accepts `GET <u> HTTP/1.1` with the header line `A: b` for every
non-empty target `u` without NUL, CR and space. -/
theorem parse_get_request (u : List Nat) (hne : u ≠ [])
    (hu : ∀ x ∈ u, x ≠ 0 ∧ x ≠ 13 ∧ x ≠ 32) :
    ParsedRequest_parse ParsedRequest_create
        (ascii "GET" ++ SP ++ u ++ SP ++ ascii "HTTP/1.1" ++ CRLF ++ ascii "A: b" ++ CRLFCRLF) =
      some (0, (header_lines
          (ascii "GET" ++ SP ++ u ++ SP ++ ascii "HTTP/1.1" ++ CRLF ++ ascii "A: b"
            ++ CRLFCRLF)).foldl parse_header_line
        (before_headers ParsedRequest_create [] (ascii "GET") u (ascii "HTTP/1.1"))) := by
  have hb : ascii "GET" ++ SP ++ u ++ SP ++ ascii "HTTP/1.1" ++ CRLF ++ ascii "A: b" ++ CRLFCRLF
      = (ascii "GET" ++ SP ++ u ++ SP ++ ascii "HTTP/1.1") ++ (CRLF ++ ascii "A: b" ++ CRLFCRLF) := by
    simp only [List.append_assoc]
  have hG0 : ∀ x ∈ ascii "GET", x ≠ 0 ∧ x ≠ 13 ∧ x ≠ 32 := by decide
  have hV0 : ∀ x ∈ ascii "HTTP/1.1", x ≠ 0 ∧ x ≠ 13 ∧ x ≠ 32 := by decide
  have hS : SP = [32] := by decide
  have hmem : ∀ x ∈ ascii "GET" ++ SP ++ u ++ SP ++ ascii "HTTP/1.1", x ≠ 0 ∧ x ≠ 13 := by
    intro x hx
    simp only [List.mem_append, hS, List.mem_singleton] at hx
    rcases hx with (((hx | hx) | hx) | hx) | hx
    · exact ⟨(hG0 x hx).1, (hG0 x hx).2.1⟩
    · subst hx; decide
    · exact ⟨(hu x hx).1, (hu x hx).2.1⟩
    · subst hx; decide
    · exact ⟨(hV0 x hx).1, (hV0 x hx).2.1⟩
  obtain ⟨hbody, hline⟩ := framed_views (ascii "GET" ++ SP ++ u ++ SP ++ ascii "HTTP/1.1")
    (fun h => (hmem 0 h).1 rfl) (fun h => (hmem 13 h).2 rfl)
  have hsp : ∀ x, x ≠ 32 → SP.contains x = false := by
    intro x hx
    rw [SP_contains]; simpa using hx
  have hf : request_fields (ascii "GET" ++ SP ++ u ++ SP ++ ascii "HTTP/1.1")
      = (some (ascii "GET"), some u, some (ascii "HTTP/1.1")) := by
    have e : ascii "GET" ++ SP ++ u ++ SP ++ ascii "HTTP/1.1"
        = ascii "GET" ++ 32 :: (u ++ 32 :: ascii "HTTP/1.1") := by
      rw [hS]
      simp only [List.append_assoc, List.singleton_append, List.cons_append, List.nil_append]
    unfold request_fields
    rw [e, strtok_first (ascii "GET") _ SP 32 (by decide) (fun x hx => hsp x (hG0 x hx).2.2)
      (by decide)]
    dsimp only
    rw [strtok_first u _ SP 32 hne (fun x hx => hsp x (hu x hx).2.2) (by decide)]
    dsimp only
    rw [strtok_last (ascii "HTTP/1.1") SP_CR_LF (by decide) (by decide)]
  rw [parse_eq_from_views, hb, hbody, hline]
  unfold parse_from_views
  simp only [hf]
  rw [if_neg (by decide)]

/-- C27 (code defect): the client buffer `GET http://h/aaa...a HTTP/1.1` with
the header line `A: b`, 9032 bytes long, is accepted by the parser and the
worker passes the request to `handle_request`; the request line built there is
9016 bytes long, so the `strcat` calls write past the `MAX_BYTES` bytes of
`buf` and the upstream block is not shorter than `MAX_BYTES`. (A short request
gives the block one expects.) -/
theorem upstream_block_overflows :
    upstream_block ordered_request =
      some (ascii "GET / HTTP/1.1\r\nHost: h\r\nConnection: close\r\nB: 2\r\nA: 1\r\n\r\n") ∧
    long_target_buffer.length = 9032 ∧ long_target_buffer.length ≤ 2 * MAX_BYTES - 1 ∧
    ∃ request, ParsedRequest_parse ParsedRequest_create long_target_buffer = some (0, request) ∧
      thread_fn_action long_target_buffer = some (WorkerAction.proceed request) ∧
      request.method = ascii "GET" ∧
      request.path = some (47 :: List.replicate 9000 97) ∧
      request.version = some (ascii "HTTP/1.1") ∧
      (upstream_request_line request).length = 9016 ∧
      MAX_BYTES ≤ (upstream_request_line request).length ∧
      upstream_block request = none := by
  have hG : (ascii "GET").length = 3 := by decide
  have hV : (ascii "HTTP/1.1").length = 8 := by decide
  have hS : SP.length = 1 := by decide
  have hC : CRLF.length = 2 := by decide
  have hC4 : CRLFCRLF.length = 4 := by decide
  have hA : (ascii "A: b").length = 4 := by decide
  have hH : (ascii "http://h/").length = 9 := by decide
  have hM : MAX_BYTES = 8192 := by decide
  have hlen : long_target_buffer.length = 9032 := by
    simp only [long_target_buffer, long_target, List.length_append, List.length_replicate,
      hG, hV, hS, hC, hC4, hA, hH]
  have hu : ∀ x ∈ long_target, x ≠ 0 ∧ x ≠ 13 ∧ x ≠ 32 := by
    intro x hx
    simp only [long_target, List.mem_append, List.mem_replicate] at hx
    rcases hx with hx | hx
    · exact (by decide : ∀ y ∈ ascii "http://h/", y ≠ 0 ∧ y ≠ 13 ∧ y ≠ 32) x hx
    · rw [hx.2]; decide
  have hne : long_target ≠ [] := by
    intro h
    have := congrArg List.length h
    simp only [long_target, List.length_append, List.length_replicate, hH, List.length_nil] at this
    omega
  have hpre : HTTP_PREFIX <+: long_target :=
    ⟨ascii "h/" ++ List.replicate 9000 97, by
      rw [long_target, ← List.append_assoc]
      congr 1⟩
  have hdrop : long_target.drop 7 = 104 :: 47 :: List.replicate 9000 97 := by
    have e : long_target = HTTP_PREFIX ++ (104 :: 47 :: List.replicate 9000 97) := by
      rw [long_target]
      have : ascii "http://h/" = HTTP_PREFIX ++ [104, 47] := by decide
      rw [this, List.append_assoc]
      rfl
    rw [e]
    exact List.drop_left' (by decide)
  have hp : ParsedRequest_parse ParsedRequest_create long_target_buffer =
      some (0, (header_lines long_target_buffer).foldl parse_header_line
        (before_headers ParsedRequest_create [] (ascii "GET") long_target (ascii "HTTP/1.1"))) := by
    rw [long_target_buffer]
    exact parse_get_request long_target hne hu
  have hfr := foldl_frame (header_lines long_target_buffer)
    (before_headers ParsedRequest_create [] (ascii "GET") long_target (ascii "HTTP/1.1"))
  have hbf := before_headers_frame ParsedRequest_create [] (ascii "GET") long_target
    (ascii "HTTP/1.1")
  have habs := absolute_form_fields ParsedRequest_create [] (ascii "GET") long_target
    (ascii "HTTP/1.1") (header_lines long_target_buffer) hpre
  have hmethod := hfr.1.trans hbf.1
  have hversion := hfr.2.2.1.trans hbf.2.1
  have hpath := habs.2.2
  rw [hdrop, if_pos (show SLASH ∈ 104 :: 47 :: List.replicate 9000 97 from
    List.mem_cons_of_mem 104 (List.mem_cons_self 47 _))] at hpath
  have hdw : (104 :: 47 :: List.replicate 9000 97).dropWhile (fun c => c != SLASH)
      = 47 :: List.replicate 9000 97 := by
    rw [List.dropWhile_cons, if_pos (by decide), List.dropWhile_cons, if_neg (by decide)]
  rw [hdw] at hpath
  have hline : (upstream_request_line ((header_lines long_target_buffer).foldl parse_header_line
      (before_headers ParsedRequest_create [] (ascii "GET") long_target (ascii "HTTP/1.1")))).length
      = 9016 := by
    unfold upstream_request_line
    rw [hmethod, hversion, hpath]
    have : (strncpy (ascii "GET") (MAX_METHOD_LEN - 1)).length = 3 := by decide
    simp only [Option.getD_some, List.length_append, List.length_cons, List.length_replicate,
      this, hV, hS, hC]
  refine ⟨by decide, hlen, by rw [hlen, hM]; omega, _, hp, ?_, hmethod.trans (by decide), hpath, hversion, hline,
    by rw [hline, hM]; omega, ?_⟩
  · have h0 : 0 ∉ long_target_buffer := by
      intro h
      simp only [long_target_buffer, List.mem_append] at h
      rcases h with (((((((h | h) | h) | h) | h) | h) | h) | h)
      · exact absurd h (by decide)
      · exact absurd h (by decide)
      · exact (hu 0 h).1 rfl
      · exact absurd h (by decide)
      · exact absurd h (by decide)
      · exact absurd h (by decide)
      · exact absurd h (by decide)
      · exact absurd h (by decide)
    rw [thread_fn_action, cstr_eq_self _ h0, hp]
    dsimp only
    rw [if_neg (by decide), hmethod, if_neg (by decide), if_neg]
    rw [habs.1, hpath, hversion]
    simp only [Option.map_some', ne_eq, Option.some.injEq, reduceCtorEq, false_or]
    decide
  · rw [upstream_block]
    dsimp only
    rw [if_pos (by rw [hline, hM]; omega)]


end MTPSC
